import Mathlib

/-!
# Kora dashboard backend: graph-result normalisation and projection

A shallow embedding of the helper functions of `server.js`
(`convertNeo4jProperties`, `convertNeo4jDateToISO`, `neo4jIdToString`,
`getNodeDisplayLabel`, `getNodeTitle`), of the fold of the
`/api/graph/overview-formatted` handler, of the query compilation and the page
count of the `/api/leads` handler and of the queries of the
`/api/knowledgebase/items/:nodeType` handler, with theorems about them.  The definitions come first
(the embedding, an example host, the notions the statements use), the
theorems follow.

Modelling conventions.

* A JavaScript value is a `Val`.  Objects are lists of own enumerable
  properties in `for … in` order; instances of driver classes carry their
  class as a tag (`Cls`), the driver's 64-bit `Integer` is `Val.int`.  No
  object has an own property named `__proto__`.
* A finite JavaScript number is represented by its exact rational value
  (`JSNum.fin`); `-0` is identified with `0`.  Conversions from integers round
  to binary64 (`roundToDouble`), and so do the subtraction, the product and
  the quotient of the pagination (`jsSubOne`, `jsMul`, `jsDiv`); the
  arithmetic of the date components is exact.
* A thrown exception is `none` in an `Option` result.
* Built-ins whose result is implementation-defined, depends on the host's
  time zone or belongs to the driver are fields of `Host`; every theorem
  quantifies over the host unless it says otherwise.
* A string is a Lean string, a sequence of Unicode code points.  Where the
  source counts UTF-16 code units (`substring` in `getNodeDisplayLabel`) the
  string is taken as its code units (`utf16`), and the result, which may end
  in half a surrogate pair, is a list of code units.
* A property read on `null` or `undefined` throws; a function that reads a
  property of its argument before any test returns an `Option`.
* An instance of a driver class is an object the driver built: a temporal
  object carries the `Integer` components of its class.  The driver's
  `toString()` is a field of `Host` and is total; what it does on an object
  that has the class without the components is not modelled.
* A node or relationship object of a record is a structure with the fields
  the handler reads; `null` is `none`.
-/

namespace Kora

/-! ## Values -/

/-- A JavaScript number: `NaN`, the infinities, or a finite value. -/
inductive JSNum where
  | nan
  | posInf
  | negInf
  | fin (q : ℚ)
  deriving DecidableEq, Repr

/-- The class of an object: a plain object (a map), one of the five temporal
classes that `neo4j.isDate`, `isDateTime`, `isLocalDateTime`, `isTime` and
`isDuration` recognise, or any other class (`Node`, `Relationship`, `Point`,
`LocalTime`, …). -/
inductive Cls where
  | plain
  | date
  | dateTime
  | localDateTime
  | time
  | duration
  | other (name : String)
  deriving DecidableEq, Repr

/-- JavaScript values that can reach the helpers. -/
inductive Val where
  | undefined
  | null
  | bool (b : Bool)
  | num (n : JSNum)
  | str (s : String)
  | bigint (i : Int)
  | int (i : Int)
  | arr (items : List Val)
  | obj (c : Cls) (fields : List (String × Val))
  deriving Repr

/-- The built-ins of the JavaScript engine and of the driver that the source
calls and that are not determined by the source. -/
structure Host where
  /-- `Date.parse(s)`; `none` is `NaN`. -/
  dateParse : String → Option Int
  /-- `Number(s)` for a string `s`. -/
  numberOfString : String → JSNum
  /-- `String(n)` for a finite number that is not an integer below `10^21`. -/
  stringOfFinite : ℚ → String
  /-- `new Date(y, mo, d, h, mi, s, ms).getTime()` on numbers (local time). -/
  localDate : JSNum → JSNum → JSNum → JSNum → JSNum → JSNum → JSNum → JSNum
  /-- `toString()` of an instance of a driver class that the driver built. -/
  driverToString : Cls → List (String × Val) → String
  /-- `ToNumber` of a driver object; `none` when it throws. -/
  driverToNumber : Val → Option JSNum

/-- `neo4j.isInt(v)`. -/
def isInt : Val → Bool
  | .int _ => true
  | _ => false

/-- The test `neo4j.isDate(v) || neo4j.isDateTime(v) || neo4j.isLocalDateTime(v)
|| neo4j.isTime(v) || neo4j.isDuration(v)`. -/
def isTemporal : Val → Bool
  | .obj .date _ => true
  | .obj .dateTime _ => true
  | .obj .localDateTime _ => true
  | .obj .time _ => true
  | .obj .duration _ => true
  | _ => false

/-- The test `neo4j.isDate(v) || neo4j.isDateTime(v) || neo4j.isLocalDateTime(v)`. -/
def isDateLike : Val → Bool
  | .obj .date _ => true
  | .obj .dateTime _ => true
  | .obj .localDateTime _ => true
  | _ => false

/-- `typeof v === 'object'`. -/
def typeofObject : Val → Bool
  | .null => true
  | .int _ => true
  | .arr _ => true
  | .obj _ _ => true
  | _ => false

/-- The test `v === null`. -/
def isNull : Val → Bool
  | .null => true
  | _ => false

/-- `isNaN(n)` on a number. -/
def JSNum.isNaN : JSNum → Bool
  | .nan => true
  | _ => false

/-- JavaScript truthiness (`ToBoolean`). -/
def truthy : Val → Bool
  | .undefined => false
  | .null => false
  | .bool b => b
  | .num .nan => false
  | .num (.fin q) => decide (q ≠ 0)
  | .num _ => true
  | .str s => decide (s ≠ "")
  | .bigint i => decide (i ≠ 0)
  | .int _ => true
  | .arr _ => true
  | .obj _ _ => true

/-- Property read `o.k`: the own property, `undefined` when there is none. -/
def getProp : Val → String → Val
  | .obj _ fs, k => (fs.lookup k).getD .undefined
  | _, _ => .undefined

/-- Assignment `result[k] = v` on the property list of an object. -/
def objSet (acc : List (String × Val)) (k : String) (v : Val) : List (String × Val) :=
  match acc with
  | [] => [(k, v)]
  | (k0, v0) :: rest => if k0 = k then (k0, v) :: rest else (k0, v0) :: objSet rest k v

/-! ## Numbers and dates -/

/-- The number of binary digits of `n`, computed with `fuel` halvings. -/
def bitLengthAux : Nat → Nat → Nat
  | 0, _ => 0
  | fuel + 1, n => if n = 0 then 0 else bitLengthAux fuel (n / 2) + 1

/-- The number of binary digits of `n` (`0` for `0`). -/
def bitLength (n : Nat) : Nat :=
  bitLengthAux n n

/-- Rounding of an integer to the nearest binary64 value, ties to even
(`Integer.toNumber()`, `Number(bigint)`): the 53 leading bits are kept, and
the result overflows to an infinity when it reaches `2 ^ 1024`. -/
def roundToDouble (i : Int) : JSNum :=
  let n := i.natAbs
  let bits := bitLength n
  let e := bits - 53
  let q := n / 2 ^ e
  let r := n % 2 ^ e
  let q1 := if 2 * r > 2 ^ e ∨ (2 * r = 2 ^ e ∧ q % 2 = 1) then q + 1 else q
  let m := q1 * 2 ^ e
  if 1024 < bits ∨ (bits = 1024 ∧ q1 = 2 ^ 53) then (if i < 0 then .negInf else .posInf)
  else .fin (if i < 0 then -(m : Int) else (m : Int))

/-- The last `w` decimal digits of `n`, most significant first: `n` padded
with zeros on the left to width `w` when `n < 10 ^ w`. -/
def padDigits : Nat → Nat → List Char
  | 0, _ => []
  | w + 1, n => padDigits w (n / 10) ++ [Nat.digitChar (n % 10)]

/-- The civil date `(year, month, day)` of a day number counted from
1970-01-01 in the proleptic Gregorian calendar.  Days are counted from
0000-03-01 in eras of 400 years, centuries, four-year cycles and years. -/
def civilFromDays (days : Int) : Int × Nat × Nat :=
  let z := days + 719468
  let era := z / 146097
  let doe := (z % 146097).toNat
  let c := min (doe / 36524) 3
  let r1 := doe - 36524 * c
  let q := r1 / 1461
  let r2 := r1 - 1461 * q
  let yr := min (r2 / 365) 3
  let doy := r2 - 365 * yr
  let yoe := 100 * c + 4 * q + yr
  let mp := (5 * doy + 2) / 153
  let d := doy - (153 * mp + 2) / 5 + 1
  let m := if mp < 10 then mp + 3 else mp - 9
  let y := (yoe : Int) + era * 400
  (if m ≤ 2 then y + 1 else y, m, d)

/-- The characters of the year in `toISOString`: four digits for the years
0 to 9999, a sign and six digits otherwise. -/
def yearChars (y : Int) : List Char :=
  if 0 ≤ y ∧ y ≤ 9999 then padDigits 4 y.toNat
  else (if y < 0 then '-' else '+') :: padDigits 6 y.natAbs

/-- The characters of `Date.prototype.toISOString` on a valid time value `t`
(milliseconds since the epoch, UTC). -/
def toISOChars (t : Int) : List Char :=
  let ms := (t % 86400000).toNat
  let ymd := civilFromDays (t / 86400000)
  yearChars ymd.1 ++ ('-' :: (padDigits 2 ymd.2.1 ++ ('-' :: (padDigits 2 ymd.2.2
    ++ ('T' :: (padDigits 2 (ms / 3600000) ++ (':' :: (padDigits 2 (ms / 60000 % 60)
    ++ (':' :: (padDigits 2 (ms / 1000 % 60) ++ ('.' :: (padDigits 3 (ms % 1000)
    ++ ['Z']))))))))))))

/-- `Date.prototype.toISOString` on a valid time value. -/
def toISOString (t : Int) : String :=
  String.mk (toISOChars t)

/-- `TimeClip`: the time value of `new Date(n)`, `none` for an invalid date.
A finite `q` is valid when `abs q ≤ 8.64e15`, tested on numerator and
denominator, and is truncated towards zero. -/
def timeClip : JSNum → Option Int
  | .fin q =>
    if q.num.natAbs ≤ 8640000000000000 * q.den then some (q.num.tdiv q.den) else none
  | _ => none

/-- `new Date(n).toISOString()`: throws a `RangeError` on an invalid date. -/
def dateToISO (n : JSNum) : Option String :=
  (timeClip n).map toISOString

/-- `String(n)` for a number. -/
def numToString (h : Host) : JSNum → String
  | .nan => "NaN"
  | .posInf => "Infinity"
  | .negInf => "-Infinity"
  | .fin q =>
    if q.den = 1 ∧ q.num.natAbs < 10 ^ 21 then toString q.num else h.stringOfFinite q

/-! ## String conversion -/

mutual
/-- `String(v)`. -/
def jsString (h : Host) : Val → String
  | .undefined => "undefined"
  | .null => "null"
  | .bool b => if b then "true" else "false"
  | .num n => numToString h n
  | .str s => s
  | .bigint i => toString i
  | .int i => toString i
  | .arr xs => joinItems h "," xs
  | .obj .plain _ => "[object Object]"
  | .obj c fs => h.driverToString c fs
/-- `xs.join(sep)`: `null` and `undefined` elements are rendered as the empty
string. -/
def joinItems (h : Host) (sep : String) : List Val → String
  | [] => ""
  | [x] => joinItem h x
  | x :: y :: rest => joinItem h x ++ sep ++ joinItems h sep (y :: rest)
/-- The rendering of one element inside `join`. -/
def joinItem (h : Host) : Val → String
  | .undefined => ""
  | .null => ""
  | .bool b => if b then "true" else "false"
  | .num n => numToString h n
  | .str s => s
  | .bigint i => toString i
  | .int i => toString i
  | .arr xs => joinItems h "," xs
  | .obj .plain _ => "[object Object]"
  | .obj c fs => h.driverToString c fs
end

/-- `ToNumber(v)`; `none` when it throws a `TypeError`. -/
def jsToNumber (h : Host) : Val → Option JSNum
  | .undefined => some .nan
  | .null => some (.fin 0)
  | .bool b => some (.fin (if b then 1 else 0))
  | .num n => some n
  | .str s => some (h.numberOfString s)
  | .bigint _ => none
  | .arr xs => some (h.numberOfString (jsString h (.arr xs)))
  | .obj .plain fs => some (h.numberOfString (jsString h (.obj .plain fs)))
  | v => h.driverToNumber v

/-- Subtraction `n - 1` on numbers. -/
def JSNum.pred : JSNum → JSNum
  | .fin q => .fin (q - 1)
  | n => n

/-- Division `n / 1000000` on numbers. -/
def JSNum.divMillion : JSNum → JSNum
  | .fin q => .fin (q / 1000000)
  | n => n

/-- The method call `v.toNumber()`: defined on the driver's `Integer`, a
`TypeError` on every other value. -/
def callToNumber : Val → Option JSNum
  | .int i => some (roundToDouble i)
  | _ => none

/-- The expression `c ? c.toNumber() : 0` of the temporal branch. -/
def optComponent (c : Val) : Option JSNum :=
  if truthy c then callToNumber c else some (.fin 0)

/-- The expression `c || 0`. -/
def orZero (c : Val) : Val :=
  if truthy c then c else .num (.fin 0)

/-! ## convertNeo4jDateToISO -/

/-- The `try` block of `convertNeo4jDateToISO` up to the final test: the value
of `timestampNumber` (`some none` when it is left `undefined`), or `none` when
an exception is thrown (a property read on `null`, a method call on a value
that has no such method, `ToNumber` of a `bigint`). -/
def timestampNumber (h : Host) (dateValue : Val) : Option (Option JSNum) :=
  match dateValue with
  | .null => none
  | .bigint i => some (some (roundToDouble i))
  | .int i => some (some (roundToDouble i))
  | .num n => some (some n)
  | .str s =>
    match h.dateParse s with
    | some t => some (some (.fin t))
    | none =>
      let numAttempt := h.numberOfString s
      if !numAttempt.isNaN then some (some numAttempt) else some (some .nan)
  | v =>
    if isDateLike v then do
      let y ← callToNumber (getProp v "year")
      let mo ← callToNumber (getProp v "month")
      let d ← callToNumber (getProp v "day")
      let hr ← optComponent (getProp v "hour")
      let mi ← optComponent (getProp v "minute")
      let s ← optComponent (getProp v "second")
      let ns := getProp v "nanosecond"
      let ms ← if truthy ns then (callToNumber ns).map JSNum.divMillion else some (.fin 0)
      pure (some (h.localDate y mo.pred d hr mi s ms))
    else if typeofObject v && truthy (getProp v "year") && truthy (getProp v "month")
        && truthy (getProp v "day") then do
      let y ← jsToNumber h (getProp v "year")
      let mo ← jsToNumber h (getProp v "month")
      let d ← jsToNumber h (getProp v "day")
      let hr ← jsToNumber h (orZero (getProp v "hour"))
      let mi ← jsToNumber h (orZero (getProp v "minute"))
      let s ← jsToNumber h (orZero (getProp v "second"))
      pure (some (h.localDate y mo.pred d hr mi s (.fin 0)))
    else some none

/-- The function `convertNeo4jDateToISO(dateValue)`. -/
def convertNeo4jDateToISO (h : Host) (dateValue : Val) : Val :=
  match dateValue with
  | .null => .null
  | .undefined => .null
  | v =>
    match timestampNumber h v with
    | some (some n) =>
      if !n.isNaN then
        match dateToISO n with
        | some iso => .str iso
        | none => .str (jsString h v)
      else .str (jsString h v)
    | some none => .str (jsString h v)
    | none => .str (jsString h v)

/-! ## convertNeo4jProperties -/

/-- The literal list of timestamp field names in `convertNeo4jProperties`. -/
def timestampKeys : List String :=
  ["dtCriacao", "dtUltimaAtualizacao", "createdAt", "updatedAt", "lastInteraction",
   "timestamp", "eventTimestamp", "reflectionTimestamp", "hypothesisTimestamp"]

mutual
/-- The loop `for (const key in properties)` of `convertNeo4jProperties`,
started with `result = acc`. -/
def convFields (h : Host) : List (String × Val) → List (String × Val) → List (String × Val)
  | [], acc => acc
  | (key, value) :: rest, acc => convFields h rest (objSet acc key (convValue h key value))
/-- The body of the loop: the value stored under `key`.  The cases follow
the `if … else if` chain of the source: a driver `Integer`, one of the five
temporal classes, a `bigint`, then an allow-listed key, then an array, then
any other object, then every other value. -/
def convValue (h : Host) (key : String) : Val → Val
  | .int i => .num (roundToDouble i)
  | .obj .date fs => .str (h.driverToString .date fs)
  | .obj .dateTime fs => .str (h.driverToString .dateTime fs)
  | .obj .localDateTime fs => .str (h.driverToString .localDateTime fs)
  | .obj .time fs => .str (h.driverToString .time fs)
  | .obj .duration fs => .str (h.driverToString .duration fs)
  | .bigint i => .num (roundToDouble i)
  | .arr xs =>
    if timestampKeys.contains key then convertNeo4jDateToISO h (.arr xs)
    else .arr (convItems h xs)
  | .obj c fs =>
    if timestampKeys.contains key then convertNeo4jDateToISO h (.obj c fs)
    else .obj .plain (convFields h fs [])
  | value => if timestampKeys.contains key then convertNeo4jDateToISO h value else value
/-- The call `value.map(item => …)` on an array value. -/
def convItems (h : Host) : List Val → List Val
  | [] => []
  | item :: rest => convItem h item :: convItems h rest
/-- The callback of `map`. -/
def convItem (h : Host) : Val → Val
  | .int i => .num (roundToDouble i)
  | .bigint i => .num (roundToDouble i)
  | .obj _ fs => .obj .plain (convFields h fs [])
  | item => item
end

/-- The low word of the driver's `Integer`: the low 32 bits of `i` as a signed
32-bit number. -/
def intLow (i : Int) : Int :=
  Int.bmod i (2 ^ 32)

/-- The high word of the driver's `Integer`: the bits 32 to 63 of `i` as a
signed 32-bit number. -/
def intHigh (i : Int) : Int :=
  Int.bmod (i / 2 ^ 32) (2 ^ 32)

/-- The own enumerable properties that `for … in` visits on a value: the
fields of an object, the indices of an array or of a string, the two words
`low` and `high` of a driver `Integer`.  A string is visited character by
character, which is index by index on a string of the Basic Multilingual
Plane. -/
def ownEntries : Val → List (String × Val)
  | .obj _ fs => fs
  | .arr xs => (List.range xs.length).zip xs |>.map (fun p => (toString p.1, p.2))
  | .str s => (List.range s.length).zip s.data |>.map (fun p => (toString p.1, .str (String.mk [p.2])))
  | .int i => [("low", .num (.fin ((intLow i : Int) : ℚ))), ("high", .num (.fin ((intHigh i : Int) : ℚ)))]
  | _ => []

/-- The function `convertNeo4jProperties(properties)`. -/
def convertNeo4jProperties (h : Host) (properties : Val) : Val :=
  if !truthy properties then .obj .plain []
  else .obj .plain (convFields h (ownEntries properties) [])

/-! ## Display helpers -/

/-- The function `neo4jIdToString(idField)`. -/
def neo4jIdToString (h : Host) (idField : Val) : String :=
  match idField with
  | .int i => toString i
  | v => jsString h v

/-- The UTF-16 code units of a character: one unit in the Basic Multilingual
Plane, a surrogate pair above it. -/
def charUnits (c : Char) : List Nat :=
  if c.toNat < 0x10000 then [c.toNat]
  else [0xD800 + (c.toNat - 0x10000) / 0x400, 0xDC00 + (c.toNat - 0x10000) % 0x400]

/-- The UTF-16 code units of a string: the elements that `length`, indexing
and `substring` count. -/
def utf16 (s : String) : List Nat :=
  s.data.flatMap charUnits

/-- `s.substring(0, n)` on the code units of `s`. -/
def substringTo (units : List Nat) (n : Nat) : List Nat :=
  units.take n

/-- The body of `getNodeDisplayLabel(properties, labels)` on a `properties`
whose properties can be read; `labels` is an array of strings or (`none`)
`null`/`undefined`.  The result is given by its UTF-16 code units. -/
def displayLabel (h : Host) (properties : Val) (labels : Option (List String)) : List Nat :=
  if truthy (getProp properties "nome") then utf16 (jsString h (getProp properties "nome"))
  else if truthy (getProp properties "name") then utf16 (jsString h (getProp properties "name"))
  else if truthy (getProp properties "idWhatsapp") then
    utf16 "Lead: " ++ substringTo (utf16 (jsString h (getProp properties "idWhatsapp"))) 10
      ++ utf16 "..."
  else if truthy (getProp properties "type") then utf16 (jsString h (getProp properties "type"))
  else match labels with
    | some (l :: ls) => utf16 (", ".intercalate (l :: ls))
    | _ => utf16 "Nó Desconhecido"

/-- The function `getNodeDisplayLabel(properties, labels)`: its first
statement reads `properties.nome`, a `TypeError` (`none`) when `properties` is
`null` or `undefined`. -/
def getNodeDisplayLabel (h : Host) (properties : Val) (labels : Option (List String)) :
    Option (List Nat) :=
  match properties with
  | .null => none
  | .undefined => none
  | p => some (displayLabel h p labels)

/-- White space and line terminators, the characters `String.prototype.trim`
removes. -/
def isJsSpace (c : Char) : Bool :=
  [0x09, 0x0A, 0x0B, 0x0C, 0x0D, 0x20, 0xA0, 0x1680, 0x2000, 0x2001, 0x2002, 0x2003,
   0x2004, 0x2005, 0x2006, 0x2007, 0x2008, 0x2009, 0x200A, 0x2028, 0x2029, 0x202F,
   0x205F, 0x3000, 0xFEFF].contains c.toNat

/-- `s.trim()`. -/
def jsTrim (s : String) : String :=
  String.mk (((s.data.dropWhile isJsSpace).reverse.dropWhile isJsSpace).reverse)

/-- One line of the loop of `getNodeTitle`. -/
def titleLine (h : Host) (key : String) (value : Val) : String :=
  if typeofObject value && !isNull value then
    match value with
    | .arr xs =>
      key ++ ": " ++ joinItems h ", " (xs.take 3) ++ (if xs.length > 3 then "..." else "") ++ "\n"
    | _ => key ++ ": [Objeto Complexo]\n"
  else key ++ ": " ++ jsString h value ++ "\n"

/-- The function `getNodeTitle(properties, labels, id)`. -/
def getNodeTitle (h : Host) (properties : Val) (labels : List String) (id : String) : String :=
  jsTrim ((ownEntries properties).foldl (fun title kv => title ++ titleLine h kv.1 kv.2)
    ("ID: " ++ id ++ "\nLabels: " ++ ", ".intercalate labels ++ "\n"))

/-! ## The graph-overview fold -/

/-- A node object of a result row. -/
structure Node where
  identity : Val
  labels : List String
  properties : Val

/-- A relationship object of a result row. -/
structure Relationship where
  identity : Val
  start : Val
  end_ : Val
  type_ : String
  properties : Val

/-- A record of the query result; `none` is `null`. -/
structure Row where
  node1 : Option Node
  relationship : Option Relationship
  node2 : Option Node

/-- An entry of `nodes` in the response; `label` is given by its UTF-16 code
units. -/
structure VisualNode where
  id : String
  label : List Nat
  group : String
  title : String
  properties : Val

/-- An entry of `edges` in the response. -/
structure VisualEdge where
  from_ : String
  to_ : String
  label : String
  title : String
  properties : Val

/-- `nodesMap.has(k)` on a `Map` kept in insertion order. -/
def mapHas (m : List (String × VisualNode)) (k : String) : Bool :=
  m.any (fun e => e.1 == k)

/-- `nodesMap.set(k, v)`: replaces the value of an existing key in place,
appends a new key. -/
def mapSet (m : List (String × VisualNode)) (k : String) (v : VisualNode) :
    List (String × VisualNode) :=
  match m with
  | [] => [(k, v)]
  | (k0, v0) :: rest => if k0 = k then (k0, v) :: rest else (k0, v0) :: mapSet rest k v

/-- The expression `node.labels[0] || 'Unknown'`. -/
def nodeGroup (labels : List String) : String :=
  match labels with
  | l :: _ => if l ≠ "" then l else "Unknown"
  | [] => "Unknown"

/-- The VisualNode built for a node object.  `props` is the object that
`convertNeo4jProperties` returned, on which `getNodeDisplayLabel` does not
throw: its value there is `displayLabel`. -/
def visualNode (h : Host) (node : Node) : VisualNode :=
  let nodeId := neo4jIdToString h node.identity
  let props := convertNeo4jProperties h node.properties
  { id := nodeId
    label := displayLabel h props (some node.labels)
    group := nodeGroup node.labels
    title := getNodeTitle h props node.labels nodeId
    properties := props }

/-- The callback of `[node1, node2].forEach`. -/
def visitNode (h : Host) (nodesMap : List (String × VisualNode)) (node : Option Node) :
    List (String × VisualNode) :=
  match node with
  | none => nodesMap
  | some n =>
    let nodeId := neo4jIdToString h n.identity
    if !mapHas nodesMap nodeId then mapSet nodesMap nodeId (visualNode h n) else nodesMap

/-- The VisualEdge pushed for a relationship. -/
def visualEdge (h : Host) (relationship : Relationship) : VisualEdge :=
  { from_ := neo4jIdToString h relationship.start
    to_ := neo4jIdToString h relationship.end_
    label := relationship.type_
    title := relationship.type_
    properties := convertNeo4jProperties h relationship.properties }

/-- The state of the fold: `nodesMap` and `edges`. -/
structure BuildState where
  nodesMap : List (String × VisualNode)
  edges : List VisualEdge

/-- The callback of `result.records.forEach`. -/
def buildStep (h : Host) (st : BuildState) (record : Row) : BuildState :=
  let nodesMap := [record.node1, record.node2].foldl (visitNode h) st.nodesMap
  match record.relationship with
  | some relationship => { nodesMap := nodesMap, edges := st.edges ++ [visualEdge h relationship] }
  | none => { nodesMap := nodesMap, edges := st.edges }

/-- The response of the graph-overview handler. -/
structure Graph where
  nodes : List VisualNode
  edges : List VisualEdge

/-- The fold of `/api/graph/overview-formatted` over the records:
`{ nodes: Array.from(nodesMap.values()), edges }`. -/
def build (h : Host) (rows : List Row) : Graph :=
  let st := rows.foldl (buildStep h) { nodesMap := [], edges := [] }
  { nodes := st.nodesMap.map Prod.snd, edges := st.edges }

/-! ## An example host

A concrete host, used where a statement is evaluated on concrete inputs.  Its
time zone is UTC; `Date.parse` accepts exactly the strings `toISOString`
produces; `Number` reads the empty string, decimal integers and `Infinity`;
a finite number that is not a small integer is printed as a fraction; of the
driver classes `Date` is rendered the way the driver does, and so are the
classes that have no `toString` of their own (`Node`, `Relationship`). -/

/-- The day number, counted from 1970-01-01, of a civil date. -/
def daysFromCivil (y : Int) (m d : Nat) : Int :=
  let y1 := if m ≤ 2 then y - 1 else y
  let era := y1 / 400
  let yoe := (y1 % 400).toNat
  let mp := if m > 2 then m - 3 else m + 9
  let doy := (153 * mp + 2) / 5 + d - 1
  let doe := yoe * 365 + yoe / 4 - yoe / 100 + doy
  era * 146097 + (doe : Int) - 719468

/-- The value of a decimal digit. -/
def digitVal (c : Char) : Option Nat :=
  if 48 ≤ c.toNat ∧ c.toNat ≤ 57 then some (c.toNat - 48) else none

/-- The number written by a list of decimal digits. -/
def readNat (cs : List Char) : Option Nat :=
  cs.foldlM (fun acc c => (digitVal c).map (fun d => acc * 10 + d)) 0

/-- Reads `k` decimal digits at the head of `cs`. -/
def takeNat (k : Nat) (cs : List Char) : Option (Nat × List Char) :=
  if k ≤ cs.length then (readNat (cs.take k)).map (fun n => (n, cs.drop k)) else none

/-- Reads the character `c` at the head of `cs`. -/
def expectChar (c : Char) (cs : List Char) : Option (List Char) :=
  match cs with
  | c1 :: rest => if c1 = c then some rest else none
  | [] => none

/-- Reads the year: four digits, or a sign and six digits. -/
def takeYear (cs : List Char) : Option (Int × List Char) :=
  match cs with
  | c :: rest =>
    if c = '+' then (takeNat 6 rest).map (fun p => ((p.1 : Int), p.2))
    else if c = '-' then (takeNat 6 rest).map (fun p => (-(p.1 : Int), p.2))
    else (takeNat 4 cs).map (fun p => ((p.1 : Int), p.2))
  | [] => none

/-- Reads `k` decimal digits followed by the character `sep`. -/
def takeField (k : Nat) (sep : Char) (cs : List Char) : Option (Nat × List Char) :=
  (takeNat k cs).bind (fun p => (expectChar sep p.2).map (fun rest => (p.1, rest)))

/-- The time value written by the fields of `YYYY-MM-DDTHH:mm:ss.sssZ`. -/
def isoTime (cs : List Char) : Option Int :=
  (takeYear cs).bind fun y =>
  (expectChar '-' y.2).bind fun cs1 =>
  (takeField 2 '-' cs1).bind fun mo =>
  (takeField 2 'T' mo.2).bind fun d =>
  (takeField 2 ':' d.2).bind fun hr =>
  (takeField 2 ':' hr.2).bind fun mi =>
  (takeField 2 '.' mi.2).bind fun sec =>
  (takeField 3 'Z' sec.2).bind fun ms =>
  if ms.2 = [] then
    some (daysFromCivil y.1 mo.1 d.1 * 86400000 + hr.1 * 3600000 + mi.1 * 60000
      + sec.1 * 1000 + ms.1)
  else none

/-- The example host's `Date.parse`: the time value of a string that
`toISOString` produces for a valid time value, `NaN` for every other string. -/
def isoParse (s : String) : Option Int :=
  match isoTime s.data with
  | some t =>
    if -8640000000000000 ≤ t ∧ t ≤ 8640000000000000 ∧ toISOChars t = s.data then some t
    else none
  | none => none

/-- The example host's `Number(s)`. -/
def exampleNumber (s : String) : JSNum :=
  match (s.data.dropWhile isJsSpace).reverse.dropWhile isJsSpace |>.reverse with
  | [] => .fin 0
  | '-' :: cs =>
    if cs = "Infinity".data then .negInf
    else match readNat cs with
      | some n => if cs = [] then .nan else roundToDouble (-(n : Int))
      | none => .nan
  | '+' :: cs =>
    if cs = "Infinity".data then .posInf
    else match readNat cs with
      | some n => if cs = [] then .nan else roundToDouble n
      | none => .nan
  | cs =>
    if cs = "Infinity".data then .posInf
    else match readNat cs with
      | some n => roundToDouble n
      | none => .nan

/-- `ToIntegerOrInfinity` on a finite number. -/
def truncNum : JSNum → Option Int
  | .fin q => some (q.num.tdiv q.den)
  | _ => none

/-- The example host's `new Date(y, mo, d, h, mi, s, ms).getTime()`, in UTC. -/
def exampleLocalDate (y mo d hr mi s ms : JSNum) : JSNum :=
  match truncNum y, truncNum mo, truncNum d, truncNum hr, truncNum mi, truncNum s, truncNum ms with
  | some y, some mo, some d, some hr, some mi, some s, some ms =>
    let yr := if 0 ≤ y ∧ y ≤ 99 then 1900 + y else y
    let day := daysFromCivil (yr + mo / 12) ((mo % 12).toNat + 1) 1 + d - 1
    let t := day * 86400000 + hr * 3600000 + mi * 60000 + s * 1000 + ms
    if -8640000000000000 ≤ t ∧ t ≤ 8640000000000000 then .fin t else .nan
  | _, _, _, _, _, _, _ => .nan

/-- The example host's rendering of a driver object. -/
def exampleDriverToString (c : Cls) (fs : List (String × Val)) : String :=
  match c, fs.lookup "year", fs.lookup "month", fs.lookup "day" with
  | .date, some (.int y), some (.int m), some (.int d) =>
    String.mk (yearChars y ++ '-' :: padDigits 2 m.toNat ++ '-' :: padDigits 2 d.toNat)
  | _, _, _, _ => "[object Object]"

/-- The example host. -/
def exampleHost : Host where
  dateParse := isoParse
  numberOfString := exampleNumber
  stringOfFinite := fun q => toString q.num ++ "/" ++ toString q.den
  localDate := exampleLocalDate
  driverToString := exampleDriverToString
  driverToNumber := fun v => match v with
    | .int _ => none
    | _ => some .nan

/-! ## Auxiliary notions used in the statements -/

/-- The node objects of the records in scan order: `node1` before `node2`
within a record, `null` skipped. -/
def rowNodes (rows : List Row) : List Node :=
  rows.flatMap (fun r => r.node1.toList ++ r.node2.toList)

/-- The first node object of each identity string, in order of first
appearance. -/
def firstById (h : Host) : List Node → List Node
  | [] => []
  | n :: rest =>
    n :: (firstById h rest).filter
      (fun m => neo4jIdToString h m.identity != neo4jIdToString h n.identity)

/-- The record of the scenario: Lead 1 'Ana' -TEM_DOR-> Dor 2 'Preço alto'. -/
def scenarioRow : Row :=
  { node1 := some { identity := Val.int 1, labels := ["Lead"],
                    properties := Val.obj Cls.plain [("nome", Val.str "Ana")] }
    relationship := some { identity := Val.int 9, start := Val.int 1, end_ := Val.int 2,
                           type_ := "TEM_DOR", properties := Val.obj Cls.plain [] }
    node2 := some { identity := Val.int 2, labels := ["Dor"],
                    properties := Val.obj Cls.plain [("nome", Val.str "Preço alto")] } }

/-- A record whose relationship ends at a node that the record does not
carry (`node2` is `null`). -/
def danglingRow : Row :=
  { node1 := some { identity := Val.int 1, labels := ["Lead"],
                    properties := Val.obj Cls.plain [] }
    relationship := some { identity := Val.int 9, start := Val.int 1, end_ := Val.int 2,
                           type_ := "TEM_DOR", properties := Val.obj Cls.plain [] }
    node2 := none }

/-- Two records that carry the node of identity 1 with different properties. -/
def repeatedRows : List Row :=
  [{ node1 := some { identity := Val.int 1, labels := ["Lead"],
                     properties := Val.obj Cls.plain [("nome", Val.str "A")] }
     relationship := none
     node2 := none },
   { node1 := some { identity := Val.int 1, labels := ["Lead"],
                     properties := Val.obj Cls.plain [("nome", Val.str "B")] }
     relationship := none
     node2 := none }]

/-- A scalar that is not store-native: `null`, a boolean, a number or a
string. -/
def isPlainScalar : Val → Bool
  | .null => true
  | .bool _ => true
  | .num _ => true
  | .str _ => true
  | _ => false

/-- The test `typeof v === 'bigint'`. -/
def isBigInt : Val → Bool
  | .bigint _ => true
  | _ => false

/-- A step of a path into a value: into a map by a key, into a list by an
index. -/
inductive Step where
  | key (k : String)
  | idx (i : Nat)
  deriving DecidableEq, Repr

/-- The child of a value along one step: the property of a map, the element
of a list. -/
def child : Val → Step → Option Val
  | .obj .plain fs, .key k => fs.lookup k
  | .arr xs, .idx i => xs[i]?
  | _, _ => none

/-- The value found in `v` at the end of a path through maps and lists. -/
def valAt : Val → List Step → Option Val
  | v, [] => some v
  | v, s :: p => (child v s).bind (fun c => valAt c p)

/-- Where a value stands: stored in a map under a key, or element of a list. -/
inductive Place where
  | under (key : String)
  | element
  deriving DecidableEq, Repr

/-- The paths that the recursion of `convertNeo4jProperties` follows below a
value standing at a given place: it steps into a map or a list stored under a
key only when the key is not allow-listed, it steps from a list into a map
element, and it never steps from a list into a list element. -/
def followed : Place → List Step → Bool
  | _, [] => true
  | .under k, .key k2 :: p => !timestampKeys.contains k && followed (.under k2) p
  | .under k, .idx _ :: p => !timestampKeys.contains k && followed .element p
  | .element, .key k2 :: p => followed (.under k2) p
  | .element, .idx _ :: _ => false

/-- What the source does with a value standing at a place. -/
def convAt (h : Host) : Place → Val → Val
  | .under k, v => convValue h k v
  | .element, v => convItem h v

mutual
/-- Well-formedness of a value: at every depth the keys of an object are
pairwise distinct. -/
def wellFormed : Val → Bool
  | .arr xs => wellFormedItems xs
  | .obj _ fs => decide ((fs.map Prod.fst).Nodup) && wellFormedFields fs
  | _ => true
/-- Well-formedness of the elements of a list. -/
def wellFormedItems : List Val → Bool
  | [] => true
  | x :: rest => wellFormed x && wellFormedItems rest
/-- Well-formedness of the values of the properties of an object. -/
def wellFormedFields : List (String × Val) → Bool
  | [] => true
  | (_, v) :: rest => wellFormed v && wellFormedFields rest
end

mutual
/-- A portable value: `null`, a boolean, a number, a string, a list of
portable values or a map of portable values. -/
def portable : Val → Bool
  | .null => true
  | .bool _ => true
  | .num _ => true
  | .str _ => true
  | .arr xs => portableItems xs
  | .obj .plain fs => portableFields fs
  | _ => false
/-- All elements of a list are portable. -/
def portableItems : List Val → Bool
  | [] => true
  | x :: rest => portable x && portableItems rest
/-- All property values of a map are portable. -/
def portableFields : List (String × Val) → Bool
  | [] => true
  | (_, v) :: rest => portable v && portableFields rest
end

mutual
/-- A value without `undefined` at any depth. -/
def noUndefined : Val → Bool
  | .undefined => false
  | .arr xs => noUndefinedItems xs
  | .obj _ fs => noUndefinedFields fs
  | _ => true
/-- No `undefined` in the elements of a list. -/
def noUndefinedItems : List Val → Bool
  | [] => true
  | x :: rest => noUndefined x && noUndefinedItems rest
/-- No `undefined` in the property values of an object. -/
def noUndefinedFields : List (String × Val) → Bool
  | [] => true
  | (_, v) :: rest => noUndefined v && noUndefinedFields rest
end

mutual
/-- A value that is portable outside the lists nested directly in a list:
`null`, a boolean, a number, a string, a map of such values, or a list whose
elements are such values or are lists (of anything). -/
def portableOutsideNestedLists : Val → Bool
  | .null => true
  | .bool _ => true
  | .num _ => true
  | .str _ => true
  | .arr xs => portableOrListItems xs
  | .obj .plain fs => portableOutsideNestedListsFields fs
  | _ => false
/-- Every element is a list or is portable outside nested lists. -/
def portableOrListItems : List Val → Bool
  | [] => true
  | .arr _ :: rest => portableOrListItems rest
  | x :: rest => portableOutsideNestedLists x && portableOrListItems rest
/-- Every property value is portable outside nested lists. -/
def portableOutsideNestedListsFields : List (String × Val) → Bool
  | [] => true
  | (_, v) :: rest => portableOutsideNestedLists v && portableOutsideNestedListsFields rest
end

mutual
/-- The timestamp fields of a map are simple: at every map the recursion
visits, a value stored under an allow-listed key is `null`, a string or a
number that is a valid time value. -/
def stampsSimpleFields : List (String × Val) → Bool
  | [] => true
  | (k, v) :: rest => stampsSimpleValue k v && stampsSimpleFields rest
/-- The same for a value stored under the key `k`. -/
def stampsSimpleValue (k : String) : Val → Bool
  | .null => true
  | .str _ => true
  | .num n => !timestampKeys.contains k || (timeClip n).isSome
  | .arr xs => !timestampKeys.contains k && stampsSimpleItems xs
  | .obj _ fs => !timestampKeys.contains k && stampsSimpleFields fs
  | _ => !timestampKeys.contains k
/-- The same for the elements of a list: only its map elements are visited. -/
def stampsSimpleItems : List Val → Bool
  | [] => true
  | .obj _ fs :: rest => stampsSimpleFields fs && stampsSimpleItems rest
  | _ :: rest => stampsSimpleItems rest
end

/-- The valid time values: at most 8.64e15 milliseconds from the epoch. -/
def validTime (t : Int) : Prop :=
  -8640000000000000 ≤ t ∧ t ≤ 8640000000000000

/-- The law of `Date.parse` that ECMAScript states for `toISOString`: the
string of a valid time value is parsed back to that time value. -/
def ParsesISO (h : Host) : Prop :=
  ∀ t, validTime t → h.dateParse (toISOString t) = some t

/-! ## Query compilation for /api/leads -/

/-- `xs.join(sep)` on an array of strings. -/
def joinStrings (sep : String) : List String → String
  | [] => ""
  | [x] => x
  | x :: y :: rest => x ++ sep ++ joinStrings sep (y :: rest)

/-- The value of a digit in the given radix (10 or 16). -/
def radixDigit (radix : Nat) (c : Char) : Option Nat :=
  if 48 ≤ c.toNat ∧ c.toNat ≤ 57 then some (c.toNat - 48)
  else if radix = 16 ∧ 97 ≤ c.toNat ∧ c.toNat ≤ 102 then some (c.toNat - 87)
  else if radix = 16 ∧ 65 ≤ c.toNat ∧ c.toNat ≤ 70 then some (c.toNat - 55)
  else none

/-- The digits of the longest prefix of `cs` made of digits of the radix. -/
def digitPrefix (radix : Nat) : List Char → List Nat
  | [] => []
  | c :: rest =>
    match radixDigit radix c with
    | some d => d :: digitPrefix radix rest
    | none => []

/-- `parseInt(s)` without a radix argument: leading white space is skipped, a
sign is read, a prefix `0x` selects radix 16, the longest prefix of digits is
read; no digit gives `NaN`.  The integer read is rounded to binary64. -/
def jsParseInt (s : String) : JSNum :=
  let cs := s.data.dropWhile isJsSpace
  let neg := cs.head? = some '-'
  let cs := if cs.head? = some '-' ∨ cs.head? = some '+' then cs.tail else cs
  let hex := cs.take 2 = ['0', 'x'] ∨ cs.take 2 = ['0', 'X']
  let radix := if hex then 16 else 10
  let ds := digitPrefix radix (if hex then cs.drop 2 else cs)
  let n : Int := ds.foldl (fun acc d => acc * radix + d) 0
  if ds = [] then .nan else roundToDouble (if neg then -n else n)

/-- `parseInt(v)` on a value: the value is first converted to a string. -/
def parseIntVal (h : Host) (v : Val) : JSNum :=
  jsParseInt (jsString h v)

/-- The expression `n - 1` on numbers, rounded to binary64: on an integer the
exact difference is rounded by `roundToDouble`; on a number that is not an
integer the difference is kept exact (none arises from `parseInt`). -/
def jsSubOne : JSNum → JSNum
  | .fin q => if q.den = 1 then roundToDouble (q.num - 1) else .fin (q - 1)
  | n => n

/-- The product `a * b` on numbers, rounded to binary64: on integers the exact
product is rounded by `roundToDouble`; otherwise a finite product is kept
exact (none arises from `parseInt`). -/
def jsMul : JSNum → JSNum → JSNum
  | .nan, _ => .nan
  | _, .nan => .nan
  | .fin a, .fin b =>
    if a.den = 1 ∧ b.den = 1 then roundToDouble (a.num * b.num) else .fin (a * b)
  | .fin a, .posInf => if a.num = 0 then .nan else if 0 < a.num then .posInf else .negInf
  | .fin a, .negInf => if a.num = 0 then .nan else if 0 < a.num then .negInf else .posInf
  | .posInf, .fin b => if b.num = 0 then .nan else if 0 < b.num then .posInf else .negInf
  | .negInf, .fin b => if b.num = 0 then .nan else if 0 < b.num then .negInf else .posInf
  | .posInf, .posInf => .posInf
  | .posInf, .negInf => .negInf
  | .negInf, .posInf => .negInf
  | .negInf, .negInf => .posInf

/-- The driver's `neo4j.int(n)` on a number (`Integer.fromNumber`): `NaN` and
the infinities give 0, a value outside the 64-bit range saturates, every other
value is truncated towards zero. -/
def neo4jInt : JSNum → Int
  | .fin q =>
    if q.num ≤ -(9223372036854775808 * (q.den : Int)) then -9223372036854775808
    else if 9223372036854775808 * (q.den : Int) ≤ q.num + q.den then 9223372036854775807
    else q.num.tdiv q.den
  | _ => 0

/-- A destructuring default `v = d`: it applies when the property is
`undefined`. -/
def orDefault (v d : Val) : Val :=
  match v with
  | .undefined => d
  | _ => v

/-- The host's local calendar days: for a query value `v`, the result of
`dt = new Date(v); dt.setHours(0, 0, 0, 0); dt.getTime()` and of the same with
`dt.setHours(23, 59, 59, 999)`. -/
structure LocalDay where
  /-- The first millisecond of the local day of `new Date(v)`. -/
  startOfDay : Val → JSNum
  /-- The last millisecond of the local day of `new Date(v)`. -/
  endOfDay : Val → JSNum

/-- The destructured `req.query` of `/api/leads`; an absent key is
`undefined`. -/
structure LeadsQuery where
  nome : Val
  tag : Val
  dor : Val
  nivelInteresse : Val
  origem : Val
  dtCriacaoStart : Val
  dtCriacaoEnd : Val
  dtAtualizacaoStart : Val
  dtAtualizacaoEnd : Val
  page : Val
  limit : Val

/-- The variables `matchClauses`, `whereClauses` and `params` of the handler. -/
structure QueryParts where
  matchClauses : List String
  whereClauses : List String
  params : List (String × Val)

/-- A statement `if (cond) { whereClauses.push(clause); params[key] = value; }`. -/
def withWhere (cond : Bool) (clause key : String) (value : Val) (st : QueryParts) : QueryParts :=
  if cond then
    { matchClauses := st.matchClauses
      whereClauses := st.whereClauses ++ [clause]
      params := objSet st.params key value }
  else st

/-- A statement `if (cond) { matchClauses.push(pattern); whereClauses.push(clause);
params[key] = value; }`. -/
def withMatch (cond : Bool) (pattern clause key : String) (value : Val) (st : QueryParts) :
    QueryParts :=
  if cond then
    { matchClauses := st.matchClauses ++ [pattern]
      whereClauses := st.whereClauses ++ [clause]
      params := objSet st.params key value }
  else st

/-- The expression `(parseInt(page) - 1) * parseInt(limit)`. -/
def pageSkip (h : Host) (page limit : Val) : JSNum :=
  jsMul (jsSubOne (parseIntVal h page)) (parseIntVal h limit)

/-- The object `{ skip: neo4j.int(skip), limit: neo4j.int(parseInt(limit)) }`
of `/api/leads` and of `/api/knowledgebase/items/:nodeType`. -/
def paginationParams (h : Host) (page limit : Val) : List (String × Val) :=
  [("skip", .int (neo4jInt (pageSkip h page limit))),
   ("limit", .int (neo4jInt (parseIntVal h limit)))]

/-- The statements of `/api/leads` that build `matchClauses`, `whereClauses`
and `params` from the query. -/
def leadsParts (h : Host) (day : LocalDay) (q : LeadsQuery) : QueryParts :=
  let st : QueryParts :=
    { matchClauses := ["MATCH (l:Lead)"]
      whereClauses := []
      params := paginationParams h (orDefault q.page (.num (.fin 1)))
        (orDefault q.limit (.num (.fin 10))) }
  let st := withWhere (truthy q.nome) "toLower(l.nome) CONTAINS toLower($nome)" "nome" q.nome st
  let st := withWhere (truthy q.nivelInteresse) "l.nivelDeInteresseReuniao = $nivelInteresse"
    "nivelInteresse" q.nivelInteresse st
  let st := withWhere (truthy q.origem) "l.origemDoLead = $origem" "origem" q.origem st
  let st := withWhere (truthy q.dtCriacaoStart) "l.dtCriacao >= $dtCriacaoStartMillis"
    "dtCriacaoStartMillis" (.int (neo4jInt (day.startOfDay q.dtCriacaoStart))) st
  let st := withWhere (truthy q.dtCriacaoEnd) "l.dtCriacao <= $dtCriacaoEndMillis"
    "dtCriacaoEndMillis" (.int (neo4jInt (day.endOfDay q.dtCriacaoEnd))) st
  let st := withWhere (truthy q.dtAtualizacaoStart)
    "l.dtUltimaAtualizacao >= $dtAtualizacaoStartMillis"
    "dtAtualizacaoStartMillis" (.int (neo4jInt (day.startOfDay q.dtAtualizacaoStart))) st
  let st := withWhere (truthy q.dtAtualizacaoEnd)
    "l.dtUltimaAtualizacao <= $dtAtualizacaoEndMillis"
    "dtAtualizacaoEndMillis" (.int (neo4jInt (day.endOfDay q.dtAtualizacaoEnd))) st
  let st := withMatch (truthy q.tag) "MATCH (l)-[:TEM_TAG]->(tg:Tag)" "tg.nome = $tag" "tag"
    q.tag st
  withMatch (truthy q.dor) "MATCH (l)-[:TEM_DOR]->(dr:Dor)" "dr.nome = $dor" "dor" q.dor st

/-- The template of `baseQuery`: the match clauses joined by a space, a
space, and the `WHERE` part when there are where-clauses. -/
def baseQueryOf (st : QueryParts) : String :=
  joinStrings " " st.matchClauses ++ " "
    ++ (if st.whereClauses.length > 0 then "WHERE " ++ joinStrings " AND " st.whereClauses
        else "")

/-- The text of the `dataQuery` template before `${baseQuery}`. -/
def dataQueryIndent : String :=
  "\n            "

/-- The text of the `dataQuery` template between `${baseQuery}` and the
aggregation step. -/
def dataQueryRegroup : String :=
  "\n            WITH DISTINCT l\n            OPTIONAL MATCH (l)-[:TEM_TAG]->(t:Tag)\n            OPTIONAL MATCH (l)-[:TEM_DOR]->(d:Dor)\n            "

/-- The de-duplicating aggregation step of the `dataQuery` template, up to the
`ORDER BY`. -/
def dataQueryAggregation : String :=
  "WITH l, collect(DISTINCT t.nome) AS tagNames, collect(DISTINCT d.nome) AS painNames\n            "

/-- The `ORDER BY` line of the `dataQuery` template, up to `SKIP`. -/
def dataQueryOrder : String :=
  "ORDER BY l.dtUltimaAtualizacao DESC // Ordenar aqui, antes do RETURN final\n            "

/-- The text `SKIP $skip ` of the `dataQuery` template. -/
def dataQuerySkip : String :=
  "SKIP $skip "

/-- The text of the `dataQuery` template from `LIMIT` to its end. -/
def dataQueryLimit : String :=
  "LIMIT $limit\n            RETURN l \x7b\n                .idWhatsapp, \n                .nome, \n                .nomeDoNegocio,\n                .tipoDeNegocio,\n                .dtCriacao, \n                .dtUltimaAtualizacao,\n                .nivelDeInteresseReuniao, \n                .ultimoResumoDaSituacao,\n                .currentPlanName, \n                .currentPlanStep,\n                tags: tagNames,\n                pains: painNames\n            \x7d AS lead\n        "

/-- The queries and parameters that `/api/leads` runs. -/
structure CompiledQuery where
  matchClauses : List String
  whereClauses : List String
  params : List (String × Val)
  baseQuery : String
  countQuery : String
  dataQuery : String

/-- The query compilation of `/api/leads`. -/
def compileLeads (h : Host) (day : LocalDay) (q : LeadsQuery) : CompiledQuery :=
  let st := leadsParts h day q
  let baseQuery := baseQueryOf st
  { matchClauses := st.matchClauses
    whereClauses := st.whereClauses
    params := st.params
    baseQuery := baseQuery
    countQuery := baseQuery ++ " RETURN count(DISTINCT l) AS total"
    dataQuery := dataQueryIndent ++ baseQuery ++ dataQueryRegroup ++ dataQueryAggregation
      ++ dataQueryOrder ++ dataQuerySkip ++ dataQueryLimit }

/-- The query without any key. -/
def emptyQuery : LeadsQuery :=
  { nome := .undefined, tag := .undefined, dor := .undefined, nivelInteresse := .undefined,
    origem := .undefined, dtCriacaoStart := .undefined, dtCriacaoEnd := .undefined,
    dtAtualizacaoStart := .undefined, dtAtualizacaoEnd := .undefined,
    page := .undefined, limit := .undefined }

/-- The example host's `new Date(v).getTime()`. -/
def exampleDateOf (v : Val) : Option Int :=
  match v with
  | .str s => isoParse s
  | .arr xs => isoParse (jsString exampleHost (.arr xs))
  | .obj c fs => isoParse (jsString exampleHost (.obj c fs))
  | v => (jsToNumber exampleHost v).bind timeClip

/-- The local days of the example host, whose time zone is UTC. -/
def utcDay : LocalDay where
  startOfDay := fun v => match exampleDateOf v with
    | some t => .fin ((t - t % 86400000 : Int) : ℚ)
    | none => .nan
  endOfDay := fun v => match exampleDateOf v with
    | some t => .fin ((t - t % 86400000 + 86399999 : Int) : ℚ)
    | none => .nan

/-- The nine optional filters of `/api/leads` in the order of the source:
whether the filter is present (its query value is truthy: a missing key is
`undefined`, an empty value is the empty string), its where-clause and the
key of its parameter. -/
def leadsFilters (q : LeadsQuery) : List (Bool × String × String) :=
  [(truthy q.nome, "toLower(l.nome) CONTAINS toLower($nome)", "nome"),
   (truthy q.nivelInteresse, "l.nivelDeInteresseReuniao = $nivelInteresse", "nivelInteresse"),
   (truthy q.origem, "l.origemDoLead = $origem", "origem"),
   (truthy q.dtCriacaoStart, "l.dtCriacao >= $dtCriacaoStartMillis", "dtCriacaoStartMillis"),
   (truthy q.dtCriacaoEnd, "l.dtCriacao <= $dtCriacaoEndMillis", "dtCriacaoEndMillis"),
   (truthy q.dtAtualizacaoStart, "l.dtUltimaAtualizacao >= $dtAtualizacaoStartMillis",
    "dtAtualizacaoStartMillis"),
   (truthy q.dtAtualizacaoEnd, "l.dtUltimaAtualizacao <= $dtAtualizacaoEndMillis",
    "dtAtualizacaoEndMillis"),
   (truthy q.tag, "tg.nome = $tag", "tag"),
   (truthy q.dor, "dr.nome = $dor", "dor")]

/-- The object `{ skip: neo4j.int(skip), limit: neo4j.int(parseInt(limit)) }`
of `/api/knowledgebase/items/:nodeType`, whose defaults are `page = 1` and
`limit = 20`. -/
def knowledgebaseParams (h : Host) (page limit : Val) : List (String × Val) :=
  paginationParams h (orDefault page (.num (.fin 1))) (orDefault limit (.num (.fin 20)))

/-! ## Structured temporal inputs -/

/-- The `new Date(y, mo, d, h, mi, s, ms).getTime()` of a host whose local time
is `offset` milliseconds ahead of UTC all year: the time value of the civil
date and time read as local time. -/
def zonedLocalDate (offset : Int) (y mo d hr mi s ms : JSNum) : JSNum :=
  match truncNum y, truncNum mo, truncNum d, truncNum hr, truncNum mi, truncNum s, truncNum ms with
  | some y, some mo, some d, some hr, some mi, some s, some ms =>
    let yr := if 0 ≤ y ∧ y ≤ 99 then 1900 + y else y
    let day := daysFromCivil (yr + mo / 12) ((mo % 12).toNat + 1) 1 + d - 1
    let t := day * 86400000 + hr * 3600000 + mi * 60000 + s * 1000 + ms - offset
    if -8640000000000000 ≤ t ∧ t ≤ 8640000000000000 then .fin t else .nan
  | _, _, _, _, _, _, _ => .nan

/-- The example host moved to the time zone `offset` milliseconds ahead of
UTC. -/
def zonedHost (offset : Int) : Host :=
  { exampleHost with localDate := zonedLocalDate offset }

/-- An optional component of a temporal object: a driver `Integer` under the
key `k`, or no property. -/
def optField (k : String) : Option Int → List (String × Val)
  | some i => [(k, .int i)]
  | none => []

/-- A driver temporal object of class `c` with the components `year`,
`month`, `day` and the optional components `hour`, `minute`, `second` and
`nanosecond`. -/
def temporalValue (c : Cls) (y mo d : Int) (hr mi s ns : Option Int) : Val :=
  .obj c ([("year", .int y), ("month", .int mo), ("day", .int d)] ++ optField "hour" hr
    ++ optField "minute" mi ++ optField "second" s ++ optField "nanosecond" ns)

/-- The UTC time value of a civil date and time of day: the days from the
epoch to the first of the month, the day of the month, and the milliseconds
of the time of day. -/
def utcTime (y mo d hr mi s ms : Int) : Int :=
  (daysFromCivil y mo.toNat 1 + d - 1) * 86400000 + hr * 3600000 + mi * 60000 + s * 1000 + ms

/-- An optional component lies between 0 and `hi`. -/
def inRange (o : Option Int) (hi : Int) : Bool :=
  match o with
  | some i => decide (0 ≤ i ∧ i ≤ hi)
  | none => true

/-- The components are those of a civil date and time of day, with a year
from 100 to 275760. -/
def civilRange (y mo d : Int) (hr mi s ns : Option Int) : Bool :=
  decide (100 ≤ y ∧ y ≤ 275760 ∧ 1 ≤ mo ∧ mo ≤ 12 ∧ 1 ≤ d ∧ d ≤ 31)
    && inRange hr 23 && inRange mi 59 && inRange s 59 && inRange ns 999999999

/-- A driver `LocalDateTime` of 15 March 2024, 10:30:00. -/
def march15 : Val :=
  temporalValue Cls.localDateTime 2024 3 15 (some 10) (some 30) (some 0) (some 0)

/-- The same components in an object literal of numbers. -/
def march15Literal : Val :=
  Val.obj Cls.plain
    [("year", Val.num (JSNum.fin 2024)), ("month", Val.num (JSNum.fin 3)),
     ("day", Val.num (JSNum.fin 15)), ("hour", Val.num (JSNum.fin 10)),
     ("minute", Val.num (JSNum.fin 30)), ("second", Val.num (JSNum.fin 0))]

/-! ## Occurrences in the query text -/

/-- The text `pat` occurs in `s` at the character index `i`. -/
def occursAt (pat s : String) (i : Nat) : Bool :=
  pat.data.isPrefixOf (s.data.drop i)

/-- No character `a` of the list is directly followed by the character `b`. -/
def avoidsPair (a b : Char) : List Char → Bool
  | [] => true
  | x :: rest => !(x == a && rest.head? == some b) && avoidsPair a b rest

/-- The literal texts from which `/api/leads` builds the listing query up to
its aggregation step: the separators, the match patterns, the where-clauses
and the two pieces of the template. -/
def leadsTexts : List String :=
  ["", " ", "WHERE ", " AND ", "MATCH (l:Lead)", "MATCH (l)-[:TEM_TAG]->(tg:Tag)",
   "MATCH (l)-[:TEM_DOR]->(dr:Dor)", "toLower(l.nome) CONTAINS toLower($nome)",
   "l.nivelDeInteresseReuniao = $nivelInteresse", "l.origemDoLead = $origem",
   "l.dtCriacao >= $dtCriacaoStartMillis", "l.dtCriacao <= $dtCriacaoEndMillis",
   "l.dtUltimaAtualizacao >= $dtAtualizacaoStartMillis",
   "l.dtUltimaAtualizacao <= $dtAtualizacaoEndMillis", "tg.nome = $tag", "dr.nome = $dor",
   dataQueryIndent, dataQueryRegroup]

/-! ## The node title in the words of the specification -/

/-- The rendering of a property value in a title line as the specification
words it: an array is its first three elements joined by `, `, followed by
`...` when it has more than three elements; an object that is neither `null`
nor an array (a driver `Integer` included) is the placeholder; every other
value, `null` included, is its string form. -/
def titleRendering (h : Host) : Val → String
  | .arr xs => joinItems h ", " (xs.take 3) ++ (if 3 < xs.length then "..." else "")
  | .obj _ _ => "[Objeto Complexo]"
  | .int _ => "[Objeto Complexo]"
  | v => jsString h v

/-- The concatenation of a list of texts. -/
def concatLines : List String → String
  | [] => ""
  | x :: rest => x ++ concatLines rest

/-- The title in the words of the specification: the line of the id, the line
of the labels and one line per own property in key order, trimmed. -/
def titleText (h : Host) (properties : Val) (labels : List String) (id : String) : String :=
  jsTrim (concatLines (("ID: " ++ id ++ "\n") :: ("Labels: " ++ ", ".intercalate labels ++ "\n")
    :: (ownEntries properties).map (fun kv => kv.1 ++ ": " ++ titleRendering h kv.2 ++ "\n")))

/-! ## The handler of /api/knowledgebase/items/:nodeType -/

/-- The literal list `allowedNodeTypes`. -/
def allowedNodeTypes : List String :=
  ["DorComum", "SolucaoOferecida", "ObjecaoComum", "KnowledgeTopic", "SocialProof", "Industry"]

/-- The template of the default `itemQuery`, in which `nodeType` is
interpolated. -/
def defaultItemQuery (nodeType : String) : String :=
  "MATCH (n:" ++ nodeType
    ++ ") RETURN n \x7b .*, id: elementId(n) \x7d AS item ORDER BY n.name SKIP $skip LIMIT $limit"

/-- The template of `countQuery`, in which `nodeType` is interpolated. -/
def nodeCountQuery (nodeType : String) : String :=
  "MATCH (n:" ++ nodeType ++ ") RETURN count(n) AS total"

/-- The `itemQuery` of the node type `SolucaoOferecida`. -/
def solucaoItemQuery : String :=
  "\n                MATCH (n:SolucaoOferecida)\n                OPTIONAL MATCH (n)-[:RESOLVE]->(d:DorComum)\n                OPTIONAL MATCH (n)-[:PODE_GERAR]->(o:ObjecaoComum)\n                OPTIONAL MATCH (n)-[:RELATES_TO_TOPIC]->(t:KnowledgeTopic)\n                WITH n, collect(DISTINCT d.name) AS resolvesPains, collect(DISTINCT o.name) AS canGenerateObjections, collect(DISTINCT t.name) AS relatedTopics\n                RETURN n \x7b .*, id: elementId(n), resolvesPains: resolvesPains, canGenerateObjections: canGenerateObjections, relatedTopics: relatedTopics \x7d AS item\n                ORDER BY n.name SKIP $skip LIMIT $limit\n            "

/-- The `itemQuery` of the node type `DorComum`. -/
def dorItemQuery : String :=
  "\n                MATCH (n:DorComum)\n                OPTIONAL MATCH (s:SolucaoOferecida)-[:RESOLVE]->(n)\n                OPTIONAL MATCH (n)-[:PODE_GERAR]->(o:ObjecaoComum)\n                WITH n, collect(DISTINCT s.name) AS resolvedBySolutions, collect(DISTINCT o.name) AS canGenerateObjections\n                RETURN n \x7b .*, id: elementId(n), resolvedBySolutions: resolvedBySolutions, canGenerateObjections: canGenerateObjections \x7d AS item\n                ORDER BY n.name SKIP $skip LIMIT $limit\n            "

/-- The queries the handler runs and the parameters of the item query. -/
structure KnowledgebaseQueries where
  itemQuery : String
  countQuery : String
  params : List (String × Val)

/-- The handler of `/api/knowledgebase/items/:nodeType` up to the queries it
runs: the answer `400` with its error message when the node type is not
allow-listed (before any query is run), the item query, the count query and
the parameters otherwise. -/
def knowledgebaseItems (h : Host) (nodeType : String) (page limit : Val) :
    Except (Nat × String) KnowledgebaseQueries :=
  if !allowedNodeTypes.contains nodeType then .error (400, "Tipo de nó inválido.")
  else
    let itemQuery :=
      if nodeType = "SolucaoOferecida" then solucaoItemQuery
      else if nodeType = "DorComum" then dorItemQuery
      else defaultItemQuery nodeType
    .ok { itemQuery := itemQuery, countQuery := nodeCountQuery nodeType,
          params := knowledgebaseParams h page limit }

/-- The item queries of the six allow-listed node types. -/
def knowledgebaseItemQueries : List String :=
  [dorItemQuery, solucaoItemQuery, defaultItemQuery "ObjecaoComum",
   defaultItemQuery "KnowledgeTopic", defaultItemQuery "SocialProof",
   defaultItemQuery "Industry"]

/-- The count queries of the six allow-listed node types. -/
def knowledgebaseCountQueries : List String :=
  allowedNodeTypes.map nodeCountQuery

/-! ## Placeholders of a query text -/

/-- A character of a parameter name: a letter, a digit or `_`. -/
def isNameChar (c : Char) : Bool :=
  c.isAlphanum || c == '_'

/-- The names of the placeholders `$name` of a text, in order: after each `$`
the longest run of name characters. -/
def placeholdersOf : List Char → List String
  | [] => []
  | c :: rest =>
    if c = '$' then String.mk (rest.takeWhile isNameChar) :: placeholdersOf rest
    else placeholdersOf rest

/-- The names of the placeholders `$name` of a query text. -/
def placeholders (s : String) : List String :=
  placeholdersOf s.data

/-- The text is empty or starts with a character that is not a name
character. -/
def safeStart (s : String) : Bool :=
  match s.data.head? with
  | some c => !isNameChar c
  | none => true

/-- The text ends with a character that is neither a name character nor `$`. -/
def safeEnd (s : String) : Bool :=
  match s.data.getLast? with
  | some c => !isNameChar c && c != '$'
  | none => false

/-! ## The page count of the paginated listings -/

/-- The binary64 value nearest to `n / d` (ties to even) for a denominator
`d > 0`: the exponent `e` is chosen so that the quotient scaled by `2 ^ (-e)`
has 53 binary digits (fewer in the subnormal range, where `e = -1074`), the
scaled quotient is rounded to the integer `m`, and the value is `m * 2 ^ e`;
it overflows to `Infinity` when it reaches `2 ^ 1024`. -/
def roundRatio (n d : Nat) : JSNum :=
  if n = 0 then .fin 0
  else
    let e0 : Int := (bitLength n : Int) - (bitLength d : Int) - 53
    let e1 : Int := if 2 ^ 53 * (d * 2 ^ e0.toNat) ≤ n * 2 ^ (-e0).toNat then e0 + 1 else e0
    let e : Int := max e1 (-1074)
    let num := n * 2 ^ (-e).toNat
    let den := d * 2 ^ e.toNat
    let q := num / den
    let r := num % den
    let m := if den < 2 * r ∨ (2 * r = den ∧ q % 2 = 1) then q + 1 else q
    if 971 < e ∨ (e = 971 ∧ m = 2 ^ 53) then .posInf
    else .fin (mkRat (m * 2 ^ e.toNat : Nat) (2 ^ (-e).toNat))

/-- The negation of a number. -/
def JSNum.neg : JSNum → JSNum
  | .nan => .nan
  | .posInf => .negInf
  | .negInf => .posInf
  | .fin q => .fin (mkRat (-q.num) q.den)

/-- The quotient `a / b` on numbers, rounded to binary64 (`-0` is identified
with `0`, so a division by zero has the sign of the dividend). -/
def jsDiv : JSNum → JSNum → JSNum
  | .nan, _ => .nan
  | _, .nan => .nan
  | .fin a, .fin b =>
    if b.num = 0 then (if a.num = 0 then .nan else if 0 < a.num then .posInf else .negInf)
    else
      let r := roundRatio (a.num.natAbs * b.den) (a.den * b.num.natAbs)
      if (a.num < 0) = (b.num < 0) then r else r.neg
  | .fin _, _ => .fin 0
  | .posInf, .fin b => if 0 ≤ b.num then .posInf else .negInf
  | .negInf, .fin b => if 0 ≤ b.num then .negInf else .posInf
  | _, _ => .nan

/-- `Math.ceil(n)`. -/
def jsCeil : JSNum → JSNum
  | .fin q => .fin ((-((-q.num) / (q.den : Int)) : Int) : ℚ)
  | n => n

/-- The expression `records[0] ? records[0].get('total').toNumber() : 0`; the
count of the first record, `none` when there is no record. -/
def totalItemsOf (count : Option Int) : JSNum :=
  match count with
  | some c => roundToDouble c
  | none => .fin 0

/-- The expression `Math.ceil(totalItems / parseInt(limit))`. -/
def totalPagesOf (h : Host) (totalItems : JSNum) (limit : Val) : JSNum :=
  jsCeil (jsDiv totalItems (parseIntVal h limit))

/-- The decimal numeral of `10 ^ 309`. -/
def hugeLimit : String :=
  String.mk ('1' :: List.replicate 309 '0')

/-! ## Notions used in the statements on labels, groups and store values -/

/-- A record whose only node has the empty string as its first label. -/
def emptyLabelRow : Row :=
  { node1 := some { identity := Val.int 1, labels := [""],
                    properties := Val.obj Cls.plain [("nome", Val.str "Ana")] }
    relationship := none
    node2 := none }

/-- The string of `n` copies of U+1F600, a character outside the Basic
Multilingual Plane (two UTF-16 code units each). -/
def faces (n : Nat) : String :=
  String.mk (List.replicate n (Char.ofNat 0x1F600))

/-- The names of the `Integer` components of the temporal classes of the
driver. -/
def temporalComponents : Cls → List String
  | .date => ["year", "month", "day"]
  | .dateTime => ["year", "month", "day", "hour", "minute", "second", "nanosecond"]
  | .localDateTime => ["year", "month", "day", "hour", "minute", "second", "nanosecond"]
  | .time => ["hour", "minute", "second", "nanosecond", "timeZoneOffsetSeconds"]
  | .duration => ["months", "days", "seconds", "nanoseconds"]
  | _ => []

/-- A field of a temporal object of the driver: the time-zone id, or an
`Integer`, or a field left `undefined` or `null`. -/
def temporalField (kv : String × Val) : Bool :=
  kv.1 == "timeZoneId" || isInt kv.2 ||
    (match kv.2 with
     | .undefined => true
     | .null => true
     | _ => false)

/-- A temporal object as the driver builds it: the components of its class
are `Integer`s and it has no field of another kind. -/
def temporalObject (c : Cls) (fs : List (String × Val)) : Bool :=
  (temporalComponents c).all (fun k => isInt ((fs.lookup k).getD .undefined))
    && fs.all temporalField

mutual
/-- A well-formed store value: `null`, a boolean, an integer (the driver's
`Integer` or a `bigint`), a float, a string, a temporal object as the driver
builds it, a list of store values, a map of store values with distinct keys,
or an object of another driver class (a node, a relationship) whose fields
are store values. -/
def storeValue : Val → Bool
  | .undefined => false
  | .null => true
  | .bool _ => true
  | .num _ => true
  | .str _ => true
  | .bigint _ => true
  | .int _ => true
  | .arr xs => storeItems xs
  | .obj .plain fs => decide ((fs.map Prod.fst).Nodup) && storeFields fs
  | .obj (.other _) fs => decide ((fs.map Prod.fst).Nodup) && storeFields fs
  | .obj c fs => temporalObject c fs
/-- Every element of a list is a store value. -/
def storeItems : List Val → Bool
  | [] => true
  | x :: rest => storeValue x && storeItems rest
/-- Every property value of an object is a store value. -/
def storeFields : List (String × Val) → Bool
  | [] => true
  | (_, v) :: rest => storeValue v && storeFields rest
end

/-- A map whose `year`, `month` and `day` are `bigint`s. -/
def bigintDate : Val :=
  .obj .plain [("year", .bigint 2024), ("month", .bigint 3), ("day", .bigint 15)]

/-- A map that holds a driver date and a list with a node object, `null`, a
boolean and a nested list. -/
def nestedStoreValue : Val :=
  .obj .plain
    [("createdAt", .obj .date [("year", .int 2024), ("month", .int 3), ("day", .int 15)]),
     ("path", .arr [.obj (.other "Node")
        [("identity", .int 1), ("labels", .arr [.str "Lead"]),
         ("properties", .obj .plain [("nome", .str "Ana"), ("score", .num (.fin 1))]),
         ("elementId", .str "1")],
        .null, .bool true, .arr [.int 7]])]

/-! # Theorems -/

/-! ## The fold: nodes and edges -/

theorem mapSet_of_not_has (m : List (String × VisualNode)) (k : String) (v : VisualNode)
    (hk : mapHas m k = false) : mapSet m k v = m ++ [(k, v)] := by
  induction m with
  | nil => rfl
  | cons e rest ih =>
    obtain ⟨k0, v0⟩ := e
    simp only [mapHas, List.any_cons, Bool.or_eq_false_iff, beq_eq_false_iff_ne, ne_eq] at hk
    have ih1 := ih (by simpa [mapHas] using hk.2)
    simp [mapSet, hk.1, ih1]

theorem foldl_visitNode_pair (h : Host) (m : List (String × VisualNode)) (a b : Option Node) :
    [a, b].foldl (visitNode h) m
      = (a.toList ++ b.toList).foldl (fun acc n => visitNode h acc (some n)) m := by
  cases a <;> cases b <;> rfl

theorem foldl_buildStep_nodesMap (h : Host) (rows : List Row) (st : BuildState) :
    (rows.foldl (buildStep h) st).nodesMap
      = (rowNodes rows).foldl (fun acc n => visitNode h acc (some n)) st.nodesMap := by
  induction rows generalizing st with
  | nil => rfl
  | cons r rest ih =>
    have hstep : (buildStep h st r).nodesMap
        = (r.node1.toList ++ r.node2.toList).foldl
            (fun acc n => visitNode h acc (some n)) st.nodesMap := by
      unfold buildStep
      rw [foldl_visitNode_pair]
      cases r.relationship <;> rfl
    simp only [List.foldl_cons]
    rw [ih, hstep]
    simp [rowNodes, List.flatMap_cons, List.foldl_append]

theorem foldl_buildStep_edges (h : Host) (rows : List Row) (st : BuildState) :
    (rows.foldl (buildStep h) st).edges
      = st.edges ++ rows.filterMap (fun r => r.relationship.map (visualEdge h)) := by
  induction rows generalizing st with
  | nil => simp
  | cons r rest ih =>
    simp only [List.foldl_cons]
    rw [ih]
    unfold buildStep
    cases hr : r.relationship <;> simp [List.filterMap_cons, hr]

theorem foldl_visit_eq (h : Host) (ns : List Node) (m : List (String × VisualNode)) :
    ns.foldl (fun acc n => visitNode h acc (some n)) m
      = m ++ ((firstById h ns).filter
          (fun n => !mapHas m (neo4jIdToString h n.identity))).map
          (fun n => (neo4jIdToString h n.identity, visualNode h n)) := by
  induction ns generalizing m with
  | nil => simp [firstById]
  | cons n rest ih =>
    simp only [List.foldl_cons, firstById]
    by_cases hk : mapHas m (neo4jIdToString h n.identity) = true
    · have hv : visitNode h m (some n) = m := by simp [visitNode, hk]
      rw [hv, ih, List.filter_cons]
      simp only [hk, Bool.not_true, Bool.false_eq_true, if_false, List.filter_filter]
      congr 2
      apply List.filter_congr
      intro x _
      by_cases hx : neo4jIdToString h x.identity = neo4jIdToString h n.identity
      · simp [hx, hk]
      · simp [hx]
    · have hk1 : mapHas m (neo4jIdToString h n.identity) = false := by simpa using hk
      have hv : visitNode h m (some n)
          = m ++ [(neo4jIdToString h n.identity, visualNode h n)] := by
        simp [visitNode, hk1, mapSet_of_not_has]
      rw [hv, ih, List.filter_cons]
      simp only [hk1, Bool.not_false, if_true, List.filter_filter, List.map_cons,
        List.append_assoc, List.singleton_append]
      congr 3
      apply List.filter_congr
      intro x _
      have hc : (neo4jIdToString h n.identity == neo4jIdToString h x.identity)
          = (neo4jIdToString h x.identity == neo4jIdToString h n.identity) := by
        rw [Bool.eq_iff_iff, beq_iff_eq, beq_iff_eq]
        exact eq_comm
      simp only [mapHas, List.any_append, List.any_cons, List.any_nil, Bool.or_false,
        Bool.not_or, bne]
      rw [hc, Bool.and_comm]

/-- The nodes of the response are the first node object of each identity
string, in order of first appearance, each rendered by `visualNode`. -/
theorem build_nodes_eq (h : Host) (rows : List Row) :
    (build h rows).nodes = (firstById h (rowNodes rows)).map (visualNode h) := by
  unfold build
  simp only
  rw [foldl_buildStep_nodesMap, foldl_visit_eq]
  simp [mapHas, List.map_map, Function.comp_def]

/-- The edges of the response are the edges of the records that carry a
relationship, in record order. -/
theorem build_edges_eq (h : Host) (rows : List Row) :
    (build h rows).edges = rows.filterMap (fun r => r.relationship.map (visualEdge h)) := by
  unfold build
  simp only
  rw [foldl_buildStep_edges]
  simp

theorem mem_rowNodes (rows : List Row) (n : Node) :
    n ∈ rowNodes rows ↔ ∃ r ∈ rows, r.node1 = some n ∨ r.node2 = some n := by
  simp only [rowNodes, List.mem_flatMap, List.mem_append, Option.mem_toList, Option.mem_def]

theorem firstById_subset (h : Host) (ns : List Node) (x : Node) (hx : x ∈ firstById h ns) :
    x ∈ ns := by
  induction ns with
  | nil => simp [firstById] at hx
  | cons n rest ih =>
    simp only [firstById, List.mem_cons, List.mem_filter] at hx
    rcases hx with rfl | ⟨hx, _⟩
    · exact List.mem_cons_self _ _
    · exact List.mem_cons_of_mem _ (ih hx)

theorem firstById_covers (h : Host) (ns : List Node) (n : Node) (hn : n ∈ ns) :
    ∃ x ∈ firstById h ns, neo4jIdToString h x.identity = neo4jIdToString h n.identity := by
  induction ns with
  | nil => simp at hn
  | cons m rest ih =>
    by_cases hm : neo4jIdToString h n.identity = neo4jIdToString h m.identity
    · exact ⟨m, by simp [firstById], hm.symm⟩
    · rcases List.mem_cons.1 hn with rfl | hn
      · exact absurd rfl hm
      · obtain ⟨x, hx, hxn⟩ := ih hn
        refine ⟨x, ?_, hxn⟩
        simp only [firstById, List.mem_cons, List.mem_filter]
        right
        refine ⟨hx, ?_⟩
        simp only [bne_iff_ne, ne_eq, hxn]
        exact hm

theorem firstById_nodup (h : Host) (ns : List Node) :
    ((firstById h ns).map (fun n => neo4jIdToString h n.identity)).Nodup := by
  induction ns with
  | nil => simp [firstById]
  | cons n rest ih =>
    simp only [firstById, List.map_cons, List.nodup_cons, List.mem_map, List.mem_filter,
      bne_iff_ne, ne_eq]
    constructor
    · rintro ⟨x, ⟨_, hx⟩, hxn⟩
      exact hx hxn
    · exact (ih.sublist ((List.filter_sublist _).map _))

theorem firstById_find (h : Host) (ns : List Node) (x : Node) (hx : x ∈ firstById h ns) :
    ns.find? (fun m => neo4jIdToString h m.identity == neo4jIdToString h x.identity) = some x := by
  induction ns with
  | nil => simp [firstById] at hx
  | cons n rest ih =>
    simp only [firstById, List.mem_cons, List.mem_filter, bne_iff_ne, ne_eq] at hx
    rcases hx with rfl | ⟨hx, hne⟩
    · simp
    · rw [List.find?_cons_of_neg]
      · exact ih hx
      · simpa using fun hc => hne hc.symm

theorem build_ids_eq (h : Host) (rows : List Row) :
    (build h rows).nodes.map VisualNode.id
      = (firstById h (rowNodes rows)).map (fun n => neo4jIdToString h n.identity) := by
  rw [build_nodes_eq, List.map_map]
  rfl

/-! ## C1 – C5 -/

/-- C1. For every sequence of records, the ids of `nodes` are pairwise
distinct, every id in `nodes` is the identity string of a non-null `node1` or
`node2` of some record, and the identity string of every such node object
occurs in `nodes` exactly once. -/
theorem build_nodes_one_per_identity (h : Host) (rows : List Row) :
    ((build h rows).nodes.map VisualNode.id).Nodup
    ∧ (∀ v ∈ (build h rows).nodes, ∃ r ∈ rows, ∃ n,
        (r.node1 = some n ∨ r.node2 = some n) ∧ v.id = neo4jIdToString h n.identity)
    ∧ (∀ r ∈ rows, ∀ n, (r.node1 = some n ∨ r.node2 = some n) →
        ((build h rows).nodes.map VisualNode.id).count (neo4jIdToString h n.identity) = 1) := by
  have hnd : ((build h rows).nodes.map VisualNode.id).Nodup := by
    rw [build_ids_eq]
    exact firstById_nodup h _
  refine ⟨hnd, ?_, ?_⟩
  · intro v hv
    rw [build_nodes_eq, List.mem_map] at hv
    obtain ⟨n, hn, rfl⟩ := hv
    obtain ⟨r, hr, hrn⟩ := (mem_rowNodes rows n).1 (firstById_subset h _ n hn)
    exact ⟨r, hr, n, hrn, rfl⟩
  · intro r hr n hrn
    apply List.count_eq_one_of_mem hnd
    obtain ⟨x, hx, hxn⟩ := firstById_covers h (rowNodes rows) n ((mem_rowNodes rows n).2 ⟨r, hr, hrn⟩)
    rw [build_ids_eq, List.mem_map]
    exact ⟨x, hx, hxn⟩

/-- C2, counterexample. Two records carry the node of identity 1, the first
with `nome: "A"`, the last with `nome: "B"`: the single VisualNode of id "1"
has the projection of the first record's properties, which differs from the
projection of the last record's. -/
theorem build_last_write_wins_fails :
    (build exampleHost repeatedRows).nodes.map (fun v => (v.id, v.properties))
        = [("1", Val.obj Cls.plain [("nome", Val.str "A")])]
    ∧ convertNeo4jProperties exampleHost (Val.obj Cls.plain [("nome", Val.str "B")])
        = Val.obj Cls.plain [("nome", Val.str "B")]
    ∧ Val.obj Cls.plain [("nome", Val.str "A")] ≠ Val.obj Cls.plain [("nome", Val.str "B")] := by
  refine ⟨rfl, rfl, ?_⟩
  simp

/-- C2, amended. Every VisualNode of `nodes` is built from the FIRST node
object, in scan order, that has its identity string: its properties are the
projection of that node object's properties (first write wins). -/
theorem build_first_write_wins (h : Host) (rows : List Row) (v : VisualNode)
    (hv : v ∈ (build h rows).nodes) :
    ∃ n, (rowNodes rows).find? (fun m => neo4jIdToString h m.identity == v.id) = some n
      ∧ v = visualNode h n
      ∧ v.properties = convertNeo4jProperties h n.properties := by
  rw [build_nodes_eq, List.mem_map] at hv
  obtain ⟨n, hn, rfl⟩ := hv
  exact ⟨n, firstById_find h _ n hn, rfl, rfl⟩

theorem build_first_write_wins_witness :
    ∃ n, (rowNodes repeatedRows).find?
          (fun m => neo4jIdToString exampleHost m.identity
            == (visualNode exampleHost
                { identity := Val.int 1, labels := ["Lead"],
                  properties := Val.obj Cls.plain [("nome", Val.str "A")] }).id) = some n
      ∧ visualNode exampleHost
          { identity := Val.int 1, labels := ["Lead"],
            properties := Val.obj Cls.plain [("nome", Val.str "A")] } = visualNode exampleHost n
      ∧ (visualNode exampleHost
          { identity := Val.int 1, labels := ["Lead"],
            properties := Val.obj Cls.plain [("nome", Val.str "A")] }).properties
          = convertNeo4jProperties exampleHost n.properties :=
  build_first_write_wins exampleHost repeatedRows _ (by
    rw [build_nodes_eq]
    exact List.mem_map.2 ⟨_, List.mem_cons_self _ _, rfl⟩)

/-- C3. The edges are exactly the edges of the records that carry a
relationship, in record order; each has as `from` and `to` the identity
strings of the relationship's own start and end and as label and title the
relationship type, whatever `node1` and `node2` are.  On a record whose
`node2` is `null` the edge is still produced and its `to` has no entry in
`nodes`. -/
theorem build_edges_from_relationships (h : Host) (rows : List Row) :
    (build h rows).edges.map (fun e => (e.from_, e.to_, e.label, e.title))
        = (rows.filterMap (fun r => r.relationship)).map (fun rel =>
            (neo4jIdToString h rel.start, neo4jIdToString h rel.end_, rel.type_, rel.type_))
    ∧ (build h [danglingRow]).edges.map (fun e => (e.from_, e.to_, e.label, e.title))
        = [("1", "2", "TEM_DOR", "TEM_DOR")]
    ∧ (build h [danglingRow]).nodes.map VisualNode.id = ["1"] := by
  refine ⟨?_, rfl, rfl⟩
  rw [build_edges_eq]
  induction rows with
  | nil => rfl
  | cons r rest ih =>
    cases hr : r.relationship <;> simp [List.filterMap_cons, hr, visualEdge] at ih ⊢ <;> exact ih

/-- The group `node.labels[0] || 'Unknown'`: the first label when there is
one and it is not the empty string, "Unknown" otherwise. -/
theorem nodeGroup_spec (labels : List String) :
    (∀ l, labels.head? = some l → l ≠ "" → nodeGroup labels = l)
    ∧ ((labels.head? = none ∨ labels.head? = some "") → nodeGroup labels = "Unknown") := by
  cases labels with
  | nil => simp [nodeGroup]
  | cons l ls =>
    constructor
    · intro l1 h1 h2
      simp only [List.head?_cons, Option.some.injEq] at h1
      subst h1
      simp [nodeGroup, h2]
    · intro h1
      rcases h1 with h1 | h1
      · simp at h1
      · simp only [List.head?_cons, Option.some.injEq] at h1
        subst h1
        rfl

/-- C4, counterexample. A node whose labels are `[""]` has labels, and its
group is "Unknown", which is not its first label. -/
theorem build_group_empty_label :
    (build exampleHost [emptyLabelRow]).nodes.map (fun w => (w.id, w.group)) = [("1", "Unknown")]
    ∧ (rowNodes [emptyLabelRow]).map (fun n => n.labels.head?) = [some ""]
    ∧ (build exampleHost [emptyLabelRow]).nodes.map (fun w => w.group)
        ≠ (rowNodes [emptyLabelRow]).map (fun n => n.labels.headD "Unknown") := by
  refine ⟨rfl, rfl, ?_⟩
  decide

/-- C4, amended. Every VisualNode of `nodes` comes from a node object of the
records; its id is the identity string of that node and its group is the
node's first label when the node has labels and the first one is not the empty
string, "Unknown" when the node has no labels or its first label is the empty
string.  On the scenario record the nodes are ("1","Ana","Lead") and
("2","Preço alto","Dor") in that order and the only edge goes from "1" to "2"
with label "TEM_DOR". -/
theorem build_node_id_group (h : Host) (rows : List Row) (v : VisualNode)
    (hv : v ∈ (build h rows).nodes) :
    (∃ r ∈ rows, ∃ n, (r.node1 = some n ∨ r.node2 = some n)
        ∧ v.id = neo4jIdToString h n.identity
        ∧ (∀ l, n.labels.head? = some l → l ≠ "" → v.group = l)
        ∧ ((n.labels.head? = none ∨ n.labels.head? = some "") → v.group = "Unknown"))
    ∧ (build h [scenarioRow]).nodes.map (fun w => (w.id, w.label, w.group))
        = [("1", utf16 "Ana", "Lead"), ("2", utf16 "Preço alto", "Dor")]
    ∧ (build h [scenarioRow]).edges.map (fun e => (e.from_, e.to_, e.label))
        = [("1", "2", "TEM_DOR")] := by
  refine ⟨?_, rfl, rfl⟩
  rw [build_nodes_eq, List.mem_map] at hv
  obtain ⟨n, hn, rfl⟩ := hv
  obtain ⟨r, hr, hrn⟩ := (mem_rowNodes rows n).1 (firstById_subset h _ n hn)
  exact ⟨r, hr, n, hrn, rfl, (nodeGroup_spec n.labels).1, (nodeGroup_spec n.labels).2⟩

theorem build_node_id_group_witness :
    (∃ r ∈ [scenarioRow], ∃ n, (r.node1 = some n ∨ r.node2 = some n)
        ∧ "1" = neo4jIdToString exampleHost n.identity
        ∧ (∀ l, n.labels.head? = some l → l ≠ "" → "Lead" = l)
        ∧ ((n.labels.head? = none ∨ n.labels.head? = some "") → "Lead" = "Unknown"))
    ∧ (build exampleHost [scenarioRow]).nodes.map (fun w => (w.id, w.label, w.group))
        = [("1", utf16 "Ana", "Lead"), ("2", utf16 "Preço alto", "Dor")]
    ∧ (build exampleHost [scenarioRow]).edges.map (fun e => (e.from_, e.to_, e.label))
        = [("1", "2", "TEM_DOR")] :=
  build_node_id_group exampleHost [scenarioRow]
    (visualNode exampleHost
      { identity := Val.int 1, labels := ["Lead"],
        properties := Val.obj Cls.plain [("nome", Val.str "Ana")] })
    (by
      rw [build_nodes_eq]
      exact List.mem_map.2 ⟨_, List.mem_cons_self _ _, rfl⟩)

/-- On the object that `convertNeo4jProperties` returns, `getNodeDisplayLabel`
does not throw and its value is `displayLabel`: the label of a VisualNode. -/
theorem getNodeDisplayLabel_visualNode (h : Host) (node : Node) :
    getNodeDisplayLabel h (convertNeo4jProperties h node.properties) (some node.labels)
      = some (visualNode h node).label := by
  simp only [visualNode]
  unfold convertNeo4jProperties
  split <;> rfl

/-- The first `n` code units of a string whose first `n` characters lie in
the Basic Multilingual Plane are the code units of its first `n` characters. -/
theorem take_flatMap_charUnits (cs : List Char) (n : Nat)
    (hb : ∀ c ∈ cs.take n, c.toNat < 0x10000) :
    (cs.flatMap charUnits).take n = (cs.take n).flatMap charUnits := by
  induction cs generalizing n with
  | nil => simp
  | cons c rest ih =>
    cases n with
    | zero => simp
    | succ m =>
      have hc : c.toNat < 0x10000 := hb c (by simp)
      have hr : ∀ d ∈ rest.take m, d.toNat < 0x10000 := fun d hd => hb d (by simp [hd])
      have e : charUnits c = [c.toNat] := by simp [charUnits, hc]
      simp only [List.flatMap_cons, List.take_succ_cons, e, List.singleton_append]
      rw [ih m hr]

/-- C5, counterexample. On `null` properties the function throws instead of
choosing a label; and on an `idWhatsapp` of ten characters outside the Basic
Multilingual Plane the label holds the first five of them (ten UTF-16 code
units), not the first ten characters. -/
theorem getNodeDisplayLabel_null_or_astral :
    getNodeDisplayLabel exampleHost Val.null (some ["Lead"]) = none
    ∧ getNodeDisplayLabel exampleHost
        (Val.obj Cls.plain [("idWhatsapp", Val.str (faces 10))]) none
        = some (utf16 ("Lead: " ++ faces 5 ++ "..."))
    ∧ (faces 10).length = 10
    ∧ (faces 10).take 10 = faces 10
    ∧ utf16 ("Lead: " ++ faces 5 ++ "...") ≠ utf16 ("Lead: " ++ (faces 10).take 10 ++ "...") := by
  refine ⟨rfl, rfl, rfl, ?_, ?_⟩
  · decide
  · decide

/-- C5, amended. `getNodeDisplayLabel` throws when `properties` is `null` or
`undefined`.  On every other `properties` it chooses the label by strict
priority on the truthiness of the properties: the string form of `nome` if it
is truthy, else that of `name`, else "Lead: " followed by the first 10 UTF-16
code units of the string form of `idWhatsapp` and "...", else the string form
of `type`, else the labels joined with ", " when there are labels, else
"Nó Desconhecido".  The first 10 code units are the first 10 characters when
these lie in the Basic Multilingual Plane.  Properties `{nome: "X", type: "Y"}`
yield "X", and properties `{nome: "", type: "Y"}` yield "Y". -/
theorem getNodeDisplayLabel_priority (h : Host) (properties : Val)
    (labels : Option (List String)) :
    ((properties = .null ∨ properties = .undefined) →
      getNodeDisplayLabel h properties labels = none)
    ∧ (properties ≠ .null → properties ≠ .undefined →
      (truthy (getProp properties "nome") = true →
        getNodeDisplayLabel h properties labels
          = some (utf16 (jsString h (getProp properties "nome"))))
      ∧ (truthy (getProp properties "nome") = false →
        truthy (getProp properties "name") = true →
        getNodeDisplayLabel h properties labels
          = some (utf16 (jsString h (getProp properties "name"))))
      ∧ (truthy (getProp properties "nome") = false →
        truthy (getProp properties "name") = false →
        truthy (getProp properties "idWhatsapp") = true →
        getNodeDisplayLabel h properties labels
          = some (utf16 "Lead: "
              ++ (utf16 (jsString h (getProp properties "idWhatsapp"))).take 10
              ++ utf16 "..."))
      ∧ (truthy (getProp properties "nome") = false →
        truthy (getProp properties "name") = false →
        truthy (getProp properties "idWhatsapp") = false →
        truthy (getProp properties "type") = true →
        getNodeDisplayLabel h properties labels
          = some (utf16 (jsString h (getProp properties "type"))))
      ∧ (truthy (getProp properties "nome") = false →
        truthy (getProp properties "name") = false →
        truthy (getProp properties "idWhatsapp") = false →
        truthy (getProp properties "type") = false →
        (∀ ls, labels = some ls → ls ≠ [] →
          getNodeDisplayLabel h properties labels = some (utf16 (", ".intercalate ls)))
        ∧ ((labels = none ∨ labels = some []) →
          getNodeDisplayLabel h properties labels = some (utf16 "Nó Desconhecido"))))
    ∧ (∀ s : String, (∀ c ∈ s.data.take 10, c.toNat < 0x10000) →
        (utf16 s).take 10 = utf16 (String.mk (s.data.take 10)))
    ∧ getNodeDisplayLabel h
        (Val.obj Cls.plain [("nome", Val.str "X"), ("type", Val.str "Y")]) labels
        = some (utf16 "X")
    ∧ getNodeDisplayLabel h
        (Val.obj Cls.plain [("nome", Val.str ""), ("type", Val.str "Y")]) labels
        = some (utf16 "Y") := by
  refine ⟨?_, ?_, ?_, rfl, rfl⟩
  · rintro (rfl | rfl) <;> rfl
  · intro hn hu
    have e : getNodeDisplayLabel h properties labels = some (displayLabel h properties labels) := by
      cases properties <;> first | rfl | exact absurd rfl hn | exact absurd rfl hu
    rw [e]
    refine ⟨?_, ?_, ?_, ?_, ?_⟩
    · intro h1
      simp [displayLabel, h1]
    · intro h1 h2
      simp [displayLabel, h1, h2]
    · intro h1 h2 h3
      simp [displayLabel, substringTo, h1, h2, h3]
    · intro h1 h2 h3 h4
      simp [displayLabel, h1, h2, h3, h4]
    · intro h1 h2 h3 h4
      constructor
      · intro ls hls hne
        subst hls
        cases ls with
        | nil => exact absurd rfl hne
        | cons l ls => simp [displayLabel, h1, h2, h3, h4]
      · rintro (rfl | rfl) <;> simp [displayLabel, h1, h2, h3, h4]
  · intro s hs
    exact take_flatMap_charUnits s.data 10 hs

/-! ## The loop of convertNeo4jProperties -/

theorem objSet_of_not_mem (acc : List (String × Val)) (k : String) (v : Val)
    (hk : k ∉ acc.map Prod.fst) : objSet acc k v = acc ++ [(k, v)] := by
  induction acc with
  | nil => rfl
  | cons e rest ih =>
    obtain ⟨k0, v0⟩ := e
    simp only [List.map_cons, List.mem_cons, not_or] at hk
    have h0 : ¬ k0 = k := fun hc => hk.1 hc.symm
    simp [objSet, h0, ih hk.2]

/-- On an object whose keys are pairwise distinct the loop stores, in order,
every key with the value the loop body computes for it. -/
theorem convFields_of_nodup (h : Host) (fs acc : List (String × Val))
    (hnd : ((acc ++ fs).map Prod.fst).Nodup) :
    convFields h fs acc = acc ++ fs.map (fun kv => (kv.1, convValue h kv.1 kv.2)) := by
  induction fs generalizing acc with
  | nil => simp [convFields]
  | cons e rest ih =>
    obtain ⟨k, v⟩ := e
    have hk : k ∉ acc.map Prod.fst := by
      intro hc
      rw [List.map_append, List.nodup_append] at hnd
      exact hnd.2.2 hc (by simp)
    rw [convFields, objSet_of_not_mem acc k _ hk, ih]
    · simp
    · simpa [List.map_append] using hnd

theorem convertNeo4jProperties_obj (h : Host) (c : Cls) (fs : List (String × Val)) :
    convertNeo4jProperties h (.obj c fs) = .obj .plain (convFields h fs []) := by
  simp [convertNeo4jProperties, truthy, ownEntries]

theorem convertNeo4jProperties_of_nodup (h : Host) (c : Cls) (fs : List (String × Val))
    (hnd : (fs.map Prod.fst).Nodup) :
    convertNeo4jProperties h (.obj c fs)
      = .obj .plain (fs.map (fun kv => (kv.1, convValue h kv.1 kv.2))) := by
  rw [convertNeo4jProperties_obj, convFields_of_nodup h fs [] (by simpa using hnd)]
  simp

theorem lookup_map_of_mem (fs : List (String × Val)) (f : String → Val → Val)
    (hnd : (fs.map Prod.fst).Nodup) (k : String) (v : Val) (hm : (k, v) ∈ fs) :
    (fs.map (fun kv => (kv.1, f kv.1 kv.2))).lookup k = some (f k v) := by
  induction fs with
  | nil => simp at hm
  | cons e rest ih =>
    obtain ⟨k0, v0⟩ := e
    simp only [List.map_cons, List.nodup_cons, List.mem_map, not_exists, not_and] at hnd
    rcases List.mem_cons.1 hm with heq | hm
    · cases heq
      simp [List.lookup]
    · have hne : ¬ k = k0 := fun hc => hnd.1 (k, v) hm hc
      have hb : (k == k0) = false := by simpa using hne
      simp only [List.map_cons, List.lookup, hb]
      exact ih hnd.2 hm

/-- The value stored under a key of an object whose keys are pairwise
distinct is the value the loop body computes for that key. -/
theorem getProp_convertNeo4jProperties (h : Host) (c : Cls) (fs : List (String × Val))
    (hnd : (fs.map Prod.fst).Nodup) (k : String) (v : Val) (hm : (k, v) ∈ fs) :
    getProp (convertNeo4jProperties h (.obj c fs)) k = convValue h k v := by
  rw [convertNeo4jProperties_of_nodup h c fs hnd]
  simp [getProp, lookup_map_of_mem fs (convValue h) hnd k v hm]

/-! ## C9, C10 -/

/-- C9, counterexample. Under the allow-listed key `timestamp` a store-native
integer epoch is stored as the number `1700000000000`, whereas
`convertNeo4jDateToISO` of it is the ISO-8601 string. -/
theorem convertNeo4jProperties_int_stamp :
    getProp (convertNeo4jProperties exampleHost
        (Val.obj Cls.plain [("timestamp", Val.int 1700000000000)])) "timestamp"
      = Val.num (JSNum.fin 1700000000000)
    ∧ convertNeo4jDateToISO exampleHost (Val.int 1700000000000)
      = Val.str "2023-11-14T22:13:20.000Z"
    ∧ Val.num (JSNum.fin 1700000000000) ≠ Val.str "2023-11-14T22:13:20.000Z" := by
  refine ⟨rfl, rfl, ?_⟩
  simp

/-- C9, amended. For every field of an object the tests on the value's type
for a store-native integer, a temporal value and a bigint come first: such a
value is stored as its number, its `toString()`, its number, whatever the
key.  For every other value, when the key is allow-listed the stored value is
`convertNeo4jDateToISO(value)`; a key that is not allow-listed never reaches
`convertNeo4jDateToISO`. -/
theorem convertNeo4jProperties_dispatch (h : Host) (c : Cls) (fs : List (String × Val))
    (hnd : (fs.map Prod.fst).Nodup) (k : String) (v : Val) (hm : (k, v) ∈ fs) :
    getProp (convertNeo4jProperties h (.obj c fs)) k = convValue h k v
    ∧ (∀ i, v = .int i → convValue h k v = .num (roundToDouble i))
    ∧ (∀ i, v = .bigint i → convValue h k v = .num (roundToDouble i))
    ∧ (∀ c1 fs1, v = .obj c1 fs1 → isTemporal v = true →
        convValue h k v = .str (h.driverToString c1 fs1))
    ∧ (isInt v = false → isBigInt v = false → isTemporal v = false →
        k ∈ timestampKeys → convValue h k v = convertNeo4jDateToISO h v)
    ∧ (k ∉ timestampKeys → isPlainScalar v = true → convValue h k v = v) := by
  refine ⟨getProp_convertNeo4jProperties h c fs hnd k v hm, ?_, ?_, ?_, ?_, ?_⟩
  · rintro i rfl
    simp [convValue]
  · rintro i rfl
    simp [convValue]
  · rintro c1 fs1 rfl ht
    cases c1 <;> simp [isTemporal] at ht <;> simp [convValue]
  · intro h1 h2 h3 hk
    cases v with
    | obj c1 fs1 => cases c1 <;> simp [isTemporal] at h3 <;> simp [convValue, hk]
    | int i => simp [isInt] at h1
    | bigint i => simp [isBigInt] at h2
    | _ => simp [convValue, hk]
  · intro hk hs
    cases v <;> simp [isPlainScalar] at hs <;> simp [convValue, hk]

theorem convertNeo4jProperties_dispatch_witness :
    getProp (convertNeo4jProperties exampleHost
        (Val.obj Cls.plain [("timestamp", Val.num (JSNum.fin 1700000000000))])) "timestamp"
      = Val.str "2023-11-14T22:13:20.000Z" :=
  ((convertNeo4jProperties_dispatch exampleHost Cls.plain
    [("timestamp", Val.num (JSNum.fin 1700000000000))] (by decide) "timestamp"
    (Val.num (JSNum.fin 1700000000000)) (by simp)).1).trans rfl

/-- C10. For every key that is not allow-listed and every scalar that is not
store-native (`null`, a boolean, a number, a string), the output holds that
value unchanged under the same key; `convertNeo4jDateToISO` is not applied to
it. -/
theorem convertNeo4jProperties_scalar_unchanged (h : Host) (c : Cls)
    (fs : List (String × Val)) (hnd : (fs.map Prod.fst).Nodup) (k : String) (v : Val)
    (hm : (k, v) ∈ fs) (hk : k ∉ timestampKeys) (hv : isPlainScalar v = true) :
    getProp (convertNeo4jProperties h (.obj c fs)) k = v := by
  rw [getProp_convertNeo4jProperties h c fs hnd k v hm]
  cases v <;> simp [isPlainScalar] at hv <;> simp [convValue, hk]

theorem convertNeo4jProperties_scalar_unchanged_witness :
    getProp (convertNeo4jProperties exampleHost
        (Val.obj Cls.plain [("nome", Val.str "Ana"), ("nascimento", Val.str "2024-03-15")]))
      "nascimento" = Val.str "2024-03-15" :=
  convertNeo4jProperties_scalar_unchanged exampleHost Cls.plain
    [("nome", Val.str "Ana"), ("nascimento", Val.str "2024-03-15")] (by decide)
    "nascimento" (Val.str "2024-03-15") (by simp) (by decide) rfl

/-! ## Recursion into lists and maps -/

theorem convItems_eq_map (h : Host) (xs : List Val) : convItems h xs = xs.map (convItem h) := by
  induction xs with
  | nil => rfl
  | cons x rest ih => simp [convItems, ih]

theorem lookup_map_conv (fs : List (String × Val)) (f : String → Val → Val) (k : String) :
    (fs.map (fun kv => (kv.1, f kv.1 kv.2))).lookup k = (fs.lookup k).map (f k) := by
  induction fs with
  | nil => rfl
  | cons e rest ih =>
    obtain ⟨k0, v0⟩ := e
    by_cases hk : k = k0
    · subst hk
      simp [List.lookup]
    · have hb : (k == k0) = false := by simpa using hk
      simp [List.lookup, hb, ih]

theorem wellFormedFields_lookup (fs : List (String × Val)) (k : String) (v : Val)
    (hw : wellFormedFields fs = true) (hl : fs.lookup k = some v) : wellFormed v = true := by
  induction fs with
  | nil => simp at hl
  | cons e rest ih =>
    obtain ⟨k0, v0⟩ := e
    simp only [wellFormedFields, Bool.and_eq_true] at hw
    by_cases hk : k = k0
    · subst hk
      simp [List.lookup] at hl
      subst hl
      exact hw.1
    · have hb : (k == k0) = false := by simpa using hk
      simp only [List.lookup, hb] at hl
      exact ih hw.2 hl

theorem wellFormedItems_get (xs : List Val) (i : Nat) (v : Val)
    (hw : wellFormedItems xs = true) (hl : xs[i]? = some v) : wellFormed v = true := by
  induction xs generalizing i with
  | nil => simp at hl
  | cons x rest ih =>
    simp only [wellFormedItems, Bool.and_eq_true] at hw
    cases i with
    | zero =>
      simp at hl
      subst hl
      exact hw.1
    | succ j =>
      simp at hl
      exact ih j hw.2 hl

/-- The recursion converts a store-native integer at the end of every path
it follows. -/
theorem valAt_convAt (h : Host) (p : List Step) (pl : Place) (v : Val) (i : Int)
    (hw : wellFormed v = true) (hp : followed pl p = true)
    (hv : valAt v p = some (.int i) ∨ valAt v p = some (.bigint i)) :
    valAt (convAt h pl v) p = some (.num (roundToDouble i)) := by
  induction p generalizing pl v with
  | nil =>
    simp only [valAt, Option.some.injEq] at hv
    rcases hv with rfl | rfl <;> cases pl <;> simp [valAt, convAt, convValue, convItem]
  | cons s rest ih =>
    simp only [valAt] at hv ⊢
    cases s with
    | key k2 =>
      cases v with
      | obj c fs =>
        cases c with
        | plain =>
          simp only [wellFormed, Bool.and_eq_true, decide_eq_true_eq] at hw
          have hconv : convAt h pl (.obj .plain fs)
              = .obj .plain (fs.map (fun kv => (kv.1, convValue h kv.1 kv.2))) := by
            have hf := convFields_of_nodup h fs [] (by simpa using hw.1)
            cases pl with
            | under k =>
              have hk : ¬ k ∈ timestampKeys := by
                simp only [followed, Bool.and_eq_true, Bool.not_eq_true'] at hp
                simpa using hp.1
              simp [convAt, convValue, hk, hf]
            | element => simp [convAt, convItem, hf]
          have hp2 : followed (.under k2) rest = true := by
            cases pl <;> simp [followed] at hp <;> simp [hp]
          rw [hconv]
          simp only [child, lookup_map_conv] at hv ⊢
          cases hl : fs.lookup k2 with
          | none => simp [hl] at hv
          | some c2 =>
            simp only [hl, Option.bind_some, Option.map_some'] at hv ⊢
            exact ih (.under k2) c2 (wellFormedFields_lookup fs k2 c2 hw.2 hl) hp2 hv
        | _ => simp [child] at hv
      | _ => simp [child] at hv
    | idx j =>
      cases v with
      | arr xs =>
        cases pl with
        | element => simp [followed] at hp
        | under k =>
          simp only [followed, Bool.and_eq_true, Bool.not_eq_true'] at hp
          have hk : ¬ k ∈ timestampKeys := by simpa using hp.1
          simp only [wellFormed] at hw
          simp only [convAt, convValue, child, convItems_eq_map] at hv ⊢
          have hc : (if timestampKeys.contains k = true then convertNeo4jDateToISO h (.arr xs)
              else Val.arr (xs.map (convItem h))) = Val.arr (xs.map (convItem h)) := by
            simp [hk]
          rw [hc]
          simp only [child, List.getElem?_map]
          cases hl : xs[j]? with
          | none => simp [hl] at hv
          | some c2 =>
            simp only [hl, Option.bind_some, Option.map_some'] at hv ⊢
            exact ih .element c2 (wellFormedItems_get xs j c2 hw hl) hp.2 hv
      | _ => simp [child] at hv

theorem portableOutsideNestedListsFields_objSet (acc : List (String × Val)) (k : String)
    (v : Val) (ha : portableOutsideNestedListsFields acc = true)
    (hv : portableOutsideNestedLists v = true) :
    portableOutsideNestedListsFields (objSet acc k v) = true := by
  induction acc with
  | nil => simp [objSet, portableOutsideNestedListsFields, hv]
  | cons e rest ih =>
    obtain ⟨k0, v0⟩ := e
    simp only [portableOutsideNestedListsFields, Bool.and_eq_true] at ha
    by_cases hk : k0 = k
    · simp [objSet, hk, portableOutsideNestedListsFields, hv, ha.2]
    · simp [objSet, hk, portableOutsideNestedListsFields, ha.1, ih ha.2]

theorem convertNeo4jDateToISO_null_or_str (h : Host) (v : Val) :
    convertNeo4jDateToISO h v = .null ∨ ∃ s, convertNeo4jDateToISO h v = .str s := by
  unfold convertNeo4jDateToISO
  cases v <;> simp <;> (repeat' split) <;> simp

theorem portableOutsideNestedLists_date (h : Host) (v : Val) :
    portableOutsideNestedLists (convertNeo4jDateToISO h v) = true := by
  rcases convertNeo4jDateToISO_null_or_str h v with hn | ⟨s, hs⟩
  · rw [hn]; rfl
  · rw [hs]; rfl

theorem convValue_stamp (h : Host) (k : String) (v : Val) (hk : k ∈ timestampKeys)
    (h1 : isInt v = false) (h2 : isBigInt v = false) (h3 : isTemporal v = false) :
    convValue h k v = convertNeo4jDateToISO h v := by
  cases v with
  | obj c1 fs1 => cases c1 <;> simp [isTemporal] at h3 <;> simp [convValue, hk]
  | int i => simp [isInt] at h1
  | bigint i => simp [isBigInt] at h2
  | _ => simp [convValue, hk]

mutual
theorem portableOutsideNestedLists_convFields (h : Host) :
    ∀ (fs acc : List (String × Val)), noUndefinedFields fs = true →
      portableOutsideNestedListsFields acc = true →
      portableOutsideNestedListsFields (convFields h fs acc) = true
  | [], acc, _, ha => by simpa [convFields] using ha
  | (k, v) :: rest, acc, hu, ha => by
    simp only [noUndefinedFields, Bool.and_eq_true] at hu
    rw [convFields]
    exact portableOutsideNestedLists_convFields h rest _ hu.2
      (portableOutsideNestedListsFields_objSet acc k _ ha
        (portableOutsideNestedLists_convValue h k v hu.1))
theorem portableOutsideNestedLists_convValue (h : Host) (k : String) :
    ∀ (v : Val), noUndefined v = true → portableOutsideNestedLists (convValue h k v) = true
  | .undefined, hu => by simp [noUndefined] at hu
  | .null, _ => by
    by_cases hk : k ∈ timestampKeys <;>
      simp [convValue, hk, convertNeo4jDateToISO, portableOutsideNestedLists]
  | .bool b, _ => by
    by_cases hk : k ∈ timestampKeys
    · rw [convValue_stamp h k (.bool b) hk rfl rfl rfl]
      exact portableOutsideNestedLists_date h _
    · simp [convValue, hk, portableOutsideNestedLists]
  | .num n, _ => by
    by_cases hk : k ∈ timestampKeys
    · rw [convValue_stamp h k (.num n) hk rfl rfl rfl]
      exact portableOutsideNestedLists_date h _
    · simp [convValue, hk, portableOutsideNestedLists]
  | .str s, _ => by
    by_cases hk : k ∈ timestampKeys
    · rw [convValue_stamp h k (.str s) hk rfl rfl rfl]
      exact portableOutsideNestedLists_date h _
    · simp [convValue, hk, portableOutsideNestedLists]
  | .bigint i, _ => by simp [convValue, portableOutsideNestedLists]
  | .int i, _ => by simp [convValue, portableOutsideNestedLists]
  | .arr xs, hu => by
    by_cases hk : k ∈ timestampKeys
    · rw [convValue_stamp h k (.arr xs) hk rfl rfl rfl]
      exact portableOutsideNestedLists_date h _
    · simp only [noUndefined] at hu
      have hrec := portableOutsideNestedLists_convItems h xs hu
      simp [convValue, hk, portableOutsideNestedLists, hrec]
  | .obj c fs, hu => by
    simp only [noUndefined] at hu
    have hrec := portableOutsideNestedLists_convFields h fs [] hu rfl
    by_cases hk : k ∈ timestampKeys
    · cases c with
      | plain =>
        rw [convValue_stamp h k (.obj .plain fs) hk rfl rfl rfl]
        exact portableOutsideNestedLists_date h _
      | other name =>
        rw [convValue_stamp h k (.obj (.other name) fs) hk rfl rfl rfl]
        exact portableOutsideNestedLists_date h _
      | _ => simp [convValue, portableOutsideNestedLists]
    · cases c <;> simp [convValue, hk, portableOutsideNestedLists, hrec]
theorem portableOutsideNestedLists_convItems (h : Host) :
    ∀ (xs : List Val), noUndefinedItems xs = true →
      portableOrListItems (convItems h xs) = true
  | [], _ => rfl
  | x :: rest, hu => by
    simp only [noUndefinedItems, Bool.and_eq_true] at hu
    have hrest := portableOutsideNestedLists_convItems h rest hu.2
    cases x with
    | undefined => simp [noUndefined] at hu
    | obj c fs =>
      have hx := hu.1
      simp only [noUndefined] at hx
      have hrec := portableOutsideNestedLists_convFields h fs [] hx rfl
      simp [convItems, convItem, portableOrListItems, portableOutsideNestedLists, hrec, hrest]
    | _ =>
      simp [convItems, convItem, portableOrListItems, portableOutsideNestedLists, hrest]
end

/-! ## C7, C8 -/

/-- C7, counterexample. The store-native integer inside the list nested
directly in the list under `a` stands at the same path in the output,
unconverted. -/
theorem convertNeo4jProperties_nested_list_int :
    valAt (Val.obj Cls.plain [("a", Val.arr [Val.arr [Val.int 1]])])
        [Step.key "a", Step.idx 0, Step.idx 0] = some (Val.int 1)
    ∧ valAt (convertNeo4jProperties exampleHost
          (Val.obj Cls.plain [("a", Val.arr [Val.arr [Val.int 1]])]))
        [Step.key "a", Step.idx 0, Step.idx 0] = some (Val.int 1)
    ∧ some (Val.int 1) ≠ some (Val.num (roundToDouble 1)) := by
  refine ⟨rfl, rfl, ?_⟩
  simp

/-- C7, amended. In a well-formed map, a store-native integer or bigint at the
end of a path the recursion follows (through maps and lists stored under keys
that are not allow-listed, and from a list into its map elements) stands in
the output, at the same path, as its numeric value.  A list that is directly
an element of a list is returned unchanged. -/
theorem convertNeo4jProperties_converts_followed (h : Host) (fs : List (String × Val))
    (p : List Step) (i : Int) (hw : wellFormed (.obj .plain fs) = true)
    (hp : followed .element p = true)
    (hv : valAt (.obj .plain fs) p = some (.int i) ∨ valAt (.obj .plain fs) p = some (.bigint i)) :
    valAt (convertNeo4jProperties h (.obj .plain fs)) p = some (.num (roundToDouble i))
    ∧ ∀ ys, convItem h (.arr ys) = .arr ys := by
  constructor
  · have hc : convertNeo4jProperties h (.obj .plain fs) = convAt h .element (.obj .plain fs) := by
      rw [convertNeo4jProperties_obj]
      rfl
    rw [hc]
    exact valAt_convAt h p .element _ i hw hp hv
  · intro ys
    rfl

theorem convertNeo4jProperties_converts_followed_witness :
    valAt (convertNeo4jProperties exampleHost
        (Val.obj Cls.plain [("a", Val.arr [Val.obj Cls.plain [("b", Val.int 7)]])]))
      [Step.key "a", Step.idx 0, Step.key "b"] = some (Val.num (roundToDouble 7))
    ∧ ∀ ys, convItem exampleHost (Val.arr ys) = Val.arr ys :=
  convertNeo4jProperties_converts_followed exampleHost
    [("a", Val.arr [Val.obj Cls.plain [("b", Val.int 7)]])]
    [Step.key "a", Step.idx 0, Step.key "b"] 7 (by decide) (by decide) (Or.inl rfl)

/-- C8, counterexample. The output for a map that holds a list nested
directly in a list keeps the store-native integer of the inner list: the
output is not portable. -/
theorem convertNeo4jProperties_output_not_portable :
    convertNeo4jProperties exampleHost
        (Val.obj Cls.plain [("pontos", Val.arr [Val.arr [Val.int 5, Val.int 6]])])
      = Val.obj Cls.plain [("pontos", Val.arr [Val.arr [Val.int 5, Val.int 6]])]
    ∧ portable (Val.obj Cls.plain [("pontos", Val.arr [Val.arr [Val.int 5, Val.int 6]])])
      = false := by
  exact ⟨rfl, rfl⟩

/-- C8, amended. For every object without `undefined`, every value of the
output that does not lie inside a list nested directly in a list is `null`, a
boolean, a number, a string, a list or a map of such values; only the lists
nested directly in a list, which are returned unchanged, can hold store-native
values. -/
theorem convertNeo4jProperties_portable_outside_nested (h : Host) (c : Cls)
    (fs : List (String × Val)) (hu : noUndefined (.obj c fs) = true) :
    portableOutsideNestedLists (convertNeo4jProperties h (.obj c fs)) = true := by
  rw [convertNeo4jProperties_obj]
  simp only [noUndefined] at hu
  simpa [portableOutsideNestedLists] using portableOutsideNestedLists_convFields h fs [] hu rfl

theorem convertNeo4jProperties_portable_outside_nested_witness :
    portableOutsideNestedLists (convertNeo4jProperties exampleHost
      (Val.obj (Cls.other "Node")
        [("identity", Val.int 4), ("labels", Val.arr [Val.str "Lead"]),
         ("properties", Val.obj Cls.plain
            [("dtCriacao", Val.int 1700000000000), ("pontos", Val.arr [Val.arr [Val.int 5]])])]))
      = true :=
  convertNeo4jProperties_portable_outside_nested exampleHost (Cls.other "Node")
    [("identity", Val.int 4), ("labels", Val.arr [Val.str "Lead"]),
     ("properties", Val.obj Cls.plain
        [("dtCriacao", Val.int 1700000000000), ("pontos", Val.arr [Val.arr [Val.int 5]])])]
    (by decide)

/-! ## Idempotence -/

theorem timeClip_valid (n : JSNum) (t : Int) (hc : timeClip n = some t) : validTime t := by
  cases n with
  | fin q =>
    simp only [timeClip] at hc
    split at hc
    · rename_i hb
      simp only [Option.some.injEq] at hc
      subst hc
      have hden : (0 : Int) < q.den := by exact_mod_cast q.den_pos
      have h1 : (q.num.tdiv q.den).natAbs ≤ 8640000000000000 := by
        rw [Int.natAbs_tdiv]
        simp only [Int.natAbs_ofNat]
        exact (Nat.div_le_iff_le_mul_add_pred q.den_pos).2 (by omega)
      unfold validTime
      omega
    · simp at hc
  | _ => simp [timeClip] at hc

theorem timeClip_int (t : Int) (ht : validTime t) : timeClip (.fin t) = some t := by
  unfold validTime at ht
  have h1 : ((t : ℚ)).num = t := Rat.intCast_num t
  have h2 : ((t : ℚ)).den = 1 := Rat.intCast_den t
  simp only [timeClip, h1, h2, Nat.mul_one]
  rw [if_pos (by omega)]
  simp

/-- On a host whose `Date.parse` reads back `toISOString`, the ISO string of a
valid time value is a fixed point of `convertNeo4jDateToISO`. -/
theorem convertNeo4jDateToISO_iso (h : Host) (hlaw : ParsesISO h) (t : Int)
    (ht : validTime t) :
    convertNeo4jDateToISO h (.str (toISOString t)) = .str (toISOString t) := by
  simp [convertNeo4jDateToISO, timestampNumber, hlaw t ht, JSNum.isNaN, dateToISO,
    timeClip_int t ht]

/-- On a string, `convertNeo4jDateToISO` returns the string itself or the ISO
string of a valid time value. -/
theorem convertNeo4jDateToISO_str (h : Host) (s : String) :
    convertNeo4jDateToISO h (.str s) = .str s
    ∨ ∃ t, validTime t ∧ convertNeo4jDateToISO h (.str s) = .str (toISOString t) := by
  simp only [convertNeo4jDateToISO, timestampNumber]
  cases hp : h.dateParse s with
  | some t =>
    simp only [JSNum.isNaN, Bool.not_false, if_true, dateToISO]
    cases hc : timeClip (.fin t) with
    | none => left; simp [jsString]
    | some t1 => right; exact ⟨t1, timeClip_valid _ _ hc, by simp⟩
  | none =>
    simp only
    cases hn : h.numberOfString s with
    | nan => left; simp [JSNum.isNaN, jsString]
    | posInf => left; simp [JSNum.isNaN, dateToISO, timeClip, jsString]
    | negInf => left; simp [JSNum.isNaN, dateToISO, timeClip, jsString]
    | fin q =>
      simp only [JSNum.isNaN, Bool.not_false, if_true, dateToISO]
      cases hc : timeClip (.fin q) with
      | none => left; simp [jsString]
      | some t1 => right; exact ⟨t1, timeClip_valid _ _ hc, by simp⟩

theorem convertNeo4jDateToISO_str_idem (h : Host) (hlaw : ParsesISO h) (s : String) :
    convertNeo4jDateToISO h (convertNeo4jDateToISO h (.str s))
      = convertNeo4jDateToISO h (.str s) := by
  rcases convertNeo4jDateToISO_str h s with hs | ⟨t, ht, hs⟩
  · rw [hs, hs]
  · rw [hs, convertNeo4jDateToISO_iso h hlaw t ht]

theorem convertNeo4jDateToISO_num (h : Host) (n : JSNum) (t : Int) (hc : timeClip n = some t) :
    convertNeo4jDateToISO h (.num n) = .str (toISOString t) := by
  cases n with
  | fin q => simp [convertNeo4jDateToISO, timestampNumber, JSNum.isNaN, dateToISO, hc]
  | _ => simp [timeClip] at hc

theorem objSet_mem (acc : List (String × Val)) (k : String) (v : Val) (e : String × Val)
    (he : e ∈ objSet acc k v) : e ∈ acc ∨ e = (k, v) := by
  induction acc with
  | nil =>
    simp only [objSet, List.mem_singleton] at he
    exact Or.inr he
  | cons e0 rest ih =>
    obtain ⟨k0, v0⟩ := e0
    simp only [objSet] at he
    split at he
    · rename_i hk
      rcases List.mem_cons.1 he with h1 | h1
      · right; rw [h1, hk]
      · left; exact List.mem_cons_of_mem _ h1
    · rcases List.mem_cons.1 he with h1 | h1
      · left; rw [h1]; exact List.mem_cons_self _ _
      · rcases ih h1 with h2 | h2
        · left; exact List.mem_cons_of_mem _ h2
        · right; exact h2

theorem objSet_keys_nodup (acc : List (String × Val)) (k : String) (v : Val)
    (hnd : (acc.map Prod.fst).Nodup) : ((objSet acc k v).map Prod.fst).Nodup := by
  by_cases hk : k ∈ acc.map Prod.fst
  · have hsame : (objSet acc k v).map Prod.fst = acc.map Prod.fst := by
      clear hnd
      induction acc with
      | nil => simp at hk
      | cons e0 rest ih =>
        obtain ⟨k0, v0⟩ := e0
        by_cases h0 : k0 = k
        · simp [objSet, h0]
        · have hk2 : k ∈ rest.map Prod.fst := by
            rcases List.mem_cons.1 hk with h1 | h1
            · exact absurd h1.symm h0
            · exact h1
          simp [objSet, h0, ih hk2]
    rw [hsame]
    exact hnd
  · rw [objSet_of_not_mem acc k v hk, List.map_append]
    simp only [List.map_cons, List.map_nil]
    rw [List.nodup_append]
    refine ⟨hnd, List.nodup_singleton _, ?_⟩
    intro a ha hb
    rw [List.mem_singleton] at hb
    exact hk (hb ▸ ha)

theorem convFields_keys_nodup (h : Host) (fs acc : List (String × Val))
    (hnd : (acc.map Prod.fst).Nodup) : ((convFields h fs acc).map Prod.fst).Nodup := by
  induction fs generalizing acc with
  | nil => simpa [convFields] using hnd
  | cons e rest ih =>
    obtain ⟨k, v⟩ := e
    rw [convFields]
    exact ih _ (objSet_keys_nodup acc k _ hnd)

/-- An object whose keys are pairwise distinct and whose values the loop body
leaves unchanged is left unchanged by the loop. -/
theorem convFields_fixed (h : Host) (out : List (String × Val))
    (hnd : (out.map Prod.fst).Nodup) (hq : ∀ e ∈ out, convValue h e.1 e.2 = e.2) :
    convFields h out [] = out := by
  rw [convFields_of_nodup h out [] (by simpa using hnd)]
  simp only [List.nil_append]
  conv_rhs => rw [← List.map_id out]
  apply List.map_congr_left
  intro e he
  rw [hq e he]
  rfl

mutual
theorem idem_fields (h : Host) (hlaw : ParsesISO h) :
    ∀ (fs acc : List (String × Val)), portableFields fs = true →
      stampsSimpleFields fs = true → (∀ e ∈ acc, convValue h e.1 e.2 = e.2) →
      ∀ e ∈ convFields h fs acc, convValue h e.1 e.2 = e.2
  | [], acc, _, _, ha => by simpa [convFields] using ha
  | (k, v) :: rest, acc, hp, hs, ha => by
    simp only [portableFields, stampsSimpleFields, Bool.and_eq_true] at hp hs
    rw [convFields]
    apply idem_fields h hlaw rest _ hp.2 hs.2
    intro e he
    rcases objSet_mem acc k _ e he with h1 | h1
    · exact ha e h1
    · rw [h1]
      exact idem_value h hlaw k v hp.1 hs.1
theorem idem_value (h : Host) (hlaw : ParsesISO h) (k : String) :
    ∀ (v : Val), portable v = true → stampsSimpleValue k v = true →
      convValue h k (convValue h k v) = convValue h k v
  | .undefined, hp, _ => by simp [portable] at hp
  | .bigint _, hp, _ => by simp [portable] at hp
  | .int _, hp, _ => by simp [portable] at hp
  | .null, _, _ => by
    by_cases hk : k ∈ timestampKeys <;> simp [convValue, hk, convertNeo4jDateToISO]
  | .bool b, _, hs => by
    have hk : ¬ k ∈ timestampKeys := by simpa [stampsSimpleValue] using hs
    simp [convValue, hk]
  | .num n, _, hs => by
    by_cases hk : k ∈ timestampKeys
    · have hc : (timeClip n).isSome = true := by simpa [stampsSimpleValue, hk] using hs
      obtain ⟨t, ht⟩ := Option.isSome_iff_exists.1 hc
      rw [convValue_stamp h k (.num n) hk rfl rfl rfl, convertNeo4jDateToISO_num h n t ht,
        convValue_stamp h k (.str _) hk rfl rfl rfl]
      exact convertNeo4jDateToISO_iso h hlaw t (timeClip_valid n t ht)
    · simp [convValue, hk]
  | .str s, _, _ => by
    by_cases hk : k ∈ timestampKeys
    · rw [convValue_stamp h k (.str s) hk rfl rfl rfl]
      rcases convertNeo4jDateToISO_str h s with hs | ⟨t, ht, hs⟩
      · rw [hs, convValue_stamp h k (.str s) hk rfl rfl rfl, hs]
      · rw [hs, convValue_stamp h k (.str _) hk rfl rfl rfl]
        exact convertNeo4jDateToISO_iso h hlaw t ht
    · simp [convValue, hk]
  | .arr xs, hp, hs => by
    simp only [portable] at hp
    simp only [stampsSimpleValue, Bool.and_eq_true, Bool.not_eq_true'] at hs
    have hk : ¬ k ∈ timestampKeys := by simpa using hs.1
    have hrec := idem_items h hlaw xs hp hs.2
    simp [convValue, hk, hrec]
  | .obj c fs, hp, hs => by
    cases c with
    | plain =>
      simp only [portable] at hp
      simp only [stampsSimpleValue, Bool.and_eq_true, Bool.not_eq_true'] at hs
      have hk : ¬ k ∈ timestampKeys := by simpa using hs.1
      have hq := idem_fields h hlaw fs [] hp hs.2 (by simp)
      have hfix := convFields_fixed h (convFields h fs [])
        (convFields_keys_nodup h fs [] (by simp)) hq
      simp [convValue, hk, hfix]
    | _ => simp [portable] at hp
theorem idem_items (h : Host) (hlaw : ParsesISO h) :
    ∀ (xs : List Val), portableItems xs = true → stampsSimpleItems xs = true →
      convItems h (convItems h xs) = convItems h xs
  | [], _, _ => rfl
  | x :: rest, hp, hs => by
    simp only [portableItems, Bool.and_eq_true] at hp
    cases x with
    | obj c fs =>
      cases c with
      | plain =>
        simp only [stampsSimpleItems, Bool.and_eq_true] at hs
        have hx := hp.1
        simp only [portable] at hx
        have hq := idem_fields h hlaw fs [] hx hs.1 (by simp)
        have hfix := convFields_fixed h (convFields h fs [])
          (convFields_keys_nodup h fs [] (by simp)) hq
        have hrec := idem_items h hlaw rest hp.2 hs.2
        simp [convItems, convItem, hfix, hrec]
      | _ => simp [portable] at hp
    | undefined => simp [portable] at hp
    | bigint i => simp [portable] at hp
    | int i => simp [portable] at hp
    | _ =>
      simp only [stampsSimpleItems] at hs
      have hrec := idem_items h hlaw rest hp.2 hs
      simp [convItems, convItem, hrec]
end

/-! ## The example host reads back toISOString -/

theorem digitVal_digitChar (d : Nat) (hd : d < 10) : digitVal (Nat.digitChar d) = some d := by
  interval_cases d <;> rfl

theorem digitChar_ne_sign (d : Nat) (hd : d < 10) :
    Nat.digitChar d ≠ '+' ∧ Nat.digitChar d ≠ '-' := by
  interval_cases d <;> decide

theorem length_padDigits (w n : Nat) : (padDigits w n).length = w := by
  induction w generalizing n with
  | zero => rfl
  | succ w ih => simp [padDigits, ih]

theorem readNat_append_digit (cs : List Char) (d : Nat) (hd : d < 10) :
    readNat (cs ++ [Nat.digitChar d]) = (readNat cs).map (fun acc => acc * 10 + d) := by
  simp only [readNat, List.foldlM_append, List.foldlM_cons, List.foldlM_nil,
    digitVal_digitChar d hd]
  cases List.foldlM (fun acc c => Option.map (fun d => acc * 10 + d) (digitVal c)) 0 cs <;> rfl

theorem readNat_padDigits (w n : Nat) : readNat (padDigits w n) = some (n % 10 ^ w) := by
  induction w generalizing n with
  | zero => simp [padDigits, readNat, Nat.mod_one]
  | succ w ih =>
    rw [padDigits, readNat_append_digit _ _ (Nat.mod_lt _ (by decide)), ih, Option.map_some',
      Nat.pow_succ', Nat.mod_mul]
    congr 1
    generalize n / 10 % 10 ^ w = a
    omega

theorem takeNat_padDigits (w n : Nat) (rest : List Char) (hn : n < 10 ^ w) :
    takeNat w (padDigits w n ++ rest) = some (n, rest) := by
  have hl := length_padDigits w n
  have h1 : (padDigits w n ++ rest).take w = padDigits w n := by
    rw [List.take_append_of_le_length (by omega), List.take_of_length_le (by omega)]
  have h2 : (padDigits w n ++ rest).drop w = rest := by
    rw [List.drop_append_of_le_length (by omega), List.drop_of_length_le (by omega)]
    rfl
  simp only [takeNat, List.length_append, hl, Nat.le_add_right, if_true, h1, h2,
    readNat_padDigits, Nat.mod_eq_of_lt hn, Option.map_some']

theorem takeField_padDigits (w n : Nat) (sep : Char) (rest : List Char) (hn : n < 10 ^ w) :
    takeField w sep (padDigits w n ++ sep :: rest) = some (n, rest) := by
  simp [takeField, takeNat_padDigits w n _ hn, expectChar]

theorem padDigits_head (w n : Nat) :
    ∃ d, d < 10 ∧ ∃ tl, padDigits (w + 1) n = Nat.digitChar d :: tl := by
  induction w generalizing n with
  | zero => exact ⟨n % 10, Nat.mod_lt _ (by decide), [], by simp [padDigits]⟩
  | succ w ih =>
    obtain ⟨d, hd, tl, htl⟩ := ih (n / 10)
    exact ⟨d, hd, tl ++ [Nat.digitChar (n % 10)], by rw [padDigits, htl]; rfl⟩

theorem takeYear_yearChars (y : Int) (rest : List Char) (hy : -999999 ≤ y ∧ y ≤ 999999) :
    takeYear (yearChars y ++ rest) = some (y, rest) := by
  unfold yearChars
  by_cases h1 : 0 ≤ y ∧ y ≤ 9999
  · rw [if_pos h1]
    obtain ⟨d, hd, tl, htl⟩ := padDigits_head 3 y.toNat
    have hsplit : padDigits 4 y.toNat ++ rest = Nat.digitChar d :: (tl ++ rest) := by
      rw [htl]; rfl
    have hne := digitChar_ne_sign d hd
    rw [hsplit, takeYear, if_neg hne.1, if_neg hne.2, ← hsplit,
      takeNat_padDigits 4 y.toNat rest (by omega)]
    simp only [Option.map_some', Option.some.injEq, Prod.mk.injEq, and_true]
    omega
  · rw [if_neg h1]
    by_cases h2 : y < 0
    · rw [if_pos h2]
      have : takeYear ('-' :: padDigits 6 y.natAbs ++ rest)
          = (takeNat 6 (padDigits 6 y.natAbs ++ rest)).map (fun p => (-(p.1 : Int), p.2)) := by
        simp [takeYear]
      rw [this, takeNat_padDigits 6 y.natAbs rest (by omega)]
      simp only [Option.map_some', Option.some.injEq, Prod.mk.injEq, and_true]
      omega
    · rw [if_neg h2]
      have : takeYear ('+' :: padDigits 6 y.natAbs ++ rest)
          = (takeNat 6 (padDigits 6 y.natAbs ++ rest)).map (fun p => ((p.1 : Int), p.2)) := by
        simp [takeYear]
      rw [this, takeNat_padDigits 6 y.natAbs rest (by omega)]
      simp only [Option.map_some', Option.some.injEq, Prod.mk.injEq, and_true]
      omega

theorem daysFromCivil_march (era : Int) (yoe mp dd : Nat) (hyoe : yoe ≤ 399) (hmp : mp ≤ 11) :
    daysFromCivil
        (if (if mp < 10 then mp + 3 else mp - 9) ≤ 2 then (yoe : Int) + era * 400 + 1
          else (yoe : Int) + era * 400)
        (if mp < 10 then mp + 3 else mp - 9) dd
      = era * 146097
          + ((yoe * 365 + yoe / 4 - yoe / 100 + ((153 * mp + 2) / 5 + dd - 1) : Nat) : Int)
          - 719468 := by
  have e1 : ((yoe : Int) + era * 400) / 400 = era := by omega
  have e2 : (((yoe : Int) + era * 400) % 400).toNat = yoe := by omega
  by_cases hm : mp < 10
  · have h1 : ¬ (mp + 3 ≤ 2) := by omega
    have h2 : mp + 3 > 2 := by omega
    have h3 : mp + 3 - 3 = mp := by omega
    simp only [daysFromCivil, hm, if_true, h1, if_false, h2, h3, e1, e2]
  · have h1 : mp - 9 ≤ 2 := by omega
    have h2 : ¬ (mp - 9 > 2) := by omega
    have h3 : mp - 9 + 9 = mp := by omega
    have h4 : (yoe : Int) + era * 400 + 1 - 1 = (yoe : Int) + era * 400 := by omega
    simp only [daysFromCivil, hm, if_false, h1, if_true, h2, h3, h4, e1, e2]

/-- The civil date of a day number is a date of the calendar, its day number
is the day number it was computed from, and for the days of the valid time
values the year has at most six digits. -/
theorem civilFromDays_spec (D : Int) :
    daysFromCivil (civilFromDays D).1 (civilFromDays D).2.1 (civilFromDays D).2.2 = D
    ∧ 1 ≤ (civilFromDays D).2.1 ∧ (civilFromDays D).2.1 ≤ 12
    ∧ 1 ≤ (civilFromDays D).2.2 ∧ (civilFromDays D).2.2 ≤ 31
    ∧ (-100000000 ≤ D → D ≤ 100000000 →
        -271821 ≤ (civilFromDays D).1 ∧ (civilFromDays D).1 ≤ 275760) := by
  simp only [civilFromDays]
  generalize hera : (D + 719468) / 146097 = era
  generalize hdoe : ((D + 719468) % 146097).toNat = doe
  have hz : D + 719468 = era * 146097 + doe := by omega
  have hdoe1 : doe < 146097 := by omega
  generalize hc : min (doe / 36524) 3 = c
  have hc1 : c ≤ 3 := by omega
  have hc2 : 36524 * c ≤ doe := by omega
  generalize hr1 : doe - 36524 * c = r1
  have hr1b : r1 ≤ 36524 := by omega
  generalize hq : r1 / 1461 = q
  have hq1 : q ≤ 24 := by omega
  have hq2 : 1461 * q ≤ r1 := by omega
  generalize hr2 : r1 - 1461 * q = r2
  have hr2b : r2 ≤ 1460 := by omega
  generalize hyr : min (r2 / 365) 3 = yr
  have hyr1 : yr ≤ 3 := by omega
  have hyr2 : 365 * yr ≤ r2 := by omega
  generalize hdoy : r2 - 365 * yr = doy
  have hdoyb : doy ≤ 365 := by omega
  generalize hmp : (5 * doy + 2) / 153 = mp
  have hmp1 : mp ≤ 11 := by omega
  have hmp2 : (153 * mp + 2) / 5 ≤ doy := by omega
  have hd : doy - (153 * mp + 2) / 5 ≤ 30 := by omega
  have hdoe2 : doe = 36524 * c + 1461 * q + 365 * yr + doy := by omega
  have hy4 : (100 * c + 4 * q + yr) / 4 = 25 * c + q := by omega
  have hy100 : (100 * c + 4 * q + yr) / 100 = c := by omega
  generalize hyoe : 100 * c + 4 * q + yr = yoe at hy4 hy100 ⊢
  have hyoe1 : yoe ≤ 399 := by omega
  refine ⟨?_, ?_, ?_, ?_, ?_, ?_⟩
  · rw [daysFromCivil_march era yoe mp _ hyoe1 hmp1]
    rw [hy4, hy100]
    omega
  · split_ifs <;> omega
  · split_ifs <;> omega
  · omega
  · omega
  · intro h1 h2
    have hera1 : -745 ≤ era ∧ era ≤ 689 := by omega
    split_ifs <;> omega

theorem expectChar_cons (c : Char) (rest : List Char) : expectChar c (c :: rest) = some rest := by
  simp [expectChar]

theorem isoTime_toISOChars (t : Int) (ht : validTime t) : isoTime (toISOChars t) = some t := by
  unfold validTime at ht
  obtain ⟨hrt, hm1, hm2, hd1, hd2, hy⟩ := civilFromDays_spec (t / 86400000)
  have hy1 := hy (by omega) (by omega)
  have hms : (t % 86400000).toNat < 86400000 := by omega
  simp only [toISOChars, isoTime]
  rw [takeYear_yearChars _ _ (by omega)]
  simp only [Option.some_bind, expectChar_cons]
  rw [takeField_padDigits 2 _ '-' _ (by omega)]
  simp only [Option.some_bind]
  rw [takeField_padDigits 2 _ 'T' _ (by omega)]
  simp only [Option.some_bind]
  rw [takeField_padDigits 2 _ ':' _ (by omega)]
  simp only [Option.some_bind]
  rw [takeField_padDigits 2 _ ':' _ (by omega)]
  simp only [Option.some_bind]
  rw [takeField_padDigits 2 _ '.' _ (by omega)]
  simp only [Option.some_bind]
  rw [takeField_padDigits 3 _ 'Z' _ (by omega)]
  simp only [Option.some_bind, if_true, hrt, Option.some.injEq]
  omega

/-- The example host's `Date.parse` reads back `toISOString`. -/
theorem exampleHost_parsesISO : ParsesISO exampleHost := by
  intro t ht
  show isoParse (toISOString t) = some t
  have h1 : (toISOString t).data = toISOChars t := rfl
  simp only [isoParse, h1, isoTime_toISOChars t ht]
  unfold validTime at ht
  simp [ht.1, ht.2]

/-! ## C6 -/

/-- C6, counterexample. The portable map `{createdAt: []}` is converted to
`{createdAt: ""}` (the string form of the empty list), and a second pass
converts that to `{createdAt: "1970-01-01T00:00:00.000Z"}`, because `Number("")`
is `0`. -/
theorem convertNeo4jProperties_not_idempotent :
    portable (Val.obj Cls.plain [("createdAt", Val.arr [])]) = true
    ∧ convertNeo4jProperties exampleHost (Val.obj Cls.plain [("createdAt", Val.arr [])])
        = Val.obj Cls.plain [("createdAt", Val.str "")]
    ∧ convertNeo4jProperties exampleHost (Val.obj Cls.plain [("createdAt", Val.str "")])
        = Val.obj Cls.plain [("createdAt", Val.str "1970-01-01T00:00:00.000Z")]
    ∧ Val.obj Cls.plain [("createdAt", Val.str "1970-01-01T00:00:00.000Z")]
        ≠ Val.obj Cls.plain [("createdAt", Val.str "")] := by
  refine ⟨rfl, rfl, rfl, ?_⟩
  simp

/-- C6, amended. On a host whose `Date.parse` reads back the strings
`toISOString` produces, `convertNeo4jProperties` is idempotent on every
portable map whose timestamp fields are simple: at every map the recursion
visits, the value under an allow-listed key is `null`, a string or a number
that is a valid time value. -/
theorem convertNeo4jProperties_idempotent (h : Host) (hlaw : ParsesISO h)
    (fs : List (String × Val)) (hp : portable (.obj .plain fs) = true)
    (hs : stampsSimpleFields fs = true) :
    convertNeo4jProperties h (convertNeo4jProperties h (.obj .plain fs))
      = convertNeo4jProperties h (.obj .plain fs) := by
  simp only [portable] at hp
  rw [convertNeo4jProperties_obj, convertNeo4jProperties_obj]
  have hq := idem_fields h hlaw fs [] hp hs (by simp)
  rw [convFields_fixed h (convFields h fs []) (convFields_keys_nodup h fs [] (by simp)) hq]

theorem convertNeo4jProperties_idempotent_witness :
    convertNeo4jProperties exampleHost (convertNeo4jProperties exampleHost
        (Val.obj Cls.plain
          [("nome", Val.str "Ana"), ("createdAt", Val.num (JSNum.fin 1710498600000)),
           ("updatedAt", Val.str "15/03/2024"),
           ("eventos", Val.arr [Val.obj Cls.plain [("timestamp", Val.null)], Val.arr []])]))
      = convertNeo4jProperties exampleHost
        (Val.obj Cls.plain
          [("nome", Val.str "Ana"), ("createdAt", Val.num (JSNum.fin 1710498600000)),
           ("updatedAt", Val.str "15/03/2024"),
           ("eventos", Val.arr [Val.obj Cls.plain [("timestamp", Val.null)], Val.arr []])]) :=
  convertNeo4jProperties_idempotent exampleHost exampleHost_parsesISO
    [("nome", Val.str "Ana"), ("createdAt", Val.num (JSNum.fin 1710498600000)),
     ("updatedAt", Val.str "15/03/2024"),
     ("eventos", Val.arr [Val.obj Cls.plain [("timestamp", Val.null)], Val.arr []])]
    (by decide) (by decide)

/-! ## The query compilation of /api/leads -/

theorem withWhere_shape (c : Bool) (cl k : String) (v : Val) (st : QueryParts)
    (hk : k ∉ st.params.map Prod.fst) :
    (withWhere c cl k v st).matchClauses = st.matchClauses
    ∧ (withWhere c cl k v st).whereClauses = st.whereClauses ++ (if c then [cl] else [])
    ∧ (withWhere c cl k v st).params = st.params ++ (if c then [(k, v)] else []) := by
  cases c
  · simp [withWhere]
  · simp [withWhere, objSet_of_not_mem st.params k v hk]

theorem withMatch_shape (c : Bool) (pat cl k : String) (v : Val) (st : QueryParts)
    (hk : k ∉ st.params.map Prod.fst) :
    (withMatch c pat cl k v st).matchClauses = st.matchClauses ++ (if c then [pat] else [])
    ∧ (withMatch c pat cl k v st).whereClauses = st.whereClauses ++ (if c then [cl] else [])
    ∧ (withMatch c pat cl k v st).params = st.params ++ (if c then [(k, v)] else []) := by
  cases c
  · simp [withMatch]
  · simp [withMatch, objSet_of_not_mem st.params k v hk]

theorem map_fst_opt (c : Bool) (k : String) (v : Val) :
    (if c then [(k, v)] else []).map Prod.fst = if c then [k] else [] := by
  cases c <;> rfl

/-- The match clauses, where-clauses and parameters that the statements of
`/api/leads` build: after the primary pattern and the two pagination
parameters, each present filter contributes its clause and its parameter, in
the order of the source. -/
theorem leadsParts_eq (h : Host) (day : LocalDay) (q : LeadsQuery) :
    (leadsParts h day q).matchClauses
        = ["MATCH (l:Lead)"]
          ++ (if truthy q.tag then ["MATCH (l)-[:TEM_TAG]->(tg:Tag)"] else [])
          ++ (if truthy q.dor then ["MATCH (l)-[:TEM_DOR]->(dr:Dor)"] else [])
    ∧ (leadsParts h day q).whereClauses
        = (if truthy q.nome then ["toLower(l.nome) CONTAINS toLower($nome)"] else [])
          ++ (if truthy q.nivelInteresse then ["l.nivelDeInteresseReuniao = $nivelInteresse"]
              else [])
          ++ (if truthy q.origem then ["l.origemDoLead = $origem"] else [])
          ++ (if truthy q.dtCriacaoStart then ["l.dtCriacao >= $dtCriacaoStartMillis"] else [])
          ++ (if truthy q.dtCriacaoEnd then ["l.dtCriacao <= $dtCriacaoEndMillis"] else [])
          ++ (if truthy q.dtAtualizacaoStart
              then ["l.dtUltimaAtualizacao >= $dtAtualizacaoStartMillis"] else [])
          ++ (if truthy q.dtAtualizacaoEnd
              then ["l.dtUltimaAtualizacao <= $dtAtualizacaoEndMillis"] else [])
          ++ (if truthy q.tag then ["tg.nome = $tag"] else [])
          ++ (if truthy q.dor then ["dr.nome = $dor"] else [])
    ∧ (leadsParts h day q).params
        = paginationParams h (orDefault q.page (.num (.fin 1)))
            (orDefault q.limit (.num (.fin 10)))
          ++ (if truthy q.nome then [("nome", q.nome)] else [])
          ++ (if truthy q.nivelInteresse then [("nivelInteresse", q.nivelInteresse)] else [])
          ++ (if truthy q.origem then [("origem", q.origem)] else [])
          ++ (if truthy q.dtCriacaoStart then [("dtCriacaoStartMillis",
                Val.int (neo4jInt (day.startOfDay q.dtCriacaoStart)))] else [])
          ++ (if truthy q.dtCriacaoEnd then [("dtCriacaoEndMillis",
                Val.int (neo4jInt (day.endOfDay q.dtCriacaoEnd)))] else [])
          ++ (if truthy q.dtAtualizacaoStart then [("dtAtualizacaoStartMillis",
                Val.int (neo4jInt (day.startOfDay q.dtAtualizacaoStart)))] else [])
          ++ (if truthy q.dtAtualizacaoEnd then [("dtAtualizacaoEndMillis",
                Val.int (neo4jInt (day.endOfDay q.dtAtualizacaoEnd)))] else [])
          ++ (if truthy q.tag then [("tag", q.tag)] else [])
          ++ (if truthy q.dor then [("dor", q.dor)] else []) := by
  unfold leadsParts
  simp only
  generalize hst0 : QueryParts.mk ["MATCH (l:Lead)"] []
    (paginationParams h (orDefault q.page (.num (.fin 1)))
      (orDefault q.limit (.num (.fin 10)))) = st0
  have hm0 : st0.matchClauses = ["MATCH (l:Lead)"] := by rw [← hst0]
  have hw0 : st0.whereClauses = [] := by rw [← hst0]
  have hp0 : st0.params = paginationParams h (orDefault q.page (.num (.fin 1)))
      (orDefault q.limit (.num (.fin 10))) := by rw [← hst0]
  generalize hst1 : withWhere (truthy q.nome) _ _ _ st0 = st1
  obtain ⟨hm1, hw1, hp1⟩ := withWhere_shape (truthy q.nome)
    "toLower(l.nome) CONTAINS toLower($nome)" "nome" q.nome st0
    (by rw [hp0]; simp [paginationParams])
  rw [hst1] at hm1 hw1 hp1
  generalize hst2 : withWhere (truthy q.nivelInteresse) _ _ _ st1 = st2
  obtain ⟨hm2, hw2, hp2⟩ := withWhere_shape (truthy q.nivelInteresse)
    "l.nivelDeInteresseReuniao = $nivelInteresse" "nivelInteresse" q.nivelInteresse st1
    (by rw [hp1, hp0]; simp [paginationParams, map_fst_opt])
  rw [hst2] at hm2 hw2 hp2
  generalize hst3 : withWhere (truthy q.origem) _ _ _ st2 = st3
  obtain ⟨hm3, hw3, hp3⟩ := withWhere_shape (truthy q.origem)
    "l.origemDoLead = $origem" "origem" q.origem st2
    (by rw [hp2, hp1, hp0]; simp [paginationParams, map_fst_opt])
  rw [hst3] at hm3 hw3 hp3
  generalize hst4 : withWhere (truthy q.dtCriacaoStart) _ _ _ st3 = st4
  obtain ⟨hm4, hw4, hp4⟩ := withWhere_shape (truthy q.dtCriacaoStart)
    "l.dtCriacao >= $dtCriacaoStartMillis" "dtCriacaoStartMillis"
    (Val.int (neo4jInt (day.startOfDay q.dtCriacaoStart))) st3
    (by rw [hp3, hp2, hp1, hp0]; simp [paginationParams, map_fst_opt])
  rw [hst4] at hm4 hw4 hp4
  generalize hst5 : withWhere (truthy q.dtCriacaoEnd) _ _ _ st4 = st5
  obtain ⟨hm5, hw5, hp5⟩ := withWhere_shape (truthy q.dtCriacaoEnd)
    "l.dtCriacao <= $dtCriacaoEndMillis" "dtCriacaoEndMillis"
    (Val.int (neo4jInt (day.endOfDay q.dtCriacaoEnd))) st4
    (by rw [hp4, hp3, hp2, hp1, hp0]; simp [paginationParams, map_fst_opt])
  rw [hst5] at hm5 hw5 hp5
  generalize hst6 : withWhere (truthy q.dtAtualizacaoStart) _ _ _ st5 = st6
  obtain ⟨hm6, hw6, hp6⟩ := withWhere_shape (truthy q.dtAtualizacaoStart)
    "l.dtUltimaAtualizacao >= $dtAtualizacaoStartMillis" "dtAtualizacaoStartMillis"
    (Val.int (neo4jInt (day.startOfDay q.dtAtualizacaoStart))) st5
    (by rw [hp5, hp4, hp3, hp2, hp1, hp0]; simp [paginationParams, map_fst_opt])
  rw [hst6] at hm6 hw6 hp6
  generalize hst7 : withWhere (truthy q.dtAtualizacaoEnd) _ _ _ st6 = st7
  obtain ⟨hm7, hw7, hp7⟩ := withWhere_shape (truthy q.dtAtualizacaoEnd)
    "l.dtUltimaAtualizacao <= $dtAtualizacaoEndMillis" "dtAtualizacaoEndMillis"
    (Val.int (neo4jInt (day.endOfDay q.dtAtualizacaoEnd))) st6
    (by rw [hp6, hp5, hp4, hp3, hp2, hp1, hp0]; simp [paginationParams, map_fst_opt])
  rw [hst7] at hm7 hw7 hp7
  generalize hst8 : withMatch (truthy q.tag) _ _ _ _ st7 = st8
  obtain ⟨hm8, hw8, hp8⟩ := withMatch_shape (truthy q.tag)
    "MATCH (l)-[:TEM_TAG]->(tg:Tag)" "tg.nome = $tag" "tag" q.tag st7
    (by rw [hp7, hp6, hp5, hp4, hp3, hp2, hp1, hp0]; simp [paginationParams, map_fst_opt])
  rw [hst8] at hm8 hw8 hp8
  obtain ⟨hm9, hw9, hp9⟩ := withMatch_shape (truthy q.dor)
    "MATCH (l)-[:TEM_DOR]->(dr:Dor)" "dr.nome = $dor" "dor" q.dor st8
    (by rw [hp8, hp7, hp6, hp5, hp4, hp3, hp2, hp1, hp0]; simp [paginationParams, map_fst_opt])
  refine ⟨?_, ?_, ?_⟩
  · rw [hm9, hm8, hm7, hm6, hm5, hm4, hm3, hm2, hm1, hm0]
  · rw [hw9, hw8, hw7, hw6, hw5, hw4, hw3, hw2, hw1, hw0, List.nil_append]
  · rw [hp9, hp8, hp7, hp6, hp5, hp4, hp3, hp2, hp1, hp0]

theorem bitLengthAux_le (fuel : Nat) : ∀ (n k : Nat), n < 2 ^ k → bitLengthAux fuel n ≤ k := by
  induction fuel with
  | zero => intro n k _; simp [bitLengthAux]
  | succ f ih =>
    intro n k hn
    simp only [bitLengthAux]
    split
    · omega
    · rename_i h0
      cases k with
      | zero => simp at hn; omega
      | succ k =>
        have : n / 2 < 2 ^ k := by
          rw [Nat.pow_succ] at hn
          omega
        have := ih (n / 2) k this
        omega

/-- An integer below `2 ^ 53` in absolute value is a binary64 value. -/
theorem roundToDouble_small (i : Int) (hi : i.natAbs < 2 ^ 53) :
    roundToDouble i = .fin i := by
  have hb : bitLength i.natAbs ≤ 53 := bitLengthAux_le _ _ _ hi
  have he : bitLength i.natAbs - 53 = 0 := by omega
  simp only [roundToDouble, he, pow_zero, Nat.div_one, Nat.mod_one, Nat.mul_zero, Nat.mul_one]
  have h1 : ¬ (1024 < bitLength i.natAbs ∨ bitLength i.natAbs = 1024 ∧
      (if 0 > 1 ∨ 0 = 1 ∧ i.natAbs % 2 = 1 then i.natAbs + 1 else i.natAbs) = 2 ^ 53) := by
    omega
  rw [if_neg h1]
  have h2 : ¬ (0 > 1 ∨ 0 = 1 ∧ i.natAbs % 2 = 1) := by omega
  rw [if_neg h2]
  congr 1
  split
  · have h3 : -((i.natAbs : Int)) = i := by omega
    rw [← Int.cast_neg, h3]
  · have h3 : ((i.natAbs : Int)) = i := by omega
    rw [h3]

theorem neo4jInt_int (i : Int) (hi : i.natAbs < 2 ^ 63) : neo4jInt (.fin i) = i := by
  have h1 : ((i : ℚ)).num = i := Rat.intCast_num i
  have h2 : ((i : ℚ)).den = 1 := Rat.intCast_den i
  simp only [neo4jInt, h1, h2, Nat.cast_one, mul_one, Int.tdiv_one]
  have hpow : (2 : Nat) ^ 63 = 9223372036854775808 := by norm_num
  rw [hpow] at hi
  split_ifs <;> omega

theorem jsSubOne_int (p : Int) (hp : (p - 1).natAbs < 2 ^ 53) :
    jsSubOne (.fin p) = .fin ((p - 1 : Int) : ℚ) := by
  have h1 : ((p : ℚ)).num = p := Rat.intCast_num p
  have h2 : ((p : ℚ)).den = 1 := Rat.intCast_den p
  simp only [jsSubOne, h1, h2, if_true]
  exact roundToDouble_small _ hp

theorem jsMul_int (a b : Int) (hab : (a * b).natAbs < 2 ^ 53) :
    jsMul (.fin a) (.fin b) = .fin ((a * b : Int) : ℚ) := by
  have h1 : ((a : ℚ)).num = a := Rat.intCast_num a
  have h2 : ((a : ℚ)).den = 1 := Rat.intCast_den a
  have h3 : ((b : ℚ)).num = b := Rat.intCast_num b
  have h4 : ((b : ℚ)).den = 1 := Rat.intCast_den b
  simp only [jsMul, h1, h2, h3, h4, and_self, if_true]
  exact roundToDouble_small _ hab

/-- The pagination parameters on integers in the range where binary64
arithmetic is exact. -/
theorem paginationParams_int (h : Host) (page limit : Val) (p l : Int)
    (hp : parseIntVal h page = .fin p) (hl : parseIntVal h limit = .fin l)
    (hp1 : (p - 1).natAbs < 2 ^ 53) (hl1 : l.natAbs < 2 ^ 53)
    (hs : ((p - 1) * l).natAbs < 2 ^ 53) :
    paginationParams h page limit
      = [("skip", .int ((p - 1) * l)), ("limit", .int l)] := by
  simp only [paginationParams, pageSkip, hp, hl]
  rw [jsSubOne_int p hp1, jsMul_int _ _ hs, neo4jInt_int _ (by omega), neo4jInt_int _ (by omega)]

theorem mem_opt {α : Type} (c : Bool) (x a : α) :
    a ∈ (if c then [x] else []) ↔ c = true ∧ a = x := by
  cases c <;> simp

theorem length_opt {α : Type} (c : Bool) (x : α) :
    (if c then [x] else []).length = if c then 1 else 0 := by
  cases c <;> rfl

theorem filter_cons_opt (c : Bool) (cl k : String) (l : List (Bool × String × String)) :
    ((c, cl, k) :: l).filter (fun f => f.1)
      = (if c then [(c, cl, k)] else []) ++ l.filter (fun f => f.1) := by
  cases c <;> simp

theorem compileLeads_parts (h : Host) (day : LocalDay) (q : LeadsQuery) :
    (compileLeads h day q).matchClauses = (leadsParts h day q).matchClauses
    ∧ (compileLeads h day q).whereClauses = (leadsParts h day q).whereClauses
    ∧ (compileLeads h day q).params = (leadsParts h day q).params
    ∧ (compileLeads h day q).baseQuery = baseQueryOf (leadsParts h day q) :=
  ⟨rfl, rfl, rfl, rfl⟩


/-! ## C16 – C19 -/

/-- C16, counterexample. For the query without any key the parameters are not
zero: `params` holds `skip` and `limit`; and the base query is the primary
pattern followed by a space, not the pattern itself. -/
theorem compileLeads_empty_has_params :
    (compileLeads exampleHost utcDay emptyQuery).params
      = [("skip", Val.int 0), ("limit", Val.int 10)]
    ∧ (compileLeads exampleHost utcDay emptyQuery).params.length = 2
    ∧ (compileLeads exampleHost utcDay emptyQuery).baseQuery = "MATCH (l:Lead) "
    ∧ (compileLeads exampleHost utcDay emptyQuery).baseQuery ≠ "MATCH (l:Lead)" := by
  refine ⟨rfl, rfl, rfl, ?_⟩
  decide

/-- C16, amended. For a query without any of the nine filters, whatever its
`page` and `limit`: there is no where-clause, the only match clause is the
primary pattern, the parameters are exactly `skip` and `limit`, the base query
is the primary pattern followed by one space, without `WHERE`, and the count
query is the base query followed by its `RETURN`. -/
theorem compileLeads_empty (h : Host) (day : LocalDay) (page limit : Val) :
    (compileLeads h day { emptyQuery with page := page, limit := limit }).whereClauses = []
    ∧ (compileLeads h day { emptyQuery with page := page, limit := limit }).matchClauses
      = ["MATCH (l:Lead)"]
    ∧ (compileLeads h day { emptyQuery with page := page, limit := limit }).params
      = [("skip", .int (neo4jInt (pageSkip h (orDefault page (.num (.fin 1)))
            (orDefault limit (.num (.fin 10)))))),
         ("limit", .int (neo4jInt (parseIntVal h (orDefault limit (.num (.fin 10))))))]
    ∧ (compileLeads h day { emptyQuery with page := page, limit := limit }).baseQuery
      = "MATCH (l:Lead) "
    ∧ (compileLeads h day { emptyQuery with page := page, limit := limit }).countQuery
      = "MATCH (l:Lead)  RETURN count(DISTINCT l) AS total" :=
  ⟨rfl, rfl, rfl, rfl, rfl⟩

/-- C17, counterexample. For page 9007199254740993 and limit 1 the bound
`skip` is 9007199254740991, not `(page − 1) · limit` = 9007199254740992:
`parseInt` rounds the page to the binary64 value 9007199254740992 before the
subtraction. -/
theorem pagination_rounds :
    parseIntVal exampleHost (Val.str "9007199254740993") = JSNum.fin 9007199254740992
    ∧ (compileLeads exampleHost utcDay
        { emptyQuery with page := Val.str "9007199254740993", limit := Val.str "1" }).params
      = [("skip", Val.int 9007199254740991), ("limit", Val.int 1)]
    ∧ ((9007199254740993 : Int) - 1) * 1 ≠ 9007199254740991 := by
  refine ⟨rfl, rfl, ?_⟩
  decide

/-- C17, amended. When `parseInt` reads the integers `p` and `l` from the page
and the limit, and `p − 1`, `l` and `(p − 1) · l` are below `2 ^ 53` in
absolute value, the parameters bound are the store-native integers
`skip = (p − 1) · l` and `limit = l`, in `/api/leads` (defaults 1 and 10) and
in `/api/knowledgebase/items/:nodeType` (defaults 1 and 20); nothing is
clamped, so a page below 1 with a limit that is not negative gives a skip that
is not positive.  Outside that range the arithmetic is that of binary64
numbers and `neo4j.int` saturates at the 64-bit bounds. -/
theorem pagination_exact (h : Host) (page limit : Val) (p l : Int)
    (hp : parseIntVal h page = .fin p) (hl : parseIntVal h limit = .fin l)
    (hp1 : (p - 1).natAbs < 2 ^ 53) (hl1 : l.natAbs < 2 ^ 53)
    (hs : ((p - 1) * l).natAbs < 2 ^ 53) :
    paginationParams h page limit = [("skip", .int ((p - 1) * l)), ("limit", .int l)]
    ∧ (∀ day q, orDefault q.page (.num (.fin 1)) = page →
        orDefault q.limit (.num (.fin 10)) = limit →
        (compileLeads h day q).params.lookup "skip" = some (.int ((p - 1) * l))
        ∧ (compileLeads h day q).params.lookup "limit" = some (.int l))
    ∧ (∀ pg lm, orDefault pg (.num (.fin 1)) = page → orDefault lm (.num (.fin 20)) = limit →
        knowledgebaseParams h pg lm = [("skip", .int ((p - 1) * l)), ("limit", .int l)])
    ∧ (p < 1 → 0 ≤ l → (p - 1) * l ≤ 0) := by
  have hpp := paginationParams_int h page limit p l hp hl hp1 hl1 hs
  refine ⟨hpp, ?_, ?_, ?_⟩
  · intro day q hq1 hq2
    obtain ⟨-, -, hpar, -⟩ := compileLeads_parts h day q
    obtain ⟨-, -, hpar2⟩ := leadsParts_eq h day q
    rw [hpar, hpar2, hq1, hq2, hpp]
    simp [List.lookup]
  · intro pg lm h1 h2
    rw [knowledgebaseParams, h1, h2, hpp]
  · intro h1 h2
    have : 0 ≤ (1 - p) * l := Int.mul_nonneg (by omega) h2
    have e : (p - 1) * l = -((1 - p) * l) := by ring
    omega

theorem pagination_exact_witness :
    paginationParams exampleHost (Val.str "2") (Val.str "10")
      = [("skip", Val.int 10), ("limit", Val.int 10)] :=
  (pagination_exact exampleHost (Val.str "2") (Val.str "10") 2 10 rfl rfl (by decide)
    (by decide) (by decide)).1

/-- C18. For every query and each of the nine optional filters (`nome`,
`nivelInteresse`, `origem`, `dtCriacaoStart`, `dtCriacaoEnd`,
`dtAtualizacaoStart`, `dtAtualizacaoEnd`, `tag`, `dor`), the filter's
where-clause is in `whereClauses` exactly when the filter is present, and the
key of its parameter is a key of `params` exactly when the filter is present;
the number of where-clauses is the number of present filters.  A filter is
present when the test `if (value)` of the source succeeds: the key is in the
query with a value other than the empty string. -/
theorem compileLeads_clause_iff_present (h : Host) (day : LocalDay) (q : LeadsQuery) :
    (∀ f ∈ leadsFilters q,
        (f.2.1 ∈ (compileLeads h day q).whereClauses ↔ f.1 = true)
        ∧ (f.2.2 ∈ (compileLeads h day q).params.map Prod.fst ↔ f.1 = true))
    ∧ (compileLeads h day q).whereClauses.length
        = ((leadsFilters q).filter (fun f => f.1)).length := by
  obtain ⟨-, hw, hp, -⟩ := compileLeads_parts h day q
  obtain ⟨-, hw2, hp2⟩ := leadsParts_eq h day q
  rw [hw, hp, hw2, hp2]
  constructor
  · intro f hf
    simp only [leadsFilters, List.mem_cons, List.mem_singleton, List.not_mem_nil, or_false] at hf
    simp only [List.map_append, map_fst_opt, paginationParams, List.map_cons, List.map_nil]
    rcases hf with rfl | rfl | rfl | rfl | rfl | rfl | rfl | rfl | rfl <;>
      simp [mem_opt]
  · simp only [leadsFilters, filter_cons_opt, List.length_append, length_opt, List.filter_nil,
      List.length_nil]
    omega

theorem compileLeads_clause_iff_present_witness :
    ("toLower(l.nome) CONTAINS toLower($nome)" ∈ (compileLeads exampleHost utcDay
        { emptyQuery with nome := Val.str "Ana" }).whereClauses ↔ true = true)
    ∧ ("nome" ∈ (compileLeads exampleHost utcDay
        { emptyQuery with nome := Val.str "Ana" }).params.map Prod.fst ↔ true = true) :=
  (compileLeads_clause_iff_present exampleHost utcDay
    { emptyQuery with nome := Val.str "Ana" }).1
    (true, "toLower(l.nome) CONTAINS toLower($nome)", "nome")
    (by simp [leadsFilters, truthy, emptyQuery])

/-- C19. For every query, `matchClauses` is the primary pattern
`MATCH (l:Lead)` followed by the pattern of the tag filter when it is present
and then by the pattern of the dor filter when it is present, so its length is
1 + [tag present] + [dor present]; each present relationship filter also
contributes its equality where-clause (`tg.nome = $tag`, `dr.nome = $dor`) and
the parameter the clause names, bound to the query value. -/
theorem compileLeads_matchClauses (h : Host) (day : LocalDay) (q : LeadsQuery) :
    (compileLeads h day q).matchClauses
      = ["MATCH (l:Lead)"]
        ++ (if truthy q.tag then ["MATCH (l)-[:TEM_TAG]->(tg:Tag)"] else [])
        ++ (if truthy q.dor then ["MATCH (l)-[:TEM_DOR]->(dr:Dor)"] else [])
    ∧ (compileLeads h day q).matchClauses.length
      = 1 + (if truthy q.tag then 1 else 0) + (if truthy q.dor then 1 else 0)
    ∧ (truthy q.tag = true →
        "tg.nome = $tag" ∈ (compileLeads h day q).whereClauses
        ∧ ("tag", q.tag) ∈ (compileLeads h day q).params)
    ∧ (truthy q.dor = true →
        "dr.nome = $dor" ∈ (compileLeads h day q).whereClauses
        ∧ ("dor", q.dor) ∈ (compileLeads h day q).params) := by
  obtain ⟨hm, hw, hp, -⟩ := compileLeads_parts h day q
  obtain ⟨hm2, hw2, hp2⟩ := leadsParts_eq h day q
  rw [hm, hw, hp, hm2, hw2, hp2]
  refine ⟨rfl, ?_, ?_, ?_⟩
  · simp only [List.length_append, length_opt, List.length_cons, List.length_nil]
  · intro ht
    simp [ht]
  · intro hd
    simp [hd]

theorem compileLeads_matchClauses_witness :
    "tg.nome = $tag" ∈ (compileLeads exampleHost utcDay
        { emptyQuery with tag := Val.str "vip" }).whereClauses
    ∧ ("tag", Val.str "vip") ∈ (compileLeads exampleHost utcDay
        { emptyQuery with tag := Val.str "vip" }).params :=
  (compileLeads_matchClauses exampleHost utcDay
    { emptyQuery with tag := Val.str "vip" }).2.2.1 rfl

/-! ## C11 -/

theorem convAt_map (h : Host) (pl : Place) (fs : List (String × Val)) (k2 : String)
    (rest : List Step) (hw : wellFormed (.obj .plain fs) = true)
    (hp : followed pl (.key k2 :: rest) = true) :
    convAt h pl (.obj .plain fs)
      = .obj .plain (fs.map (fun kv => (kv.1, convValue h kv.1 kv.2)))
    ∧ followed (.under k2) rest = true := by
  simp only [wellFormed, Bool.and_eq_true, decide_eq_true_eq] at hw
  have hf := convFields_of_nodup h fs [] (by simpa using hw.1)
  constructor
  · cases pl with
    | under k =>
      have hk : ¬ k ∈ timestampKeys := by
        simp only [followed, Bool.and_eq_true, Bool.not_eq_true'] at hp
        simpa using hp.1
      simp [convAt, convValue, hk, hf]
    | element => simp [convAt, convItem, hf]
  · cases pl <;> simp [followed] at hp <;> simp [hp]

theorem convAt_list (h : Host) (pl : Place) (xs : List Val) (j : Nat) (rest : List Step)
    (hp : followed pl (.idx j :: rest) = true) :
    convAt h pl (.arr xs) = .arr (xs.map (convItem h)) ∧ followed .element rest = true := by
  cases pl with
  | element => simp [followed] at hp
  | under k =>
    simp only [followed, Bool.and_eq_true, Bool.not_eq_true'] at hp
    have hk : ¬ k ∈ timestampKeys := by simpa using hp.1
    refine ⟨?_, hp.2⟩
    simp [convAt, convValue, convItems_eq_map, hk]

/-- The field of a map reached by a path the recursion follows is converted
by the loop body with the field's own key. -/
theorem valAt_convAt_field (h : Host) (p : List Step) (pl : Place) (v : Val)
    (gs : List (String × Val)) (k : String) (w : Val)
    (hw : wellFormed v = true) (hp : followed pl (p ++ [.key k]) = true)
    (hv : valAt v p = some (.obj .plain gs)) (hl : gs.lookup k = some w) :
    valAt (convAt h pl v) (p ++ [.key k]) = some (convValue h k w) := by
  induction p generalizing pl v with
  | nil =>
    simp only [valAt, Option.some.injEq] at hv
    subst hv
    simp only [List.nil_append] at hp ⊢
    rw [(convAt_map h pl gs k [] hw hp).1]
    simp [valAt, child, lookup_map_conv, hl]
  | cons s rest ih =>
    simp only [valAt, List.cons_append] at hv hp ⊢
    cases s with
    | key k2 =>
      cases v with
      | obj c fs =>
        cases c with
        | plain =>
          obtain ⟨hconv, hp2⟩ := convAt_map h pl fs k2 _ hw hp
          simp only [wellFormed, Bool.and_eq_true, decide_eq_true_eq] at hw
          rw [hconv]
          simp only [child, lookup_map_conv] at hv ⊢
          cases hl2 : fs.lookup k2 with
          | none => simp [hl2] at hv
          | some c2 =>
            simp only [hl2, Option.bind_some, Option.map_some'] at hv ⊢
            exact ih (.under k2) c2 (wellFormedFields_lookup fs k2 c2 hw.2 hl2) hp2 hv
        | _ => simp [child] at hv
      | _ => simp [child] at hv
    | idx j =>
      cases v with
      | arr xs =>
        obtain ⟨hconv, hp2⟩ := convAt_list h pl xs j _ hp
        simp only [wellFormed] at hw
        rw [hconv]
        simp only [child, List.getElem?_map] at hv ⊢
        cases hl2 : xs[j]? with
        | none => simp [hl2] at hv
        | some c2 =>
          simp only [hl2, Option.bind_some, Option.map_some'] at hv ⊢
          exact ih .element c2 (wellFormedItems_get xs j c2 hw hl2) hp2 hv
      | _ => simp [child] at hv

/-- C11, counterexample. In the map nested under the key `a`, which is not
allow-listed, the field `timestamp` holds a store-native integer epoch: the
output holds the number `1700000000000` at that place, whereas
`convertNeo4jDateToISO` of the value is the ISO-8601 string. -/
theorem convertNeo4jProperties_nested_int_stamp :
    valAt (convertNeo4jProperties exampleHost
        (Val.obj Cls.plain [("a", Val.obj Cls.plain [("timestamp", Val.int 1700000000000)])]))
      [Step.key "a", Step.key "timestamp"] = some (Val.num (JSNum.fin 1700000000000))
    ∧ convertNeo4jDateToISO exampleHost (Val.int 1700000000000)
      = Val.str "2023-11-14T22:13:20.000Z"
    ∧ some (Val.num (JSNum.fin 1700000000000)) ≠ some (Val.str "2023-11-14T22:13:20.000Z") := by
  refine ⟨rfl, rfl, ?_⟩
  simp

/-- C11, amended. In a well-formed map, for every map nested at any depth
that the recursion reaches (through maps and lists stored under keys that are
not allow-listed, and from a list into its map elements), every field of the
nested map is output, at the same path, as the loop body makes it from the
field's own key and value — the dispatch of the top level.  The tests on the
value's type come first; for a value that is not a store-native integer, a
bigint or a temporal value, a field whose own key is allow-listed is output as
`convertNeo4jDateToISO` of its value. -/
theorem convertNeo4jProperties_nested_dispatch (h : Host) (fs gs : List (String × Val))
    (p : List Step) (k : String) (w : Val) (hw : wellFormed (.obj .plain fs) = true)
    (hp : followed .element (p ++ [.key k]) = true)
    (hv : valAt (.obj .plain fs) p = some (.obj .plain gs)) (hl : gs.lookup k = some w) :
    valAt (convertNeo4jProperties h (.obj .plain fs)) (p ++ [.key k]) = some (convValue h k w)
    ∧ (k ∈ timestampKeys → isInt w = false → isBigInt w = false → isTemporal w = false →
        valAt (convertNeo4jProperties h (.obj .plain fs)) (p ++ [.key k])
          = some (convertNeo4jDateToISO h w)) := by
  have hc : convertNeo4jProperties h (.obj .plain fs) = convAt h .element (.obj .plain fs) := by
    rw [convertNeo4jProperties_obj]
    rfl
  have h1 := valAt_convAt_field h p .element _ gs k w hw hp hv hl
  rw [hc]
  refine ⟨h1, ?_⟩
  intro hk hi hb ht
  rw [h1, convValue_stamp h k w hk hi hb ht]

theorem convertNeo4jProperties_nested_dispatch_witness :
    valAt (convertNeo4jProperties exampleHost
        (Val.obj Cls.plain [("eventos", Val.arr [Val.obj Cls.plain
          [("timestamp", Val.num (JSNum.fin 1700000000000))]])]))
      [Step.key "eventos", Step.idx 0, Step.key "timestamp"]
      = some (Val.str "2023-11-14T22:13:20.000Z") :=
  ((convertNeo4jProperties_nested_dispatch exampleHost
    [("eventos", Val.arr [Val.obj Cls.plain [("timestamp", Val.num (JSNum.fin 1700000000000))]])]
    [("timestamp", Val.num (JSNum.fin 1700000000000))]
    [Step.key "eventos", Step.idx 0] "timestamp" (Val.num (JSNum.fin 1700000000000))
    (by decide) (by decide) rfl rfl).2 (by decide) rfl rfl rfl).trans rfl


/-! ## C13 – C15 -/

/-- C13. Whenever no resolution path of `convertNeo4jDateToISO` yields a finite
number, the result is `String(value)`, and nothing is thrown: for a string
that `Date.parse` and `Number` both read as `NaN`; for the numbers `NaN`,
`Infinity` and `-Infinity` (for the infinities the `RangeError` of
`toISOString` is caught); for an object or an array that is not a driver date
and lacks a truthy `year`, `month` or `day`; for a boolean.  In particular
the string `not-a-date` is returned as `not-a-date`. -/
theorem convertNeo4jDateToISO_fallback (h : Host) :
    (∀ s, h.dateParse s = none → h.numberOfString s = .nan →
        convertNeo4jDateToISO h (.str s) = .str s)
    ∧ (∀ n, (∀ q, n ≠ .fin q) → convertNeo4jDateToISO h (.num n) = .str (numToString h n))
    ∧ (∀ c fs, isDateLike (.obj c fs) = false →
        (truthy (getProp (.obj c fs) "year") && truthy (getProp (.obj c fs) "month")
          && truthy (getProp (.obj c fs) "day")) = false →
        convertNeo4jDateToISO h (.obj c fs) = .str (jsString h (.obj c fs)))
    ∧ (∀ xs, convertNeo4jDateToISO h (.arr xs) = .str (jsString h (.arr xs)))
    ∧ (∀ b, convertNeo4jDateToISO h (.bool b) = .str (if b then "true" else "false"))
    ∧ convertNeo4jDateToISO exampleHost (Val.str "not-a-date") = Val.str "not-a-date" := by
  refine ⟨?_, ?_, ?_, ?_, ?_, rfl⟩
  · intro s h1 h2
    simp [convertNeo4jDateToISO, timestampNumber, h1, h2, JSNum.isNaN, jsString]
  · intro n hn
    cases n with
    | fin q => exact absurd rfl (hn q)
    | _ => simp [convertNeo4jDateToISO, timestampNumber, JSNum.isNaN, dateToISO, timeClip,
        jsString]
  · intro c fs h1 h2
    have h3 : ¬ ((truthy (getProp (.obj c fs) "year") = true
        ∧ truthy (getProp (.obj c fs) "month") = true)
        ∧ truthy (getProp (.obj c fs) "day") = true) := by
      intro hc
      simp [hc.1.1, hc.1.2, hc.2] at h2
    cases c <;> simp [isDateLike] at h1 <;>
      simp [convertNeo4jDateToISO, timestampNumber, isDateLike, typeofObject, h3]
  · intro xs
    simp [convertNeo4jDateToISO, timestampNumber, isDateLike, typeofObject, getProp, truthy]
  · intro b
    simp [convertNeo4jDateToISO, timestampNumber, isDateLike, typeofObject, jsString]

theorem convertNeo4jDateToISO_fallback_witness :
    convertNeo4jDateToISO exampleHost (Val.str "2024-13-45") = Val.str "2024-13-45" :=
  (convertNeo4jDateToISO_fallback exampleHost).1 "2024-13-45" rfl rfl

/-- C14, counterexample. For `null` and for an absent (`undefined`) input
`convertNeo4jDateToISO` returns `null`, which is not a string. -/
theorem convertNeo4jDateToISO_null :
    convertNeo4jDateToISO exampleHost Val.null = Val.null
    ∧ convertNeo4jDateToISO exampleHost Val.undefined = Val.null
    ∧ ∀ s, Val.null ≠ Val.str s := by
  refine ⟨rfl, rfl, ?_⟩
  intro s
  simp

/-- C14, amended. For every input other than `null` and `undefined`,
`convertNeo4jDateToISO` returns a string: the ISO-8601 string of a valid time
value, or the fallback `String(value)`.  For `null` and `undefined` it
returns `null`. -/
theorem convertNeo4jDateToISO_string (h : Host) (v : Val) (hn : v ≠ .null)
    (hu : v ≠ .undefined) :
    ((∃ t, validTime t ∧ convertNeo4jDateToISO h v = .str (toISOString t))
      ∨ convertNeo4jDateToISO h v = .str (jsString h v))
    ∧ convertNeo4jDateToISO h .null = .null
    ∧ convertNeo4jDateToISO h .undefined = .null := by
  refine ⟨?_, rfl, rfl⟩
  have key : convertNeo4jDateToISO h v
      = match timestampNumber h v with
        | some (some n) =>
          if !n.isNaN then
            match dateToISO n with
            | some iso => .str iso
            | none => .str (jsString h v)
          else .str (jsString h v)
        | some none => .str (jsString h v)
        | none => .str (jsString h v) := by
    cases v <;> first | rfl | exact absurd rfl hn | exact absurd rfl hu
  rw [key]
  split
  · rename_i n _
    split
    · simp only [dateToISO]
      cases hc : timeClip n with
      | none => right; rfl
      | some t => left; exact ⟨t, timeClip_valid n t hc, rfl⟩
    · right; rfl
  · right; rfl
  · right; rfl

theorem convertNeo4jDateToISO_string_witness :
    (∃ t, validTime t ∧ convertNeo4jDateToISO exampleHost (Val.num (JSNum.fin 0))
        = Val.str (toISOString t))
      ∨ convertNeo4jDateToISO exampleHost (Val.num (JSNum.fin 0))
        = Val.str (jsString exampleHost (Val.num (JSNum.fin 0))) :=
  (convertNeo4jDateToISO_string exampleHost (Val.num (JSNum.fin 0)) (by simp) (by simp)).1

theorem isInt_iff (v : Val) : isInt v = true ↔ ∃ i, v = .int i := by
  cases v <;> simp [isInt]

/-- A field of a temporal object other than the time-zone id is an `Integer`
or is absent. -/
theorem temporalField_lookup (fs : List (String × Val)) (k : String) (hk : k ≠ "timeZoneId")
    (hf : fs.all temporalField = true) :
    (∃ i, (fs.lookup k).getD .undefined = .int i)
      ∨ (fs.lookup k).getD .undefined = .undefined
      ∨ (fs.lookup k).getD .undefined = .null := by
  induction fs with
  | nil => right; left; rfl
  | cons e rest ih =>
    obtain ⟨k0, v0⟩ := e
    simp only [List.all_cons, Bool.and_eq_true] at hf
    by_cases hk0 : k = k0
    · subst hk0
      have hl : List.lookup k ((k, v0) :: rest) = some v0 := by simp [List.lookup]
      rw [hl]
      have h1 := hf.1
      have hb : (k == "timeZoneId") = false := by simpa using hk
      simp only [temporalField, hb, Bool.false_or, Bool.or_eq_true] at h1
      rcases h1 with h1 | h1
      · left
        exact (isInt_iff v0).1 h1
      · cases v0 <;> simp at h1 ⊢
    · have hb : (k == k0) = false := by simpa using hk0
      have hl : List.lookup k ((k0, v0) :: rest) = List.lookup k rest := by
        simp [List.lookup, hb]
      rw [hl]
      exact ih hf.2

theorem optComponent_ok (c : Val)
    (hc : (∃ i, c = .int i) ∨ c = .undefined ∨ c = .null) : ∃ n, optComponent c = some n := by
  rcases hc with ⟨i, rfl⟩ | rfl | rfl
  · exact ⟨roundToDouble i, rfl⟩
  · exact ⟨.fin 0, rfl⟩
  · exact ⟨.fin 0, rfl⟩

/-- The `try` block of `convertNeo4jDateToISO` does not throw on a date, a
date-time or a local date-time that the driver built. -/
theorem timestampNumber_dateLike_ok (h : Host) (c : Cls) (fs : List (String × Val))
    (hc : isDateLike (.obj c fs) = true) (ht : temporalObject c fs = true) :
    ∃ n, timestampNumber h (.obj c fs) = some (some n) := by
  simp only [temporalObject, Bool.and_eq_true] at ht
  obtain ⟨hcomp, hf⟩ := ht
  have hymd : (∃ y, getProp (.obj c fs) "year" = .int y)
      ∧ (∃ m, getProp (.obj c fs) "month" = .int m)
      ∧ (∃ d, getProp (.obj c fs) "day" = .int d) := by
    cases c <;> simp [isDateLike] at hc <;>
      simp only [temporalComponents, List.all_cons, Bool.and_eq_true, isInt_iff] at hcomp <;>
      exact ⟨hcomp.1, hcomp.2.1, hcomp.2.2.1⟩
  obtain ⟨⟨y, hy⟩, ⟨m, hm⟩, ⟨d, hd⟩⟩ := hymd
  obtain ⟨hr, hhr⟩ := optComponent_ok (getProp (.obj c fs) "hour")
    (temporalField_lookup fs "hour" (by decide) hf)
  obtain ⟨mi, hmi⟩ := optComponent_ok (getProp (.obj c fs) "minute")
    (temporalField_lookup fs "minute" (by decide) hf)
  obtain ⟨s, hs⟩ := optComponent_ok (getProp (.obj c fs) "second")
    (temporalField_lookup fs "second" (by decide) hf)
  have hgp : ∀ k, getProp (.obj c fs) k = (fs.lookup k).getD .undefined := fun _ => rfl
  rcases temporalField_lookup fs "nanosecond" (by decide) hf with ⟨i, hi⟩ | hi | hi
  · refine ⟨h.localDate (roundToDouble y) (roundToDouble m).pred (roundToDouble d) hr mi s
      (JSNum.divMillion (roundToDouble i)), ?_⟩
    rw [← hgp] at hi
    simp [timestampNumber, hc, hy, hm, hd, hhr, hmi, hs, hi, callToNumber, truthy]
  · refine ⟨h.localDate (roundToDouble y) (roundToDouble m).pred (roundToDouble d) hr mi s
      (.fin 0), ?_⟩
    rw [← hgp] at hi
    simp [timestampNumber, hc, hy, hm, hd, hhr, hmi, hs, hi, callToNumber, truthy]
  · refine ⟨h.localDate (roundToDouble y) (roundToDouble m).pred (roundToDouble d) hr mi s
      (.fin 0), ?_⟩
    rw [← hgp] at hi
    simp [timestampNumber, hc, hy, hm, hd, hhr, hmi, hs, hi, callToNumber, truthy]

/-- C15. On every well-formed store value (`null`, a boolean, an integer, a
float, a string, a temporal object, a list, a map, a node, a relationship,
arbitrarily nested) both converters return a result: `convertNeo4jProperties`
returns a plain object, its recursion being structural on the value, and
`convertNeo4jDateToISO` returns `null` or a string.  The `try` block of
`convertNeo4jDateToISO` does not throw on a driver date, date-time or local
date-time; where it does throw, the exception is caught and the result is
`String(value)`, as for a map whose `year`, `month` and `day` are `bigint`s,
which yields "[object Object]". -/
theorem converters_total (h : Host) (v : Val) (hs : storeValue v = true) :
    (∃ fs, convertNeo4jProperties h v = .obj .plain fs)
    ∧ (convertNeo4jDateToISO h v = .null ∨ ∃ s, convertNeo4jDateToISO h v = .str s)
    ∧ (isDateLike v = true → ∃ n, timestampNumber h v = some (some n))
    ∧ (timestampNumber h v = none →
        convertNeo4jDateToISO h v = .null ∨ convertNeo4jDateToISO h v = .str (jsString h v))
    ∧ storeValue bigintDate = true
    ∧ timestampNumber h bigintDate = none
    ∧ convertNeo4jDateToISO h bigintDate = Val.str "[object Object]" := by
  refine ⟨?_, convertNeo4jDateToISO_null_or_str h v, ?_, ?_, rfl, rfl, rfl⟩
  · unfold convertNeo4jProperties
    split
    · exact ⟨[], rfl⟩
    · exact ⟨_, rfl⟩
  · intro hd
    cases v with
    | obj c fs =>
      have ht : temporalObject c fs = true := by
        cases c <;> simp [isDateLike] at hd <;> simpa [storeValue] using hs
      exact timestampNumber_dateLike_ok h c fs hd ht
    | _ => simp [isDateLike] at hd
  · intro ht
    cases v <;> first | (left; rfl) | (right; simp only [convertNeo4jDateToISO, ht])

theorem converters_total_witness :
    (∃ fs, convertNeo4jProperties exampleHost nestedStoreValue = .obj .plain fs)
    ∧ (convertNeo4jDateToISO exampleHost nestedStoreValue = .null
        ∨ ∃ s, convertNeo4jDateToISO exampleHost nestedStoreValue = .str s)
    ∧ (isDateLike nestedStoreValue = true →
        ∃ n, timestampNumber exampleHost nestedStoreValue = some (some n))
    ∧ (timestampNumber exampleHost nestedStoreValue = none →
        convertNeo4jDateToISO exampleHost nestedStoreValue = .null
          ∨ convertNeo4jDateToISO exampleHost nestedStoreValue
              = .str (jsString exampleHost nestedStoreValue))
    ∧ storeValue bigintDate = true
    ∧ timestampNumber exampleHost bigintDate = none
    ∧ convertNeo4jDateToISO exampleHost bigintDate = Val.str "[object Object]" :=
  converters_total exampleHost nestedStoreValue (by decide)

/-! ## C12 -/

theorem truncNum_int (i : Int) : truncNum (.fin i) = some i := by
  simp [truncNum, Rat.intCast_num, Rat.intCast_den]

theorem truncNum_pred (i : Int) : truncNum (JSNum.pred (.fin i)) = some (i - 1) := by
  have e : ((i : ℚ)) - 1 = ((i - 1 : Int) : ℚ) := by push_cast; ring
  simp only [JSNum.pred, e]
  exact truncNum_int _

theorem truncNum_divMillion (n : Int) (hn : 0 ≤ n) :
    truncNum (JSNum.divMillion (.fin n)) = some (n / 1000000) := by
  simp only [JSNum.divMillion, truncNum, Option.some.injEq]
  have hq : (0 : ℚ) ≤ (n : ℚ) / 1000000 := by positivity
  have hnum : 0 ≤ ((n : ℚ) / 1000000).num := Rat.num_nonneg.2 hq
  rw [Int.tdiv_eq_ediv hnum (by positivity), ← Rat.floor_def]
  have := Rat.floor_intCast_div_natCast n 1000000
  simpa using this

/-- The arguments with which the temporal branch calls `new Date(…)`. -/
theorem timestampNumber_temporal (h : Host) (c : Cls) (y mo d : Int) (hr mi s ns : Option Int)
    (hc : isDateLike (.obj c []) = true) :
    timestampNumber h (temporalValue c y mo d hr mi s ns)
      = some (some (h.localDate (roundToDouble y) (roundToDouble mo).pred (roundToDouble d)
          ((hr.map roundToDouble).getD (.fin 0)) ((mi.map roundToDouble).getD (.fin 0))
          ((s.map roundToDouble).getD (.fin 0))
          ((ns.map (fun n => (roundToDouble n).divMillion)).getD (.fin 0)))) := by
  cases c <;> simp [isDateLike] at hc <;> cases hr <;> cases mi <;> cases s <;> cases ns <;> rfl

theorem convertNeo4jDateToISO_temporal (h : Host) (c : Cls) (y mo d : Int)
    (hr mi s ns : Option Int) (hc : isDateLike (.obj c []) = true) (t : Int)
    (ht : h.localDate (roundToDouble y) (roundToDouble mo).pred (roundToDouble d)
          ((hr.map roundToDouble).getD (.fin 0)) ((mi.map roundToDouble).getD (.fin 0))
          ((s.map roundToDouble).getD (.fin 0))
          ((ns.map (fun n => (roundToDouble n).divMillion)).getD (.fin 0)) = .fin t)
    (hv : validTime t) :
    convertNeo4jDateToISO h (temporalValue c y mo d hr mi s ns) = .str (toISOString t) := by
  have key : convertNeo4jDateToISO h (temporalValue c y mo d hr mi s ns)
      = match timestampNumber h (temporalValue c y mo d hr mi s ns) with
        | some (some n) =>
          if !n.isNaN then
            match dateToISO n with
            | some iso => .str iso
            | none => .str (jsString h (temporalValue c y mo d hr mi s ns))
          else .str (jsString h (temporalValue c y mo d hr mi s ns))
        | some none => .str (jsString h (temporalValue c y mo d hr mi s ns))
        | none => .str (jsString h (temporalValue c y mo d hr mi s ns)) := rfl
  rw [key, timestampNumber_temporal h c y mo d hr mi s ns hc, ht]
  simp [JSNum.isNaN, dateToISO, timeClip_int t hv]

theorem zonedLocalDate_civil (offset y mo d hr mi s ms : Int) (a1 a2 a3 a4 a5 a6 a7 : JSNum)
    (h1 : truncNum a1 = some y) (h2 : truncNum a2 = some (mo - 1)) (h3 : truncNum a3 = some d)
    (h4 : truncNum a4 = some hr) (h5 : truncNum a5 = some mi) (h6 : truncNum a6 = some s)
    (h7 : truncNum a7 = some ms) (hy : 100 ≤ y) (hmo : 1 ≤ mo ∧ mo ≤ 12)
    (hv : validTime (utcTime y mo d hr mi s ms - offset)) :
    zonedLocalDate offset a1 a2 a3 a4 a5 a6 a7
      = .fin ((utcTime y mo d hr mi s ms - offset : Int) : ℚ) := by
  simp only [zonedLocalDate, h1, h2, h3, h4, h5, h6, h7]
  have e1 : ¬ (0 ≤ y ∧ y ≤ 99) := by omega
  have e2 : (mo - 1) / 12 = 0 := by omega
  have e3 : ((mo - 1) % 12).toNat + 1 = mo.toNat := by omega
  rw [if_neg e1, e2, e3, Int.add_zero]
  unfold validTime utcTime at hv
  rw [if_pos hv]
  simp only [utcTime]

theorem truncNum_component (o : Option Int) (hi : Int) (ho : inRange o hi = true)
    (hb : hi < 2 ^ 53) :
    truncNum ((o.map roundToDouble).getD (.fin 0)) = some (o.getD 0) := by
  cases o with
  | none => exact truncNum_int 0
  | some i =>
    simp only [inRange, decide_eq_true_eq] at ho
    simp only [Option.map_some', Option.getD_some]
    rw [roundToDouble_small i (by omega)]
    exact truncNum_int i

theorem truncNum_nano (o : Option Int) (ho : inRange o 999999999 = true) :
    truncNum ((o.map (fun n => (roundToDouble n).divMillion)).getD (.fin 0))
      = some (o.getD 0 / 1000000) := by
  cases o with
  | none => exact truncNum_int 0
  | some i =>
    simp only [inRange, decide_eq_true_eq] at ho
    simp only [Option.map_some', Option.getD_some]
    rw [roundToDouble_small i (by omega)]
    exact truncNum_divMillion i ho.1

/-- C12, counterexample. On a host whose local time is three hours behind UTC
the components (2024, 3, 15, 10, 30, 0) give `2024-03-15T13:30:00.000Z`: the
constructor `new Date(y, m, d, …)` reads them as local time. -/
theorem convertNeo4jDateToISO_local_time :
    convertNeo4jDateToISO (zonedHost (-10800000)) march15
      = Val.str "2024-03-15T13:30:00.000Z"
    ∧ convertNeo4jDateToISO (zonedHost (-10800000)) march15Literal
      = Val.str "2024-03-15T13:30:00.000Z"
    ∧ Val.str "2024-03-15T13:30:00.000Z" ≠ Val.str "2024-03-15T10:30:00.000Z" := by
  refine ⟨by with_unfolding_all rfl, by with_unfolding_all rfl, ?_⟩
  simp

/-- C12, amended. On a host whose local time is `offset` milliseconds ahead of
UTC, for a driver date, date-time or local date-time with a year from 100 on,
a month from 1 to 12 (read as month − 1 by the constructor), a day and
optional hour, minute, second and nanosecond, `convertNeo4jDateToISO` returns
the ISO-8601 string of the time value of those components read as local time:
their UTC time value minus `offset`.  On a UTC host (`offset = 0`) it is the
string of exactly those components, and (2024, 3, 15, 10, 30, 0) gives
`2024-03-15T10:30:00.000Z`, for the driver object and for an object literal of
numbers. -/
theorem convertNeo4jDateToISO_structured (offset : Int) (c : Cls) (y mo d : Int)
    (hr mi s ns : Option Int) (hc : isDateLike (.obj c []) = true)
    (hrange : civilRange y mo d hr mi s ns = true)
    (hv : validTime (utcTime y mo d (hr.getD 0) (mi.getD 0) (s.getD 0)
      (ns.getD 0 / 1000000) - offset)) :
    convertNeo4jDateToISO (zonedHost offset) (temporalValue c y mo d hr mi s ns)
      = .str (toISOString (utcTime y mo d (hr.getD 0) (mi.getD 0) (s.getD 0)
          (ns.getD 0 / 1000000) - offset))
    ∧ toISOString (utcTime 2024 3 15 10 30 0 0 - 0) = "2024-03-15T10:30:00.000Z"
    ∧ convertNeo4jDateToISO (zonedHost 0) march15Literal
      = Val.str "2024-03-15T10:30:00.000Z" := by
  refine ⟨?_, by decide, by with_unfolding_all rfl⟩
  simp only [civilRange, Bool.and_eq_true, decide_eq_true_eq] at hrange
  obtain ⟨⟨⟨⟨hymd, hhr⟩, hmi⟩, hs⟩, hns⟩ := hrange
  apply convertNeo4jDateToISO_temporal (zonedHost offset) c y mo d hr mi s ns hc _ _ hv
  rw [roundToDouble_small y (by omega), roundToDouble_small mo (by omega),
    roundToDouble_small d (by omega)]
  exact zonedLocalDate_civil offset y mo d _ _ _ _ _ _ _ _ _ _ _ (truncNum_int y)
    (truncNum_pred mo) (truncNum_int d) (truncNum_component hr 23 hhr (by norm_num))
    (truncNum_component mi 59 hmi (by norm_num)) (truncNum_component s 59 hs (by norm_num))
    (truncNum_nano ns hns) (by omega) ⟨by omega, by omega⟩ hv

theorem convertNeo4jDateToISO_structured_witness :
    convertNeo4jDateToISO (zonedHost 0) march15 = Val.str "2024-03-15T10:30:00.000Z" :=
  ((convertNeo4jDateToISO_structured 0 Cls.localDateTime 2024 3 15 (some 10) (some 30) (some 0)
    (some 0) rfl (by decide) ⟨by decide, by decide⟩).1).trans rfl

/-! ## C20 -/

theorem joinStrings_closed (R : String → Prop) (h0 : R "")
    (happ : ∀ x y, R x → R y → R (x ++ y)) (sep : String) (hsep : R sep) :
    ∀ l : List String, (∀ x ∈ l, R x) → R (joinStrings sep l)
  | [], _ => h0
  | [x], hl => hl x (by simp)
  | x :: y :: rest, hl =>
    happ _ _ (happ _ _ (hl x (by simp)) hsep)
      (joinStrings_closed R h0 happ sep hsep (y :: rest)
        (fun z hz => hl z (List.mem_cons_of_mem _ hz)))

/-- A property of texts that holds of the literal texts of the handler and is
kept by concatenation holds of the listing query up to its aggregation
step. -/
theorem dataQuery_head_closed (R : String → Prop) (happ : ∀ x y, R x → R y → R (x ++ y))
    (hconst : ∀ s ∈ leadsTexts, R s) (h : Host) (day : LocalDay) (q : LeadsQuery) :
    R (dataQueryIndent ++ (compileLeads h day q).baseQuery ++ dataQueryRegroup) := by
  obtain ⟨-, -, -, hb⟩ := compileLeads_parts h day q
  obtain ⟨hm, hw, -⟩ := leadsParts_eq h day q
  have h0 : R "" := hconst _ (by simp [leadsTexts])
  have hmc : ∀ x ∈ (leadsParts h day q).matchClauses, R x := by
    intro x hx
    rw [hm] at hx
    simp only [List.mem_append, List.mem_singleton, mem_opt] at hx
    rcases hx with (rfl | ⟨-, rfl⟩) | ⟨-, rfl⟩ <;> exact hconst _ (by simp [leadsTexts])
  have hwc : ∀ x ∈ (leadsParts h day q).whereClauses, R x := by
    intro x hx
    rw [hw] at hx
    simp only [List.mem_append, mem_opt] at hx
    rcases hx with (((((((⟨-, rfl⟩ | ⟨-, rfl⟩) | ⟨-, rfl⟩) | ⟨-, rfl⟩) | ⟨-, rfl⟩) | ⟨-, rfl⟩)
      | ⟨-, rfl⟩) | ⟨-, rfl⟩) | ⟨-, rfl⟩ <;> exact hconst _ (by simp [leadsTexts])
  have hbase : R (baseQueryOf (leadsParts h day q)) := by
    unfold baseQueryOf
    refine happ _ _ (happ _ _ ?_ (hconst _ (by simp [leadsTexts]))) ?_
    · exact joinStrings_closed R h0 happ " " (hconst _ (by simp [leadsTexts])) _ hmc
    · split
      · exact happ _ _ (hconst _ (by simp [leadsTexts]))
          (joinStrings_closed R h0 happ " AND " (hconst _ (by simp [leadsTexts])) _ hwc)
      · exact h0
  rw [hb]
  exact happ _ _ (happ _ _ (hconst _ (by simp [leadsTexts])) hbase)
    (hconst _ (by simp [leadsTexts]))

theorem prefix_getElem? (pat l : List Char) (i k : Nat) (c : Char)
    (hocc : pat.isPrefixOf (l.drop i) = true) (hc : pat[k]? = some c) :
    l[i + k]? = some c := by
  rw [List.isPrefixOf_iff_prefix] at hocc
  obtain ⟨t, ht⟩ := hocc
  have hk : k < pat.length := by
    by_contra hn
    rw [List.getElem?_eq_none (by omega)] at hc
    simp at hc
  have h1 : (l.drop i)[k]? = some c := by
    rw [← ht, List.getElem?_append_left hk]
    exact hc
  rwa [List.getElem?_drop] at h1

/-- An occurrence of a text whose `k`-th character is absent from `X` and
whose first character is absent from the end of `X` starts at or after the
end of `X`. -/
theorem occurs_after_char (pat X T : List Char) (n k : Nat) (c a : Char)
    (hc : pat[k]? = some c) (ha : pat[0]? = some a) (hX : c ∉ X) (hW : a ∉ X.drop n)
    (hn : n + k ≤ X.length) (i : Nat) (hocc : pat.isPrefixOf ((X ++ T).drop i) = true) :
    X.length ≤ i := by
  by_contra hi
  have h1 := prefix_getElem? pat (X ++ T) i k c hocc hc
  have h2 := prefix_getElem? pat (X ++ T) i 0 a hocc ha
  by_cases hik : i + k < X.length
  · rw [List.getElem?_append_left hik] at h1
    exact hX (List.getElem?_mem h1)
  · rw [Nat.add_zero, List.getElem?_append_left (by omega)] at h2
    have h3 : (X.drop n)[i - n]? = some a := by
      rw [List.getElem?_drop]
      have : n + (i - n) = i := by omega
      rw [this]
      exact h2
    exact hW (List.getElem?_mem h3)

theorem avoidsPair_getElem? (a b : Char) : ∀ (X : List Char) (i : Nat),
    avoidsPair a b X = true → X[i]? = some a → X[i + 1]? = some b → False
  | [], i, _, h1, _ => by simp at h1
  | x :: rest, 0, hav, h1, h2 => by
    simp only [avoidsPair, Bool.and_eq_true, Bool.not_eq_true'] at hav
    simp only [List.getElem?_cons_zero, Option.some.injEq] at h1
    simp only [List.getElem?_cons_succ] at h2
    have h3 : rest.head? = some b := by
      cases rest with
      | nil => simp at h2
      | cons y ys => simpa using h2
    simp [h1, h3] at hav
  | x :: rest, i + 1, hav, h1, h2 => by
    simp only [avoidsPair, Bool.and_eq_true] at hav
    simp only [List.getElem?_cons_succ] at h1 h2
    exact avoidsPair_getElem? a b rest i hav.2 h1 h2

theorem avoidsPair_append (a b : Char) : ∀ (X Y : List Char),
    avoidsPair a b X = true → avoidsPair a b Y = true → Y.head? ≠ some b →
    avoidsPair a b (X ++ Y) = true
  | [], Y, _, hy, _ => by simpa using hy
  | x :: rest, Y, hx, hy, hh => by
    simp only [avoidsPair, Bool.and_eq_true, Bool.not_eq_true'] at hx
    simp only [List.cons_append, avoidsPair, Bool.and_eq_true, Bool.not_eq_true']
    refine ⟨?_, avoidsPair_append a b rest Y hx.2 hy hh⟩
    cases rest with
    | nil =>
      have hh2 : (Y.head? == some b) = false := by simpa using hh
      simp [hh2]
    | cons y ys => simpa using hx.1

/-- An occurrence of a text whose first two characters are never adjacent in
`X`, and whose first character does not end `X`, starts at or after the end
of `X`. -/
theorem occurs_after_pair (pat X T : List Char) (a b : Char)
    (ha : pat[0]? = some a) (hb : pat[1]? = some b) (hX : avoidsPair a b X = true)
    (hlast : X.getLast? ≠ some a) (i : Nat)
    (hocc : pat.isPrefixOf ((X ++ T).drop i) = true) :
    X.length ≤ i := by
  by_contra hi
  have h1 := prefix_getElem? pat (X ++ T) i 0 a hocc ha
  have h2 := prefix_getElem? pat (X ++ T) i 1 b hocc hb
  rw [Nat.add_zero, List.getElem?_append_left (by omega)] at h1
  by_cases hik : i + 1 < X.length
  · rw [List.getElem?_append_left hik] at h2
    exact avoidsPair_getElem? a b X i hX h1 h2
  · apply hlast
    rw [List.getLast?_eq_getElem?]
    have : X.length - 1 = i := by omega
    rw [this]
    exact h1

theorem head_absent (c : Char) (h : Host) (day : LocalDay) (q : LeadsQuery)
    (hconst : ∀ s ∈ leadsTexts, c ∉ s.data) :
    c ∉ (dataQueryIndent ++ (compileLeads h day q).baseQuery ++ dataQueryRegroup).data :=
  dataQuery_head_closed (fun s => c ∉ s.data)
    (fun x y hx hy => by
      simp only [String.data_append, List.mem_append, not_or]
      exact ⟨hx, hy⟩)
    hconst h day q

theorem head_avoidsPair (a b : Char) (h : Host) (day : LocalDay) (q : LeadsQuery)
    (hconst : ∀ s ∈ leadsTexts, avoidsPair a b s.data = true ∧ s.data.head? ≠ some b) :
    avoidsPair a b
        (dataQueryIndent ++ (compileLeads h day q).baseQuery ++ dataQueryRegroup).data = true
    ∧ (dataQueryIndent ++ (compileLeads h day q).baseQuery ++ dataQueryRegroup).data.head?
        ≠ some b :=
  dataQuery_head_closed (fun s => avoidsPair a b s.data = true ∧ s.data.head? ≠ some b)
    (fun x y hx hy => by
      simp only [String.data_append]
      refine ⟨avoidsPair_append a b _ _ hx.1 hy.1 hy.2, ?_⟩
      cases hxd : x.data with
      | nil => simpa using hy.2
      | cons x0 xs =>
        have := hx.2
        rw [hxd] at this
        simpa using this)
    hconst h day q

theorem dataQuery_data (h : Host) (day : LocalDay) (q : LeadsQuery) :
    (compileLeads h day q).dataQuery.data
      = (dataQueryIndent ++ (compileLeads h day q).baseQuery ++ dataQueryRegroup).data
        ++ dataQueryAggregation.data ++ dataQueryOrder.data ++ dataQuerySkip.data
        ++ dataQueryLimit.data := by
  simp only [compileLeads, String.data_append]

/-- C20. For every query, the listing query of `/api/leads` is the text up to
the aggregation step, the aggregation step `WITH l, collect(DISTINCT …)`, the
`ORDER BY` line, `SKIP $skip ` and the text from `LIMIT` on, in this order:
the aggregation step stands before the `ORDER BY`, which stands before `SKIP`,
which stands before `LIMIT`; and every occurrence of `ORDER BY` in the text
starts at or after the end of the aggregation step, every occurrence of `SKIP`
at or after the end of the `ORDER BY` line, every occurrence of `LIMIT` after
`SKIP $skip `.  So no `ORDER BY`, `SKIP` or `LIMIT` appears before the
aggregation. -/
theorem dataQuery_aggregates_before_paging (h : Host) (day : LocalDay) (q : LeadsQuery) :
    ∃ a o s l : Nat,
      a = (dataQueryIndent ++ (compileLeads h day q).baseQuery ++ dataQueryRegroup).length
      ∧ o = a + dataQueryAggregation.length
      ∧ s = o + dataQueryOrder.length
      ∧ l = s + dataQuerySkip.length
      ∧ a < o ∧ o < s ∧ s < l
      ∧ occursAt "WITH l, collect(DISTINCT" (compileLeads h day q).dataQuery a = true
      ∧ occursAt "ORDER BY" (compileLeads h day q).dataQuery o = true
      ∧ occursAt "SKIP" (compileLeads h day q).dataQuery s = true
      ∧ occursAt "LIMIT" (compileLeads h day q).dataQuery l = true
      ∧ ∀ i, (occursAt "ORDER BY" (compileLeads h day q).dataQuery i = true → o ≤ i)
          ∧ (occursAt "SKIP" (compileLeads h day q).dataQuery i = true → s ≤ i)
          ∧ (occursAt "LIMIT" (compileLeads h day q).dataQuery i = true → l ≤ i) := by
  refine ⟨_, _, _, _, rfl, rfl, rfl, rfl, ?_⟩
  have hdq := dataQuery_data h day q
  generalize hX : (dataQueryIndent ++ (compileLeads h day q).baseQuery ++ dataQueryRegroup)
    = hd at hdq
  have hB : 'B' ∉ hd.data := hX ▸ head_absent 'B' h day q (by decide)
  have hK : 'K' ∉ hd.data := hX ▸ head_absent 'K' h day q (by decide)
  have hLI : avoidsPair 'L' 'I' hd.data = true ∧ hd.data.head? ≠ some 'I' :=
    hX ▸ head_avoidsPair 'L' 'I' h day q (by decide)
  generalize (compileLeads h day q).dataQuery = dq at hdq
  have la : dataQueryAggregation.length = 96 := by decide
  have lo : dataQueryOrder.length = 87 := by decide
  have ls : dataQuerySkip.length = 11 := by decide
  simp only [occursAt, hdq, String.length] at la lo ls ⊢
  refine ⟨by omega, by omega, by omega, ?_, ?_, ?_, ?_, ?_⟩
  · rw [List.append_assoc, List.append_assoc, List.append_assoc, List.drop_left]
    decide
  · rw [List.append_assoc, List.append_assoc, ← List.length_append, List.drop_left]
    decide
  · rw [List.append_assoc, ← List.length_append, ← List.length_append, List.drop_left]
    decide
  · rw [← List.length_append, ← List.length_append, ← List.length_append, List.drop_left]
    decide
  · intro i
    refine ⟨?_, ?_, ?_⟩
    · intro hocc
      rw [List.append_assoc, List.append_assoc] at hocc
      have := occurs_after_char _ _ _ (hd.data.length + 84) 6 'B' 'O' (by decide) (by decide)
        (by
          simp only [List.mem_append, not_or]
          exact ⟨hB, by decide⟩)
        (by
          rw [List.drop_append]
          decide)
        (by simp only [List.length_append]; omega) i hocc
      simp only [List.length_append] at this
      exact this
    · intro hocc
      rw [List.append_assoc] at hocc
      have := occurs_after_char _ _ _ (hd.data.length + 96 + 75) 1 'K' 'S' (by decide)
        (by decide)
        (by
          simp only [List.mem_append, not_or]
          exact ⟨⟨hK, by decide⟩, by decide⟩)
        (by
          rw [← la, ← List.length_append, List.drop_append]
          decide)
        (by simp only [List.length_append]; omega) i hocc
      simp only [List.length_append] at this
      exact this
    · intro hocc
      have := occurs_after_pair _ _ _ 'L' 'I' (by decide) (by decide)
        (avoidsPair_append _ _ _ _ (avoidsPair_append _ _ _ _
          (avoidsPair_append _ _ _ _ hLI.1 (by decide) (by decide)) (by decide) (by decide))
          (by decide) (by decide))
        (by
          have hl : dataQuerySkip.data.getLast? = some ' ' := by decide
          rw [List.getLast?_append, hl]
          simp)
        i hocc
      simp only [List.length_append] at this
      exact this

/-! ## C23 – C25 -/

/-- C23. For every sequence of records, `edges` holds exactly one entry per
record with a non-null relationship, in record order, and nothing is
deduplicated: its length is the number of such records, and a record that is
repeated gives its edge twice. -/
theorem build_edges_one_per_relationship (h : Host) (rows : List Row) :
    (build h rows).edges = rows.filterMap (fun r => r.relationship.map (visualEdge h))
    ∧ (build h rows).edges.length = (rows.filter (fun r => r.relationship.isSome)).length
    ∧ (∀ r rel, r.relationship = some rel →
        (build h [r, r]).edges = [visualEdge h rel, visualEdge h rel]) := by
  refine ⟨build_edges_eq h rows, ?_, ?_⟩
  · rw [build_edges_eq]
    induction rows with
    | nil => rfl
    | cons r rest ih =>
      cases hr : r.relationship with
      | none => simp [List.filterMap_cons, List.filter_cons, hr, ih]
      | some rel => simp [List.filterMap_cons, List.filter_cons, hr, ih]
  · intro r rel hr
    rw [build_edges_eq]
    simp [List.filterMap_cons, hr]

theorem build_edges_one_per_relationship_witness :
    (build exampleHost [scenarioRow, scenarioRow]).edges.length = 2 :=
  ((build_edges_one_per_relationship exampleHost [scenarioRow, scenarioRow]).2.2
    scenarioRow _ rfl ▸ rfl)

theorem firstById_pairwise (h : Host) (ns : List Node) :
    ((firstById h ns).map (fun n => neo4jIdToString h n.identity)).Pairwise
      (fun a b => (ns.map (fun n => neo4jIdToString h n.identity)).indexOf a
        < (ns.map (fun n => neo4jIdToString h n.identity)).indexOf b) := by
  induction ns with
  | nil => simp [firstById]
  | cons n rest ih =>
    simp only [firstById, List.map_cons, List.pairwise_cons]
    constructor
    · intro b hb
      simp only [List.mem_map, List.mem_filter, bne_iff_ne, ne_eq] at hb
      obtain ⟨x, ⟨_, hx⟩, rfl⟩ := hb
      rw [List.indexOf_cons_self, List.indexOf_cons_ne _ (Ne.symm hx)]
      exact Nat.succ_pos _
    · have hsub : (((firstById h rest).filter (fun m =>
          neo4jIdToString h m.identity != neo4jIdToString h n.identity)).map
          (fun n => neo4jIdToString h n.identity)).Pairwise
          (fun a b => (rest.map (fun n => neo4jIdToString h n.identity)).indexOf a
            < (rest.map (fun n => neo4jIdToString h n.identity)).indexOf b) :=
        ih.sublist ((List.filter_sublist _).map _)
      refine hsub.imp_of_mem ?_
      intro a b ha hb hab
      simp only [List.mem_map, List.mem_filter, bne_iff_ne, ne_eq] at ha hb
      obtain ⟨x, ⟨_, hx⟩, rfl⟩ := ha
      obtain ⟨y, ⟨_, hy⟩, rfl⟩ := hb
      rw [List.indexOf_cons_ne _ (Ne.symm hx), List.indexOf_cons_ne _ (Ne.symm hy)]
      exact Nat.succ_lt_succ hab

/-- C24. For every sequence of records, the nodes are emitted in the order of
first appearance of their identity in the scan of the records (`node1` before
`node2` within a record): their ids are pairwise distinct, they are the
identity strings met in the scan, and an id stands before another in `nodes`
exactly as its first position in the scan is the smaller.  The output is a
function of the record sequence. -/
theorem build_nodes_insertion_order (h : Host) (rows : List Row) :
    ((build h rows).nodes.map VisualNode.id).Nodup
    ∧ (∀ s, s ∈ (build h rows).nodes.map VisualNode.id
        ↔ s ∈ (rowNodes rows).map (fun n => neo4jIdToString h n.identity))
    ∧ ((build h rows).nodes.map VisualNode.id).Pairwise
        (fun a b => ((rowNodes rows).map (fun n => neo4jIdToString h n.identity)).indexOf a
          < ((rowNodes rows).map (fun n => neo4jIdToString h n.identity)).indexOf b) := by
  rw [build_ids_eq]
  refine ⟨firstById_nodup h _, ?_, firstById_pairwise h _⟩
  intro s
  simp only [List.mem_map]
  constructor
  · rintro ⟨x, hx, rfl⟩
    exact ⟨x, firstById_subset h _ x hx, rfl⟩
  · rintro ⟨n, hn, rfl⟩
    obtain ⟨x, hx, hxn⟩ := firstById_covers h _ n hn
    exact ⟨x, hx, hxn⟩

theorem firstById_append (h : Host) (xs ys : List Node) :
    firstById h (xs ++ ys)
      = firstById h xs ++ (firstById h ys).filter (fun m =>
          xs.all (fun x => neo4jIdToString h m.identity != neo4jIdToString h x.identity)) := by
  induction xs with
  | nil => simp [firstById]
  | cons x rest ih =>
    rw [List.cons_append, firstById, ih, List.filter_append, List.filter_filter]
    simp only [firstById, List.all_cons, List.cons_append]

theorem rowNodes_append (rows extra : List Row) :
    rowNodes (rows ++ extra) = rowNodes rows ++ rowNodes extra := by
  simp [rowNodes]

/-- C25. Appending records whose node identities have all been seen leaves
`nodes` unchanged, and `edges` grows by the edges of the appended records; in
particular the nodes of a record sequence repeated twice are the nodes of the
sequence. -/
theorem build_nodes_append_seen (h : Host) (rows extra : List Row)
    (hseen : ∀ n ∈ rowNodes extra, ∃ m ∈ rowNodes rows,
      neo4jIdToString h m.identity = neo4jIdToString h n.identity) :
    (build h (rows ++ extra)).nodes = (build h rows).nodes
    ∧ (build h (rows ++ extra)).edges = (build h rows).edges ++ (build h extra).edges
    ∧ (build h (rows ++ rows)).nodes = (build h rows).nodes := by
  have key : ∀ ex : List Row, (∀ n ∈ rowNodes ex, ∃ m ∈ rowNodes rows,
      neo4jIdToString h m.identity = neo4jIdToString h n.identity) →
      (build h (rows ++ ex)).nodes = (build h rows).nodes := by
    intro ex hex
    rw [build_nodes_eq, build_nodes_eq, rowNodes_append, firstById_append]
    have hnil : (firstById h (rowNodes ex)).filter (fun m => (rowNodes rows).all (fun x =>
        neo4jIdToString h m.identity != neo4jIdToString h x.identity)) = [] := by
      rw [List.filter_eq_nil_iff]
      intro m hm hall
      obtain ⟨x, hx, hxm⟩ := hex m (firstById_subset h _ m hm)
      rw [List.all_eq_true] at hall
      have := hall x hx
      simp [hxm] at this
    rw [hnil, List.append_nil]
  refine ⟨key extra hseen, ?_, key rows (fun n hn => ⟨n, hn, rfl⟩)⟩
  rw [build_edges_eq, build_edges_eq, build_edges_eq, List.filterMap_append]

theorem build_nodes_append_seen_witness :
    (build exampleHost ([scenarioRow] ++ [danglingRow])).nodes
      = (build exampleHost [scenarioRow]).nodes :=
  (build_nodes_append_seen exampleHost [scenarioRow] [danglingRow] (by
    intro n hn
    rw [mem_rowNodes] at hn
    obtain ⟨r, hr, hn⟩ := hn
    simp only [List.mem_singleton] at hr
    subst hr
    rcases hn with hn | hn
    · refine ⟨_, (mem_rowNodes _ _).2 ⟨scenarioRow, by simp, Or.inl rfl⟩, ?_⟩
      simp only [danglingRow, Option.some.injEq] at hn
      subst hn
      rfl
    · simp [danglingRow] at hn)).1

/-! ## C21, C26 -/

theorem neo4jInt_not_finite (n : JSNum) (hn : ∀ x, n ≠ .fin x) : neo4jInt n = 0 := by
  cases n with
  | fin x => exact absurd rfl (hn x)
  | _ => rfl

/-- C21, counterexample. For a date-range bound that cannot be parsed the
compiler does not fail: the start of the day of `not-a-date` is `NaN`, the
query is compiled with the where-clause of the filter, and the parameter is
bound to the store-native integer 0. -/
theorem compileLeads_unparsable_date :
    utcDay.startOfDay (Val.str "not-a-date") = JSNum.nan
    ∧ (compileLeads exampleHost utcDay
        { emptyQuery with dtCriacaoStart := Val.str "not-a-date" }).whereClauses
      = ["l.dtCriacao >= $dtCriacaoStartMillis"]
    ∧ (compileLeads exampleHost utcDay
        { emptyQuery with dtCriacaoStart := Val.str "not-a-date" }).params
      = [("skip", Val.int 0), ("limit", Val.int 10), ("dtCriacaoStartMillis", Val.int 0)] :=
  ⟨rfl, rfl, rfl⟩

/-- C21, amended. The compiler never fails: for every query it returns the
compiled query, and a present date-range filter always contributes its
where-clause and its parameter, bound to `neo4j.int` of the day bound; when
the bound is not finite (the date cannot be parsed) the parameter is the
store-native integer 0. -/
theorem compileLeads_date_bound (h : Host) (day : LocalDay) (q : LeadsQuery) :
    (truthy q.dtCriacaoStart = true →
      "l.dtCriacao >= $dtCriacaoStartMillis" ∈ (compileLeads h day q).whereClauses
      ∧ ("dtCriacaoStartMillis", Val.int (neo4jInt (day.startOfDay q.dtCriacaoStart)))
          ∈ (compileLeads h day q).params
      ∧ ((∀ x, day.startOfDay q.dtCriacaoStart ≠ .fin x) →
          ("dtCriacaoStartMillis", Val.int 0) ∈ (compileLeads h day q).params))
    ∧ (truthy q.dtCriacaoEnd = true →
      "l.dtCriacao <= $dtCriacaoEndMillis" ∈ (compileLeads h day q).whereClauses
      ∧ ("dtCriacaoEndMillis", Val.int (neo4jInt (day.endOfDay q.dtCriacaoEnd)))
          ∈ (compileLeads h day q).params
      ∧ ((∀ x, day.endOfDay q.dtCriacaoEnd ≠ .fin x) →
          ("dtCriacaoEndMillis", Val.int 0) ∈ (compileLeads h day q).params))
    ∧ (truthy q.dtAtualizacaoStart = true →
      "l.dtUltimaAtualizacao >= $dtAtualizacaoStartMillis"
          ∈ (compileLeads h day q).whereClauses
      ∧ ("dtAtualizacaoStartMillis",
          Val.int (neo4jInt (day.startOfDay q.dtAtualizacaoStart)))
          ∈ (compileLeads h day q).params
      ∧ ((∀ x, day.startOfDay q.dtAtualizacaoStart ≠ .fin x) →
          ("dtAtualizacaoStartMillis", Val.int 0) ∈ (compileLeads h day q).params))
    ∧ (truthy q.dtAtualizacaoEnd = true →
      "l.dtUltimaAtualizacao <= $dtAtualizacaoEndMillis"
          ∈ (compileLeads h day q).whereClauses
      ∧ ("dtAtualizacaoEndMillis", Val.int (neo4jInt (day.endOfDay q.dtAtualizacaoEnd)))
          ∈ (compileLeads h day q).params
      ∧ ((∀ x, day.endOfDay q.dtAtualizacaoEnd ≠ .fin x) →
          ("dtAtualizacaoEndMillis", Val.int 0) ∈ (compileLeads h day q).params)) := by
  obtain ⟨-, hw, hp, -⟩ := compileLeads_parts h day q
  obtain ⟨-, hw2, hp2⟩ := leadsParts_eq h day q
  rw [hw, hp, hw2, hp2]
  refine ⟨?_, ?_, ?_, ?_⟩ <;> intro ht <;> refine ⟨by simp [ht], by simp [ht], ?_⟩ <;>
    intro hn <;> simp [ht, neo4jInt_not_finite _ hn]

theorem compileLeads_date_bound_witness :
    ("dtCriacaoEndMillis", Val.int 0) ∈ (compileLeads exampleHost utcDay
        { emptyQuery with dtCriacaoEnd := Val.str "amanhã" }).params :=
  ((compileLeads_date_bound exampleHost utcDay
    { emptyQuery with dtCriacaoEnd := Val.str "amanhã" }).2.1 rfl).2.2
    (fun x hx => by
      have h0 : utcDay.endOfDay (Val.str "amanhã") = JSNum.nan := rfl
      change utcDay.endOfDay (Val.str "amanhã") = JSNum.fin x at hx
      rw [h0] at hx
      cases hx)

theorem compileLeads_texts (h : Host) (day : LocalDay) (q : LeadsQuery) :
    (compileLeads h day q).countQuery
      = (compileLeads h day q).baseQuery ++ " RETURN count(DISTINCT l) AS total"
    ∧ (compileLeads h day q).dataQuery
      = dataQueryIndent ++ (compileLeads h day q).baseQuery ++ dataQueryRegroup
        ++ dataQueryAggregation ++ dataQueryOrder ++ dataQuerySkip ++ dataQueryLimit :=
  ⟨rfl, rfl⟩

/-- C26. The texts of the compiled queries do not depend on the values of the
filters, on the page or on the limit: two queries with the same present
filters compile, on any hosts, to the same `baseQuery`, `countQuery` and
`dataQuery`.  The values reach the store through `params` only. -/
theorem compileLeads_text_independent (h h2 : Host) (day day2 : LocalDay)
    (q q2 : LeadsQuery)
    (hsame : (leadsFilters q).map Prod.fst = (leadsFilters q2).map Prod.fst) :
    (compileLeads h day q).baseQuery = (compileLeads h2 day2 q2).baseQuery
    ∧ (compileLeads h day q).countQuery = (compileLeads h2 day2 q2).countQuery
    ∧ (compileLeads h day q).dataQuery = (compileLeads h2 day2 q2).dataQuery := by
  have hb : (compileLeads h day q).baseQuery = (compileLeads h2 day2 q2).baseQuery := by
    obtain ⟨-, -, -, hb1⟩ := compileLeads_parts h day q
    obtain ⟨-, -, -, hb2⟩ := compileLeads_parts h2 day2 q2
    obtain ⟨hm1, hw1, -⟩ := leadsParts_eq h day q
    obtain ⟨hm2, hw2, -⟩ := leadsParts_eq h2 day2 q2
    simp only [leadsFilters, List.map_cons, List.map_nil, List.cons.injEq, and_true] at hsame
    obtain ⟨e1, e2, e3, e4, e5, e6, e7, e8, e9⟩ := hsame
    rw [hb1, hb2]
    unfold baseQueryOf
    rw [hm1, hm2, hw1, hw2, e1, e2, e3, e4, e5, e6, e7, e8, e9]
  obtain ⟨hc1, hd1⟩ := compileLeads_texts h day q
  obtain ⟨hc2, hd2⟩ := compileLeads_texts h2 day2 q2
  exact ⟨hb, by rw [hc1, hc2, hb], by rw [hd1, hd2, hb]⟩

theorem compileLeads_text_independent_witness :
    (compileLeads exampleHost utcDay
        { emptyQuery with nome := Val.str "Ana", page := Val.str "1" }).dataQuery
      = (compileLeads (zonedHost 3600000) utcDay
        { emptyQuery with nome := Val.str "x') OR 1=1 //", page := Val.str "7" }).dataQuery :=
  (compileLeads_text_independent exampleHost (zonedHost 3600000) utcDay utcDay
    { emptyQuery with nome := Val.str "Ana", page := Val.str "1" }
    { emptyQuery with nome := Val.str "x') OR 1=1 //", page := Val.str "7" } rfl).2.2

/-! ## C22 -/

theorem titleLine_eq (h : Host) (key : String) (value : Val) :
    titleLine h key value = key ++ ": " ++ titleRendering h value ++ "\n" := by
  cases value <;> simp [titleLine, titleRendering, typeofObject, isNull, String.append_assoc]

theorem foldl_titleLine (h : Host) (es : List (String × Val)) (init : String) :
    es.foldl (fun title kv => title ++ titleLine h kv.1 kv.2) init
      = init ++ concatLines (es.map (fun kv => kv.1 ++ ": " ++ titleRendering h kv.2 ++ "\n")) := by
  induction es generalizing init with
  | nil => simp [concatLines]
  | cons e rest ih =>
    rw [List.foldl_cons, ih, titleLine_eq]
    simp [concatLines, String.append_assoc]

/-- C22. The title of a node is the trimmed text made of the line `ID: <id>`,
the line `Labels: <labels joined by ", ">` and one line `<key>: <rendering>`
per own property in key order, where an array is rendered as its first three
elements joined by `, `, followed by `...` exactly when it has more than three
elements, an object that is neither `null` nor an array as
`[Objeto Complexo]`, and every other value, `null` included, as its string
form. -/
theorem getNodeTitle_text (h : Host) (properties : Val) (labels : List String) (id : String) :
    getNodeTitle h properties labels id = titleText h properties labels id
    ∧ (∀ xs, xs.length ≤ 3 → titleRendering h (.arr xs) = joinItems h ", " xs)
    ∧ (∀ a b c rest, rest ≠ [] →
        titleRendering h (.arr (a :: b :: c :: rest)) = joinItems h ", " [a, b, c] ++ "...")
    ∧ (∀ c fs, titleRendering h (.obj c fs) = "[Objeto Complexo]")
    ∧ titleRendering h .null = "null"
    ∧ getNodeTitle exampleHost
        (Val.obj Cls.plain [("nome", Val.str "Ana"),
          ("tags", Val.arr [Val.str "a", Val.str "b", Val.str "c", Val.str "d"]),
          ("plano", Val.obj Cls.plain [("passo", Val.num (JSNum.fin 2))]),
          ("nota", Val.null)]) ["Lead", "Cliente"] "1"
      = "ID: 1\nLabels: Lead, Cliente\nnome: Ana\ntags: a, b, c...\nplano: [Objeto Complexo]\nnota: null" := by
  refine ⟨?_, ?_, ?_, ?_, rfl, by decide⟩
  · unfold getNodeTitle titleText
    rw [foldl_titleLine]
    have e : ∀ x : String, "\n" ++ ("Labels: " ++ x) = "\nLabels: " ++ x := fun x => by
      rw [← String.append_assoc]
      rfl
    simp [concatLines, String.append_assoc, e]
  · intro xs hx
    have h1 : ¬ 3 < xs.length := by omega
    simp [titleRendering, List.take_of_length_le hx, h1]
  · intro a b c rest hr
    have h1 : 3 < (a :: b :: c :: rest).length := by
      cases rest with
      | nil => exact absurd rfl hr
      | cons x xs => simp
    simp [titleRendering, List.length_pos.2 hr]
  · intro c fs
    rfl

/-! ## C28 -/

/-- The map reached by a path the recursion follows, and into which it
recurses, is output as the map of its converted fields. -/
theorem valAt_convAt_map (h : Host) (p : List Step) (pl : Place) (v : Val)
    (gs : List (String × Val)) (k : String)
    (hw : wellFormed v = true) (hp : followed pl (p ++ [.key k]) = true)
    (hv : valAt v p = some (.obj .plain gs)) :
    valAt (convAt h pl v) p
      = some (.obj .plain (gs.map (fun kv => (kv.1, convValue h kv.1 kv.2)))) := by
  induction p generalizing pl v with
  | nil =>
    simp only [valAt, Option.some.injEq] at hv
    subst hv
    simp only [List.nil_append] at hp
    rw [(convAt_map h pl gs k [] hw hp).1]
    rfl
  | cons s rest ih =>
    simp only [valAt, List.cons_append] at hv hp ⊢
    cases s with
    | key k2 =>
      cases v with
      | obj c fs =>
        cases c with
        | plain =>
          obtain ⟨hconv, hp2⟩ := convAt_map h pl fs k2 _ hw hp
          simp only [wellFormed, Bool.and_eq_true, decide_eq_true_eq] at hw
          rw [hconv]
          simp only [child, lookup_map_conv] at hv ⊢
          cases hl2 : fs.lookup k2 with
          | none => simp [hl2] at hv
          | some c2 =>
            simp only [hl2, Option.bind_some, Option.map_some'] at hv ⊢
            exact ih (.under k2) c2 (wellFormedFields_lookup fs k2 c2 hw.2 hl2) hp2 hv
        | _ => simp [child] at hv
      | _ => simp [child] at hv
    | idx j =>
      cases v with
      | arr xs =>
        obtain ⟨hconv, hp2⟩ := convAt_list h pl xs j _ hp
        simp only [wellFormed] at hw
        rw [hconv]
        simp only [child, List.getElem?_map] at hv ⊢
        cases hl2 : xs[j]? with
        | none => simp [hl2] at hv
        | some c2 =>
          simp only [hl2, Option.bind_some, Option.map_some'] at hv ⊢
          exact ih .element c2 (wellFormedItems_get xs j c2 hw hl2) hp2 hv
      | _ => simp [child] at hv

/-- C28. For every map (an object whose keys are pairwise distinct at every
depth), `convertNeo4jProperties` returns a map with exactly the keys of the
input in the same order, and so does every nested map into which it recurses
(reached through maps and lists stored under keys that are not allow-listed,
and from a list into its map elements): no key is added, dropped or renamed.
For `null` and for an absent (`undefined`) input it returns the empty map. -/
theorem convertNeo4jProperties_keys (h : Host) (c : Cls) (fs : List (String × Val))
    (hw : wellFormed (.obj c fs) = true) :
    (∃ out, convertNeo4jProperties h (.obj c fs) = .obj .plain out
      ∧ out.map Prod.fst = fs.map Prod.fst)
    ∧ (∀ p gs k, c = .plain → followed .element (p ++ [.key k]) = true →
        valAt (.obj c fs) p = some (.obj .plain gs) →
        ∃ out, valAt (convertNeo4jProperties h (.obj c fs)) p = some (.obj .plain out)
          ∧ out.map Prod.fst = gs.map Prod.fst)
    ∧ convertNeo4jProperties h .null = .obj .plain []
    ∧ convertNeo4jProperties h .undefined = .obj .plain [] := by
  have hnd : (fs.map Prod.fst).Nodup := by
    simp only [wellFormed, Bool.and_eq_true, decide_eq_true_eq] at hw
    exact hw.1
  refine ⟨⟨_, convertNeo4jProperties_of_nodup h c fs hnd, ?_⟩, ?_, rfl, rfl⟩
  · simp [List.map_map, Function.comp_def]
  · intro p gs k hc hp hv
    subst hc
    have hcv : convertNeo4jProperties h (.obj .plain fs) = convAt h .element (.obj .plain fs) := by
      rw [convertNeo4jProperties_obj]
      rfl
    rw [hcv, valAt_convAt_map h p .element _ gs k hw hp hv]
    exact ⟨_, rfl, by simp [List.map_map, Function.comp_def]⟩

theorem convertNeo4jProperties_keys_witness :
    ∃ out, valAt (convertNeo4jProperties exampleHost
        (Val.obj Cls.plain [("b", Val.int 1),
          ("a", Val.arr [Val.obj Cls.plain [("z", Val.null), ("createdAt", Val.int 0)]])]))
        [Step.key "a", Step.idx 0] = some (Val.obj Cls.plain out)
      ∧ out.map Prod.fst = ["z", "createdAt"] :=
  (convertNeo4jProperties_keys exampleHost Cls.plain
    [("b", Val.int 1),
      ("a", Val.arr [Val.obj Cls.plain [("z", Val.null), ("createdAt", Val.int 0)]])]
    (by decide)).2.1 [Step.key "a", Step.idx 0] [("z", Val.null), ("createdAt", Val.int 0)]
    "z" rfl (by decide) rfl

/-! ## C30 -/

/-- C30. For every node type that is not one of the six allow-listed names
the handler answers 400 with the error `Tipo de nó inválido.` and runs no
query; when it runs queries the node type is allow-listed, and the item query
and the count query are among the twelve fixed texts of the six allow-listed
node types, whatever the caller sent. -/
theorem knowledgebaseItems_allow_list (h : Host) (nodeType : String) (page limit : Val) :
    (nodeType ∉ allowedNodeTypes →
      knowledgebaseItems h nodeType page limit = .error (400, "Tipo de nó inválido."))
    ∧ (∀ r, knowledgebaseItems h nodeType page limit = .ok r →
        nodeType ∈ allowedNodeTypes
        ∧ r.itemQuery ∈ knowledgebaseItemQueries
        ∧ r.countQuery ∈ knowledgebaseCountQueries
        ∧ r.params = knowledgebaseParams h page limit)
    ∧ knowledgebaseItemQueries.length = 6 ∧ knowledgebaseCountQueries.length = 6 := by
  refine ⟨?_, ?_, rfl, rfl⟩
  · intro hn
    simp [knowledgebaseItems, hn]
  · intro r hr
    by_cases hm : nodeType ∈ allowedNodeTypes
    · refine ⟨hm, ?_⟩
      simp only [allowedNodeTypes, List.mem_cons, List.mem_singleton, List.not_mem_nil,
        or_false] at hm
      rcases hm with rfl | rfl | rfl | rfl | rfl | rfl <;>
        simp [knowledgebaseItems, allowedNodeTypes] at hr <;> subst hr <;>
        simp [knowledgebaseItemQueries, knowledgebaseCountQueries, allowedNodeTypes]
    · simp [knowledgebaseItems, hm] at hr

theorem knowledgebaseItems_allow_list_witness :
    knowledgebaseItems exampleHost "Lead) DETACH DELETE (n" Val.undefined Val.undefined
      = Except.error (400, "Tipo de nó inválido.") :=
  (knowledgebaseItems_allow_list exampleHost "Lead) DETACH DELETE (n" Val.undefined
    Val.undefined).1 (by decide)

/-! ## C27 -/

theorem takeWhile_append_stop (p : Char → Bool) (l b : List Char)
    (hb : ∀ c, b.head? = some c → p c = false) :
    (l ++ b).takeWhile p = l.takeWhile p := by
  induction l with
  | nil =>
    cases b with
    | nil => rfl
    | cons c rest => simp [List.takeWhile, hb c rfl]
  | cons x rest ih =>
    simp only [List.cons_append, List.takeWhile_cons, ih]

theorem takeWhile_append_of_mem (p : Char → Bool) (l b : List Char) (c : Char)
    (hc : c ∈ l) (hp : p c = false) :
    (l ++ b).takeWhile p = l.takeWhile p := by
  induction l with
  | nil => simp at hc
  | cons x rest ih =>
    simp only [List.cons_append, List.takeWhile_cons]
    cases hx : p x with
    | false => rfl
    | true =>
      simp only [if_true]
      rcases List.mem_cons.1 hc with rfl | hr
      · rw [hx] at hp
        cases hp
      · rw [ih hr]

theorem placeholdersOf_cons (c : Char) (rest : List Char) :
    placeholdersOf (c :: rest)
      = if c = '$' then String.mk (rest.takeWhile isNameChar) :: placeholdersOf rest
        else placeholdersOf rest := rfl

theorem placeholdersOf_append_start (a b : List Char)
    (hb : ∀ c, b.head? = some c → isNameChar c = false) :
    placeholdersOf (a ++ b) = placeholdersOf a ++ placeholdersOf b := by
  induction a with
  | nil => rfl
  | cons x rest ih =>
    rw [List.cons_append, placeholdersOf_cons, placeholdersOf_cons, ih,
      takeWhile_append_stop _ rest b hb]
    split <;> simp

theorem placeholdersOf_append_end (a b : List Char) (c : Char)
    (hl : a.getLast? = some c) (hn : isNameChar c = false) (hd : c ≠ '$') :
    placeholdersOf (a ++ b) = placeholdersOf a ++ placeholdersOf b := by
  induction a with
  | nil => simp at hl
  | cons x rest ih =>
    cases rest with
    | nil =>
      simp only [List.getLast?_singleton, Option.some.injEq] at hl
      subst hl
      simp [placeholdersOf_cons, hd, placeholdersOf]
    | cons y ys =>
      have hl2 : (y :: ys).getLast? = some c := by
        rw [List.getLast?_cons_cons] at hl
        exact hl
      have hmem : c ∈ y :: ys := List.mem_of_getLast?_eq_some hl2
      rw [List.cons_append, placeholdersOf_cons, placeholdersOf_cons, ih hl2,
        takeWhile_append_of_mem isNameChar (y :: ys) b c hmem hn]
      split <;> simp

theorem placeholders_append (a b : String) (hs : safeEnd a = true ∨ safeStart b = true) :
    placeholders (a ++ b) = placeholders a ++ placeholders b := by
  simp only [placeholders, String.data_append]
  rcases hs with hs | hs
  · simp only [safeEnd] at hs
    cases hl : a.data.getLast? with
    | none => simp [hl] at hs
    | some c =>
      simp only [hl, Bool.and_eq_true, Bool.not_eq_true', bne_iff_ne, ne_eq] at hs
      exact placeholdersOf_append_end _ _ c hl hs.1 hs.2
  · apply placeholdersOf_append_start
    intro c hc
    simpa [safeStart, hc] using hs

theorem safeEnd_append (a b : String) (hb : safeEnd b = true) : safeEnd (a ++ b) = true := by
  simp only [safeEnd, String.data_append] at hb ⊢
  cases hl : b.data.getLast? with
  | none => simp [hl] at hb
  | some c =>
    rw [List.getLast?_append, hl]
    simpa [hl] using hb

/-- The placeholders of texts joined by a separator that has none, starts
with a character that is not a name character and ends with one that is
neither a name character nor `$`. -/
theorem placeholders_joinStrings (sep : String) (h1 : safeStart sep = true)
    (h2 : safeEnd sep = true) (h3 : placeholders sep = []) :
    ∀ l : List String, placeholders (joinStrings sep l) = l.flatMap placeholders
  | [] => rfl
  | [x] => by simp [joinStrings]
  | x :: y :: rest => by
    rw [joinStrings, placeholders_append _ _ (Or.inl (safeEnd_append x sep h2)),
      placeholders_append _ _ (Or.inr h1), h3, placeholders_joinStrings sep h1 h2 h3 (y :: rest)]
    simp

theorem flatMap_opt (c : Bool) (x : String) (f : String → List String) :
    (if c then [x] else []).flatMap f = if c then f x else [] := by
  cases c <;> simp

theorem map_key_opt (c : Bool) (cl k : String) :
    (if c then [(c, cl, k)] else []).map (fun f => f.2.2) = if c then [k] else [] := by
  cases c <;> rfl

/-- The placeholders of the where-clauses are the keys of the present
filters, in order. -/
theorem placeholders_whereClauses (h : Host) (day : LocalDay) (q : LeadsQuery) :
    (compileLeads h day q).whereClauses.flatMap placeholders
      = ((leadsFilters q).filter (fun f => f.1)).map (fun f => f.2.2) := by
  obtain ⟨-, hwc, -, -⟩ := compileLeads_parts h day q
  obtain ⟨-, hw, -⟩ := leadsParts_eq h day q
  rw [hwc, hw]
  simp only [List.flatMap_append, flatMap_opt, List.nil_append, leadsFilters, filter_cons_opt,
    List.filter_nil, List.map_append, map_key_opt, List.map_nil, List.append_nil]
  have c1 : placeholders "toLower(l.nome) CONTAINS toLower($nome)" = ["nome"] := by decide
  have c2 : placeholders "l.nivelDeInteresseReuniao = $nivelInteresse" = ["nivelInteresse"] := by
    decide
  have c3 : placeholders "l.origemDoLead = $origem" = ["origem"] := by decide
  have c4 : placeholders "l.dtCriacao >= $dtCriacaoStartMillis" = ["dtCriacaoStartMillis"] := by
    decide
  have c5 : placeholders "l.dtCriacao <= $dtCriacaoEndMillis" = ["dtCriacaoEndMillis"] := by
    decide
  have c6 : placeholders "l.dtUltimaAtualizacao >= $dtAtualizacaoStartMillis"
      = ["dtAtualizacaoStartMillis"] := by decide
  have c7 : placeholders "l.dtUltimaAtualizacao <= $dtAtualizacaoEndMillis"
      = ["dtAtualizacaoEndMillis"] := by decide
  have c8 : placeholders "tg.nome = $tag" = ["tag"] := by decide
  have c9 : placeholders "dr.nome = $dor" = ["dor"] := by decide
  rw [c1, c2, c3, c4, c5, c6, c7, c8, c9]
  simp only [List.append_assoc]

/-- The placeholders of the base query are those of its where-clauses. -/
theorem placeholders_baseQuery (h : Host) (day : LocalDay) (q : LeadsQuery) :
    placeholders (compileLeads h day q).baseQuery
      = (compileLeads h day q).whereClauses.flatMap placeholders := by
  obtain ⟨-, hwc0, -, hb⟩ := compileLeads_parts h day q
  obtain ⟨hm, -, -⟩ := leadsParts_eq h day q
  have hsp1 : safeStart " " = true := by decide
  have hsp2 : safeEnd " " = true := by decide
  have hsp3 : placeholders " " = [] := by decide
  have hmc : placeholders (joinStrings " " (leadsParts h day q).matchClauses) = [] := by
    rw [placeholders_joinStrings " " hsp1 hsp2 hsp3, hm]
    simp only [List.flatMap_append, flatMap_opt, List.flatMap_cons, List.flatMap_nil,
      List.append_nil]
    have e1 : placeholders "MATCH (l:Lead)" = [] := by decide
    have e2 : placeholders "MATCH (l)-[:TEM_TAG]->(tg:Tag)" = [] := by decide
    have e3 : placeholders "MATCH (l)-[:TEM_DOR]->(dr:Dor)" = [] := by decide
    rw [e1, e2, e3]
    simp
  have hwc : placeholders (if (leadsParts h day q).whereClauses.length > 0
      then "WHERE " ++ joinStrings " AND " (leadsParts h day q).whereClauses else "")
      = (leadsParts h day q).whereClauses.flatMap placeholders := by
    split
    · rw [placeholders_append _ _ (Or.inl (by decide)),
        placeholders_joinStrings " AND " (by decide) (by decide) (by decide)]
      have e : placeholders "WHERE " = [] := by decide
      rw [e, List.nil_append]
    · rename_i hlen
      have : (leadsParts h day q).whereClauses = [] := by
        cases hl : (leadsParts h day q).whereClauses with
        | nil => rfl
        | cons x xs => simp [hl] at hlen
      rw [this]
      rfl
  rw [hb, hwc0]
  unfold baseQueryOf
  rw [placeholders_append _ _ (Or.inl (safeEnd_append _ " " hsp2)),
    placeholders_append _ _ (Or.inr hsp1), hmc, hsp3, hwc]
  rfl

set_option maxRecDepth 100000 in
theorem placeholders_template :
    placeholders dataQueryIndent = [] ∧ placeholders dataQueryRegroup = []
    ∧ placeholders dataQueryAggregation = [] ∧ placeholders dataQueryOrder = []
    ∧ placeholders dataQuerySkip = ["skip"] ∧ placeholders dataQueryLimit = ["limit"] := by
  decide

theorem params_keys (h : Host) (day : LocalDay) (q : LeadsQuery) :
    (compileLeads h day q).params.map Prod.fst
      = ["skip", "limit"] ++ ((leadsFilters q).filter (fun f => f.1)).map (fun f => f.2.2) := by
  obtain ⟨-, -, hp, -⟩ := compileLeads_parts h day q
  obtain ⟨-, -, hp2⟩ := leadsParts_eq h day q
  rw [hp, hp2]
  simp only [List.map_append, map_fst_opt, paginationParams, List.map_cons, List.map_nil,
    leadsFilters, filter_cons_opt, List.filter_nil, map_key_opt, List.append_nil,
    List.append_assoc]

/-- C27. For every query the compiled listing query is parameter-closed: the
placeholders of `dataQuery` are those of the where-clauses of the present
filters followed by `$skip` and `$limit`; the keys of `params` are `skip`,
`limit` and the keys of the present filters; so every placeholder of
`dataQuery`, and of each where-clause, is a key of `params`, and every key of
`params` is a placeholder of `dataQuery`. -/
theorem dataQuery_parameter_closed (h : Host) (day : LocalDay) (q : LeadsQuery) :
    placeholders (compileLeads h day q).dataQuery
      = ((leadsFilters q).filter (fun f => f.1)).map (fun f => f.2.2) ++ ["skip", "limit"]
    ∧ (compileLeads h day q).params.map Prod.fst
      = ["skip", "limit"] ++ ((leadsFilters q).filter (fun f => f.1)).map (fun f => f.2.2)
    ∧ (∀ k, k ∈ placeholders (compileLeads h day q).dataQuery
        ↔ k ∈ (compileLeads h day q).params.map Prod.fst)
    ∧ (∀ w ∈ (compileLeads h day q).whereClauses, ∀ k ∈ placeholders w,
        k ∈ (compileLeads h day q).params.map Prod.fst) := by
  have hdq : placeholders (compileLeads h day q).dataQuery
      = ((leadsFilters q).filter (fun f => f.1)).map (fun f => f.2.2) ++ ["skip", "limit"] := by
    rw [(compileLeads_texts h day q).2]
    have r1 : safeEnd dataQueryRegroup = true := by decide
    have r2 : safeEnd dataQueryAggregation = true := by decide
    have r3 : safeEnd dataQueryOrder = true := by decide
    have r4 : safeEnd dataQuerySkip = true := by decide
    rw [placeholders_append _ _ (Or.inl (safeEnd_append _ _ r4)),
      placeholders_append _ _ (Or.inl (safeEnd_append _ _ r3)),
      placeholders_append _ _ (Or.inl (safeEnd_append _ _ r2)),
      placeholders_append _ _ (Or.inl (safeEnd_append _ _ r1)),
      placeholders_append _ _ (Or.inr (by decide)),
      placeholders_append _ _ (Or.inl (by decide)), placeholders_baseQuery,
      placeholders_whereClauses]
    obtain ⟨p1, p2, p3, p4, p5, p6⟩ := placeholders_template
    rw [p1, p2, p3, p4, p5, p6]
    simp
  have hk := params_keys h day q
  refine ⟨hdq, hk, ?_, ?_⟩
  · intro k
    rw [hdq, hk]
    simp only [List.mem_append]
    exact Or.comm
  · intro w hw k hkw
    rw [hk, ← placeholders_whereClauses h day q, List.mem_append]
    right
    exact List.mem_flatMap.2 ⟨w, hw, hkw⟩

theorem dataQuery_parameter_closed_witness :
    "nome" ∈ (compileLeads exampleHost utcDay
      { emptyQuery with nome := Val.str "Ana" }).params.map Prod.fst :=
  (dataQuery_parameter_closed exampleHost utcDay { emptyQuery with nome := Val.str "Ana" }).2.2.2
    "toLower(l.nome) CONTAINS toLower($nome)" (by decide) "nome" (by decide)

/-! ## C29 -/

theorem lt_pow_bitLengthAux (fuel : Nat) : ∀ n, n ≤ fuel → n < 2 ^ bitLengthAux fuel n := by
  induction fuel with
  | zero =>
    intro n hn
    have : n = 0 := by omega
    subst this
    simp [bitLengthAux]
  | succ f ih =>
    intro n hn
    simp only [bitLengthAux]
    split
    · rename_i h0
      subst h0
      simp
    · rename_i h0
      have h2 := ih (n / 2) (by omega)
      rw [Nat.pow_succ]
      omega

theorem lt_pow_bitLength (n : Nat) : n < 2 ^ bitLength n :=
  lt_pow_bitLengthAux n n (Nat.le_refl n)

/-- The quotient of two positive integers below `2 ^ 53`: the value is
`m / 2 ^ s`, where `m` is the quotient `n * 2 ^ s / d` rounded to the nearest
integer and `2 ^ (s + 1)` exceeds `d`. -/
theorem roundRatio_small (n d : Nat) (hn : 0 < n) (hn53 : n < 2 ^ 53) (hd : 0 < d)
    (hd53 : d < 2 ^ 53) :
    ∃ s m : Nat, roundRatio n d = .fin (mkRat (m : Nat) (2 ^ s)) ∧ d < 2 ^ (s + 1)
      ∧ n * 2 ^ s / d ≤ m ∧ m ≤ n * 2 ^ s / d + 1
      ∧ (m = n * 2 ^ s / d + 1 → 0 < n * 2 ^ s % d)
      ∧ (d < 2 * (n * 2 ^ s % d) → m = n * 2 ^ s / d + 1) := by
  have hn0 : n ≠ 0 := by omega
  simp only [roundRatio, if_neg hn0]
  have hbn : bitLength n ≤ 53 := bitLengthAux_le _ _ _ hn53
  have hbd : bitLength d ≤ 53 := bitLengthAux_le _ _ _ hd53
  have hdlt : d < 2 ^ bitLength d := lt_pow_bitLength d
  have hbd1 : 1 ≤ bitLength d := by
    by_contra hc
    have h0 : bitLength d = 0 := by omega
    rw [h0] at hdlt
    simp at hdlt
    omega
  generalize bitLength n = bn at hbn ⊢
  generalize bitLength d = bd at hbd hdlt hbd1 ⊢
  have main : ∀ e : Int, e ≤ 0 → e ≤ (bn : Int) - bd - 52 → -1074 ≤ e →
      (let num := n * 2 ^ (-e).toNat
       let den := d * 2 ^ e.toNat
       let q := num / den
       let r := num % den
       let m := if den < 2 * r ∨ (2 * r = den ∧ q % 2 = 1) then q + 1 else q
       if 971 < e ∨ (e = 971 ∧ m = 2 ^ 53) then JSNum.posInf
       else JSNum.fin (mkRat (m * 2 ^ e.toNat : Nat) (2 ^ (-e).toNat)))
      = JSNum.fin (mkRat
          ((if d < 2 * (n * 2 ^ (-e).toNat % d)
              ∨ (2 * (n * 2 ^ (-e).toNat % d) = d ∧ n * 2 ^ (-e).toNat / d % 2 = 1)
            then n * 2 ^ (-e).toNat / d + 1 else n * 2 ^ (-e).toNat / d : Nat))
          (2 ^ (-e).toNat))
      ∧ d < 2 ^ ((-e).toNat + 1) := by
    intro e he0 hup _
    have het : e.toNat = 0 := by omega
    constructor
    · simp only [het, pow_zero, Nat.mul_one]
      rw [if_neg (by omega)]
    · have hs : bd ≤ (-e).toNat + 1 := by omega
      exact Nat.lt_of_lt_of_le hdlt (Nat.pow_le_pow_right (by norm_num) hs)
  generalize he0 : (bn : Int) - (bd : Int) - 53 = e0
  have h1 : e0 ≤ -1 := by omega
  have h2 : -106 ≤ e0 := by omega
  generalize he1 : (if 2 ^ 53 * (d * 2 ^ e0.toNat) ≤ n * 2 ^ (-e0).toNat then e0 + 1 else e0) = e1
  have h3 : e1 ≤ 0 ∧ e0 ≤ e1 ∧ e1 ≤ e0 + 1 := by
    rw [← he1]
    split <;> omega
  have h4 : max e1 (-1074) = e1 := max_eq_left (by omega)
  rw [h4]
  obtain ⟨hval, hdl⟩ := main e1 h3.1 (by omega) (by omega)
  simp only at hval
  refine ⟨(-e1).toNat, _, hval, hdl, ?_, ?_, ?_, ?_⟩
  · split <;> omega
  · split <;> omega
  · intro hm
    split at hm
    · rename_i hc
      rcases hc with hc | hc
      · omega
      · omega
    · omega
  · intro hlt
    rw [if_pos (Or.inl hlt)]

theorem jsCeil_fin (q : ℚ) : jsCeil (.fin q) = .fin ((⌈q⌉ : Int) : ℚ) := by
  simp only [jsCeil]
  congr 2
  rw [show ⌈q⌉ = -⌊-q⌋ from by rw [Int.floor_neg, neg_neg], Rat.floor_def, Rat.neg_num,
    Rat.neg_den]

/-- The ceiling of the rounded quotient of two integers below `2 ^ 53` is the
ceiling of the quotient. -/
theorem jsCeil_roundRatio (n d : Nat) (hn53 : n < 2 ^ 53) (hd : 0 < d) (hd53 : d < 2 ^ 53) :
    jsCeil (roundRatio n d) = .fin ((((n + d - 1) / d : Nat) : Int) : ℚ) := by
  by_cases hn : n = 0
  · subst hn
    have h0 : (0 + d - 1) / d = 0 := Nat.div_eq_of_lt (by omega)
    rw [h0]
    simp [roundRatio, jsCeil]
  obtain ⟨s, m, hval, hds, hq1, hq2, hup, hround⟩ :=
    roundRatio_small n d (by omega) hn53 hd hd53
  rw [hval, jsCeil_fin]
  congr 2
  generalize hN : (n + d - 1) / d = N
  have hNd1 : n ≤ N * d := by
    have := Nat.div_add_mod (n + d - 1) d
    have hm := Nat.mod_lt (n + d - 1) hd
    rw [hN] at this
    have e : d * N = N * d := Nat.mul_comm _ _
    omega
  have hNd2 : (N - 1) * d < n := by
    have := Nat.div_mul_le_self (n + d - 1) d
    rw [hN] at this
    have hN1 : 1 ≤ N := by
      rw [← hN]
      exact (Nat.one_le_div_iff hd).2 (by omega)
    have e : N * d = (N - 1) * d + d := by
      conv_lhs => rw [show N = (N - 1) + 1 by omega]
      rw [Nat.add_mul, Nat.one_mul]
    omega
  have hP : 0 < 2 ^ s := Nat.two_pow_pos s
  generalize hPdef : 2 ^ s = P at hq1 hq2 hup hround hP hval
  have hPd : d < 2 * P := by
    rw [← hPdef, ← Nat.pow_succ']
    exact hds
  generalize hY : n * P = Y at hq1 hq2 hup hround
  have hdm := Nat.div_add_mod Y d
  have hr := Nat.mod_lt Y hd
  generalize hqdef : Y / d = q at hq1 hq2 hup hround hdm
  generalize hrdef : Y % d = r at hup hround hdm hr
  -- upper bound : m ≤ N * P
  have hYu : Y ≤ N * P * d := by
    rw [← hY]
    calc n * P ≤ N * d * P := Nat.mul_le_mul_right P hNd1
      _ = N * P * d := by ring
  have hYl : (N - 1) * P * d + P ≤ Y := by
    rw [← hY]
    have h1 : (N - 1) * d + 1 ≤ n := hNd2
    calc (N - 1) * P * d + P = ((N - 1) * d + 1) * P := by ring
      _ ≤ n * P := Nat.mul_le_mul_right P h1
  have hqu : q ≤ N * P := by
    by_contra hc
    have h1 : N * P + 1 ≤ q := by omega
    have h2 : (N * P + 1) * d ≤ q * d := Nat.mul_le_mul_right d h1
    have h3 : d * q = q * d := Nat.mul_comm _ _
    have h4 : (N * P + 1) * d = N * P * d + d := by ring
    omega
  have hql : (N - 1) * P ≤ q := by
    by_contra hc
    have h1 : q + 1 ≤ (N - 1) * P := by omega
    have h2 : (q + 1) * d ≤ (N - 1) * P * d := Nat.mul_le_mul_right d h1
    have h3 : d * q = q * d := Nat.mul_comm _ _
    have h4 : (q + 1) * d = q * d + d := by ring
    omega
  have hmu : m ≤ N * P := by
    by_contra hc
    have hm1 : m = q + 1 := by omega
    have hrpos := hup hm1
    have hqeq : q = N * P := by omega
    have h3 : d * q = q * d := Nat.mul_comm _ _
    rw [hqeq] at hdm h3
    omega
  have hml : (N - 1) * P < m := by
    by_contra hc
    have hqeq : q = (N - 1) * P := by omega
    have h3 : d * q = q * d := Nat.mul_comm _ _
    rw [hqeq] at hdm h3
    have hrP : P ≤ r := by omega
    have hm1 := hround (by omega)
    omega
  have hN1 : 1 ≤ N := by
    by_contra hc
    have : N = 0 := by omega
    subst this
    simp at hNd1
    omega
  rw [Int.ceil_eq_iff, Rat.mkRat_eq_div]
  have hPq : (0 : ℚ) < ((P : Nat) : ℚ) := by exact_mod_cast hP
  push_cast
  constructor
  · rw [lt_div_iff₀ hPq]
    have : (((N - 1) * P : Nat) : ℚ) < (m : ℚ) := by exact_mod_cast hml
    have hcast : (((N - 1) * P : Nat) : ℚ) = ((N : ℚ) - 1) * (P : ℚ) := by
      rw [Nat.cast_mul, Nat.cast_sub hN1, Nat.cast_one]
    rw [hcast] at this
    exact this
  · rw [div_le_iff₀ hPq]
    exact_mod_cast hmu

theorem jsDiv_nat (t l : Nat) (hl : 0 < l) :
    jsDiv (.fin ((t : Int) : ℚ)) (.fin ((l : Int) : ℚ)) = roundRatio t l := by
  have h1 : (((t : Int) : ℚ)).num = t := Rat.intCast_num _
  have h2 : (((t : Int) : ℚ)).den = 1 := Rat.intCast_den _
  have h3 : (((l : Int) : ℚ)).num = l := Rat.intCast_num _
  have h4 : (((l : Int) : ℚ)).den = 1 := Rat.intCast_den _
  have h5 : ¬ ((l : Int) = 0) := by omega
  have h6 : ((t : Int) < 0) = ((l : Int) < 0) := by
    have a : ¬ ((t : Int) < 0) := by omega
    have b : ¬ ((l : Int) < 0) := by omega
    simp [a, b]
  simp only [jsDiv, h1, h2, h3, h4, if_neg h5, Int.natAbs_ofNat, Nat.mul_one, Nat.one_mul]
  rw [if_pos h6]

set_option maxRecDepth 100000 in
/-- C29, counterexample. For `totalItems = 5` and the limit `10 ^ 309`, an
integer that is at least 1, `parseInt` gives `Infinity` and the reported
`totalPages` is 0 although `totalItems` is not 0; and for a count of
9007199254740993 with the limit 1 the reported `totalPages` is
9007199254740992, which is below the count. -/
theorem totalPages_not_ceiling :
    parseIntVal exampleHost (Val.str hugeLimit) = JSNum.posInf
    ∧ totalPagesOf exampleHost (totalItemsOf (some 5)) (Val.str hugeLimit) = JSNum.fin 0
    ∧ totalPagesOf exampleHost (totalItemsOf (some 9007199254740993)) (Val.str "1")
      = JSNum.fin 9007199254740992
    ∧ (9007199254740992 : Int) * 1 < 9007199254740993 := by
  refine ⟨by with_unfolding_all rfl, by with_unfolding_all rfl, by with_unfolding_all rfl, ?_⟩
  decide

/-- C29, amended. For every count `t` and every limit that `parseInt` reads
as an integer `l ≥ 1`, both below `2 ^ 53`, the reported `totalPages` is the
ceiling of `t / l`, computed through the binary64 quotient: it is the least
`n` with `n · l ≥ t`, it is 0 exactly when `t` is 0, and otherwise
`(totalPages − 1) · l < t ≤ totalPages · l`.  Outside that range the count
and the limit are first rounded to binary64. -/
theorem totalPages_ceiling (h : Host) (limit : Val) (t l : Nat)
    (hl : parseIntVal h limit = .fin ((l : Int) : ℚ)) (hl1 : 1 ≤ l) (hl53 : l < 2 ^ 53)
    (ht53 : t < 2 ^ 53) :
    totalPagesOf h (totalItemsOf (some (t : Int))) limit
      = .fin ((((t + l - 1) / l : Nat) : Int) : ℚ)
    ∧ t ≤ (t + l - 1) / l * l
    ∧ (∀ n, t ≤ n * l → (t + l - 1) / l ≤ n)
    ∧ ((t + l - 1) / l = 0 ↔ t = 0)
    ∧ (0 < t → ((t + l - 1) / l - 1) * l < t) := by
  have hround : roundToDouble (t : Int) = .fin ((t : Int) : ℚ) :=
    roundToDouble_small _ (by simpa using ht53)
  have hdm := Nat.div_add_mod (t + l - 1) l
  have hm := Nat.mod_lt (t + l - 1) (show 0 < l by omega)
  generalize hN : (t + l - 1) / l = N at hdm
  have e : l * N = N * l := Nat.mul_comm _ _
  refine ⟨?_, ?_, ?_, ?_, ?_⟩
  · simp only [totalPagesOf, totalItemsOf, hl, hround]
    rw [jsDiv_nat t l (by omega), jsCeil_roundRatio t l ht53 (by omega) hl53, hN]
  · omega
  · intro n hn
    by_contra hc
    have h1 : n + 1 ≤ N := by omega
    have h2 : (n + 1) * l ≤ N * l := Nat.mul_le_mul_right l h1
    have h3 : (n + 1) * l = n * l + l := by ring
    omega
  · constructor
    · intro h0
      subst h0
      omega
    · intro h0
      subst h0
      by_contra hc
      have h1 : 1 ≤ N := by omega
      have h2 : 1 * l ≤ N * l := Nat.mul_le_mul_right l h1
      omega
  · intro ht
    have h1 : 1 ≤ N := by
      by_contra hc
      have : N = 0 := by omega
      subst this
      omega
    have h2 : N * l = (N - 1) * l + l := by
      conv_lhs => rw [show N = (N - 1) + 1 by omega]
      rw [Nat.add_mul, Nat.one_mul]
    omega

theorem totalPages_ceiling_witness :
    totalPagesOf exampleHost (totalItemsOf (some ((45 : Nat) : Int))) (Val.str "10")
      = JSNum.fin 5 :=
  ((totalPages_ceiling exampleHost (Val.str "10") 45 10 rfl (by decide) (by decide)
    (by decide)).1).trans (by norm_num)

/-! ## Evaluations of the example definitions -/

/-- The two words of the driver `Integer` of value -1, and of value `2 ^ 31`. -/
theorem ownEntries_int_words :
    ownEntries (Val.int (-1))
        = [("low", Val.num (JSNum.fin (-1))), ("high", Val.num (JSNum.fin (-1)))]
    ∧ ownEntries (Val.int (2 ^ 31))
        = [("low", Val.num (JSNum.fin (-2147483648))), ("high", Val.num (JSNum.fin 0))] := by
  constructor <;> with_unfolding_all rfl

/-- The bounds of the UTC day of 2024-03-15T10:30:00.000Z. -/
theorem utcDay_bounds :
    utcDay.startOfDay (Val.str "2024-03-15T10:30:00.000Z") = JSNum.fin 1710460800000
    ∧ utcDay.endOfDay (Val.str "2024-03-15T10:30:00.000Z") = JSNum.fin 1710547199999 := by
  constructor <;> with_unfolding_all rfl

end Kora
